import Mathlib

/-!
Verification of the HF-CODEGEN x86-64 backend (src/src/compiler/x86.rs)
against its natural-language specification.

The development shallowly embeds the translator, the scope/function
registry, the calling-convention adapter for external calls and the
object-file builder.  The instruction-encoding/assembler engine and the
object-file container writer are external capabilities in the spec; they
are modelled symbolically (instruction items with sizes and byte
encodings, label address resolution after assembly, a symbol/relocation
table that records entries in insertion order).
-/

set_option maxHeartbeats 1000000

namespace HFCodegen

/-- Source span attached to every IR node (crate::ir::Span, as constructed
at src/src/compiler/x86.rs:472-478: a location pair plus a length). -/
structure Span where
  location : Nat × Nat
  length : Nat
deriving DecidableEq

mutual

/-- Modelled from the spec: the IR operation vocabulary of crate::ir::IrOp
(the enum itself is not under src/; spec section 3 lists the ten handled
kinds and adds that the vocabulary may contain other operation kinds,
which translation must reject).  `OtherOp` stands for any operation kind
other than the ten handled ones. -/
inductive IrOp : Type where
  | Add : Nat → IrOp
  | Subtract : Nat → IrOp
  | MoveRight : Nat → IrOp
  | MoveLeft : Nat → IrOp
  | StackPush : IrOp
  | StackPop : IrOp
  | Condition : IrNodeList → IrOp
  | Function : String → IrNodeList → IrOp
  | FunctionCall : String → IrOp
  | ExternalFunctionCall : String → IrOp
  | OtherOp : IrOp

/-- An IR node: a tagged operation plus a source span (crate::ir::IrNode,
used via the fields `node` and `span` in x86.rs). -/
inductive IrNode : Type where
  | mk : IrOp → Span → IrNode

/-- A sequence of IR nodes (Vec of IrNode in the source; a dedicated
mutual list type so that the translator is structurally recursive). -/
inductive IrNodeList : Type where
  | nil : IrNodeList
  | cons : IrNode → IrNodeList → IrNodeList

end

/-- Field accessor mirroring `ir_node.node`. -/
def IrNode.node : IrNode → IrOp
  | .mk op _ => op

/-- Field accessor mirroring `ir_node.span`. -/
def IrNode.span : IrNode → Span
  | .mk _ s => s

def IrNodeList.append : IrNodeList → IrNodeList → IrNodeList
  | .nil, ys => ys
  | .cons x xs, ys => .cons x (xs.append ys)

/-- Modelled from the spec: crate::target::CallingConvention (not under
src/).  The two conventions handled at x86.rs:300-348 and 360-382 are
explicit; `OtherConvention` stands for any other requested convention,
which spec section 4.3 calls a configuration error. -/
inductive CallingConvention : Type where
  | X86_64_SystemVAMD64
  | X86_64_MicrosoftX64
  | OtherConvention
deriving DecidableEq

/-- Modelled from the spec: compiler::CompilerSettings (not under src/).
Only the base address is consumed by this backend (x86.rs:68-69; spec
section 6: a base address used when resolving addresses). -/
structure CompilerSettings where
  base_address : Nat
deriving DecidableEq

/-- Modelled from the spec: compiler::CompilerErrorKind (not under src/).
The variants are those constructed in x86.rs together with the two kinds
listed in spec section 7 that x86.rs never constructs (unsupported
operation, unsupported calling convention). -/
inductive CompilerErrorKind : Type where
  | AssemblerError : String → CompilerErrorKind
  | MoveTooLarge : Nat → CompilerErrorKind
  | FunctionNotFound : String → CompilerErrorKind
  | RelocationFailed : String → CompilerErrorKind
  | UnsupportedOperation : CompilerErrorKind
  | UnsupportedCallingConvention : CompilerErrorKind
deriving DecidableEq

/-- compiler::CompilerError: an error kind plus an optional source span. -/
structure CompilerError where
  kind : CompilerErrorKind
  span : Option Span
deriving DecidableEq

/-- Outcome of running a fallible Rust computation: `ok` and `err` mirror
`Result`, `diverged` mirrors a panic (todo!, unwrap, expect, or an
out-of-bounds index). -/
inductive TResult (α : Type) : Type where
  | ok : α → TResult α
  | err : CompilerError → TResult α
  | diverged : String → TResult α

def TResult.bind {α β : Type} : TResult α → (α → TResult β) → TResult β
  | .ok a, f => f a
  | .err e, _ => .err e
  | .diverged m, _ => .diverged m

instance : Monad TResult where
  pure := .ok
  bind := TResult.bind

@[simp] theorem TResult.bind_ok {α β : Type} (a : α) (f : α → TResult β) :
    TResult.bind (.ok a) f = f a := rfl

@[simp] theorem TResult.bind_err {α β : Type} (e : CompilerError) (f : α → TResult β) :
    TResult.bind (.err e) f = .err e := rfl

@[simp] theorem TResult.bind_diverged {α β : Type} (m : String) (f : α → TResult β) :
    TResult.bind (.diverged m) f = .diverged m := rfl

/-- The registers the backend touches (x86.rs register comments: R8 holds
the current cell address, R9 the auxiliary stack pointer; RDI/RSI and
RCX/RDX are the argument registers of the two calling conventions). -/
inductive Reg : Type where
  | r8 | r9 | rdi | rsi | rcx | rdx
deriving DecidableEq

/-- Symbolic instruction stream items pushed through the assembler
capability (iced_x86 CodeAssembler, out of scope per spec section 1).
Labels are numeric identifiers handed out by the assembler. -/
inductive AsmItem : Type where
  | zeroBytes : AsmItem
  | bindLabel : Nat → AsmItem
  | addCell : Nat → AsmItem
  | subCell : Nat → AsmItem
  | leaR8Add : Nat → AsmItem
  | leaR8Sub : Nat → AsmItem
  | leaR9Add : Nat → AsmItem
  | leaR9Sub : Nat → AsmItem
  | movAlCell : AsmItem
  | movStackAl : AsmItem
  | movAlStack : AsmItem
  | movCellAl : AsmItem
  | cmpCellZero : AsmItem
  | je : Nat → AsmItem
  | jmp : Nat → AsmItem
  | callLabel : Nat → AsmItem
  | pushReg : Reg → AsmItem
  | popReg : Reg → AsmItem
  | leaArg : Reg → Nat → AsmItem
  | ret : AsmItem
deriving DecidableEq

/-- The assembler capability's mutable state: the instruction stream so
far plus a fresh-label counter (iced_x86 CodeAssembler). -/
structure CodeAssembler where
  items : List AsmItem
  nextLabel : Nat
deriving DecidableEq

def CodeAssembler.create_label (a : CodeAssembler) : Nat × CodeAssembler :=
  (a.nextLabel, { a with nextLabel := a.nextLabel + 1 })

def CodeAssembler.emit (a : CodeAssembler) (i : AsmItem) : CodeAssembler :=
  { a with items := a.items ++ [i] }

def CodeAssembler.emitAll (a : CodeAssembler) (l : List AsmItem) : CodeAssembler :=
  { a with items := a.items ++ l }

/-- Modelled from the spec: crate::scope::ScopeManager (not under src/;
spec section 4.1).  `fns` is the flat function map, most recent entry
first, each entry remembering whether the scope stack was empty (root)
when it was registered; `scope_stack` is the stack of active scope names,
each carrying its per-scope anonymous-block counter. -/
structure ScopeManager where
  fns : List (String × Nat × Bool)
  scope_stack : List (String × Nat)
deriving DecidableEq

def ScopeManager.new : ScopeManager := ⟨[], []⟩

/-- Modelled from the spec: registers name → label in the flat function
map; a repeated name shadows the older entry on lookup. -/
def ScopeManager.push_fn (m : ScopeManager) (name : String) (label : Nat) : ScopeManager :=
  { m with fns := (name, label, m.scope_stack.isEmpty) :: m.fns }

/-- Modelled from the spec: `resolve_function(name)`; absence signals the
function-not-found condition to the caller. -/
def ScopeManager.get_fn (m : ScopeManager) (name : String) : Option Nat :=
  (m.fns.find? (fun e => e.1 == name)).map (fun e => e.2.1)

def ScopeManager.push_scope (m : ScopeManager) (name : String) : ScopeManager :=
  { m with scope_stack := (name, 0) :: m.scope_stack }

def ScopeManager.pop_scope (m : ScopeManager) : ScopeManager :=
  { m with scope_stack := m.scope_stack.tail }

def ScopeManager.get_top_scope_name (m : ScopeManager) : Option String :=
  m.scope_stack.head?.map (fun e => e.1)

/-- Modelled from the spec: `next_anonymous_id()`, a counter unique within
the current scope. -/
def ScopeManager.next_unnamed_scope_number (m : ScopeManager) : Nat × ScopeManager :=
  match m.scope_stack with
  | [] => (0, m)
  | (n, c) :: rest => (c, { m with scope_stack := (n, c + 1) :: rest })

/-- Modelled from the spec: `global_functions()` returns only the
root-scope function entries, used to build the object's public symbol
table. -/
def ScopeManager.get_global_functions (m : ScopeManager) : List (String × Nat) :=
  (m.fns.filter (fun e => e.2.2)).map (fun e => (e.1, e.2.1))

/-- Translator state threaded through translate_ir_node_impl: the
Compiler fields the translator mutates, plus the assembler that
translate_ir_node hands it. -/
structure TransSt where
  calling_convention : CallingConvention
  external_calls : List (String × List Nat)
  scopes : ScopeManager
  asm : CodeAssembler
deriving DecidableEq

/-- Compiler::add_external_call (x86.rs:43-49): push the label onto the
name's vector if present, otherwise insert a fresh singleton vector. -/
def insertExternalCall : List (String × List Nat) → String → Nat → List (String × List Nat)
  | [], name, label => [(name, [label])]
  | (n, ls) :: rest, name, label =>
    if n = name then (n, ls ++ [label]) :: rest
    else (n, ls) :: insertExternalCall rest name label

def add_external_call (s : TransSt) (name : String) (label : Nat) : TransSt :=
  { s with external_calls := insertExternalCall s.external_calls name label }

/-- The immediates emitted for `Add(n)` by the chunking loop at
x86.rs:119-138: a 255 chunk per iteration while the remainder exceeds
255, then one final add of the remainder. -/
def addEmits (n : Nat) : List Nat :=
  if h : n > 255 then 255 :: addEmits (n - 255) else [n]
termination_by n
decreasing_by omega

mutual

/-- Compiler::translate_ir_node_impl (x86.rs:113-387), one case per match
arm; the catch-all arm and the catch-all calling-convention arms are
todo! in the source and therefore diverge.  The Function arm carries the
body of Compiler::translate_function_impl (x86.rs:79-111) inline so the
mutual group is structurally recursive; the standalone
`translate_function_impl` below restates it and agrees definitionally
(`translate_function_eq`). -/
def translate_ir_node_impl (s : TransSt) (ir_node : IrNode) : TResult TransSt :=
  match ir_node with
  | .mk (.Add n) _span =>
    .ok { s with asm := s.asm.emitAll ((addEmits n).map AsmItem.addCell) }
  | .mk (.Subtract n) _span =>
    .ok { s with asm := s.asm.emit (.subCell (n % 2 ^ 32)) }
  | .mk (.MoveRight n) span =>
    if n > 0x7FFFFFFF then
      .err ⟨.MoveTooLarge (n % 2 ^ 32), some span⟩
    else
      .ok { s with asm := s.asm.emit (.leaR8Add (n % 2 ^ 32)) }
  | .mk (.MoveLeft n) span =>
    if n > 0x7FFFFFFF then
      .err ⟨.MoveTooLarge (n % 2 ^ 32), some span⟩
    else
      .ok { s with asm := s.asm.emit (.leaR8Sub (n % 2 ^ 32)) }
  | .mk .StackPush _span =>
    .ok { s with asm := s.asm.emitAll [.leaR9Add 1, .movAlCell, .movStackAl] }
  | .mk .StackPop _span =>
    .ok { s with asm := s.asm.emitAll [.movAlStack, .movCellAl, .leaR9Sub 1] }
  | .mk (.Condition body) _span =>
    let ps := s.asm.create_label
    let pe := ps.2.create_label
    let a3 := (((pe.2.emit .zeroBytes).emit (.bindLabel ps.1)).emit .cmpCellZero).emit
      (.je pe.1)
    let top := (s.scopes.get_top_scope_name).getD ""
    let pn := s.scopes.next_unnamed_scope_number
    let scope_name := top ++ ";" ++ toString pn.1
    let s4 : TransSt := { s with asm := a3, scopes := pn.2.push_scope scope_name }
    TResult.bind (translateNodes s4 body) (fun s5 =>
      .ok { s5 with
        scopes := s5.scopes.pop_scope
        asm := ((s5.asm.emit (.jmp ps.1)).emit (.bindLabel pe.1)).emit .zeroBytes })
  | .mk (.Function name fn_ir_nodes) _span =>
    let p := s.asm.create_label
    let a2 := (p.2.emit .zeroBytes).emit (.bindLabel p.1)
    let s2 : TransSt := { s with
      asm := a2
      scopes := ((s.scopes.push_fn name p.1).push_scope name) }
    TResult.bind (translateNodes s2 fn_ir_nodes) (fun s3 =>
      .ok { s3 with scopes := s3.scopes.pop_scope, asm := s3.asm.emit .ret })
  | .mk (.FunctionCall name) span =>
    match s.scopes.get_fn name with
    | none => .err ⟨.FunctionNotFound name, some span⟩
    | some fn_label => .ok { s with asm := s.asm.emit (.callLabel fn_label) }
  | .mk (.ExternalFunctionCall name) _span =>
    let pl := s.asm.create_label
    let a2 := pl.2.emit .zeroBytes
    let setup : TResult (List AsmItem) :=
      match s.calling_convention with
      | .X86_64_SystemVAMD64 =>
        .ok [.pushReg .r8, .pushReg .r9, .leaArg .rdi 8, .leaArg .rsi 0]
      | .X86_64_MicrosoftX64 =>
        .ok [.pushReg .r8, .pushReg .r9, .leaArg .rcx 8, .leaArg .rdx 0]
      | .OtherConvention => .diverged "not yet implemented"
    TResult.bind setup (fun su =>
      let a3 := (a2.emitAll su).emit (.bindLabel pl.1)
      let s3 := add_external_call { s with asm := a3 } name pl.1
      let s4 : TransSt := { s3 with asm := s3.asm.emit (.callLabel pl.1) }
      let cleanup : TResult (List AsmItem) :=
        match s.calling_convention with
        | .X86_64_SystemVAMD64 => .ok [.popReg .r9, .popReg .r8]
        | .X86_64_MicrosoftX64 => .ok [.popReg .r9, .popReg .r8]
        | .OtherConvention => .diverged "not yet implemented"
      TResult.bind cleanup (fun cu => .ok { s4 with asm := s4.asm.emitAll cu }))
  | .mk .OtherOp _span => .diverged "not yet implemented"

/-- Sequential translation of a node list (the loops at x86.rs:64-66,
101-103 and 257-259). -/
def translateNodes (s : TransSt) (ns : IrNodeList) : TResult TransSt :=
  match ns with
  | .nil => .ok s
  | .cons n rest =>
    TResult.bind (translate_ir_node_impl s n) (fun s2 => translateNodes s2 rest)

end

/-- Compiler::translate_function_impl (x86.rs:79-111): create the entry
label, emit a zero-byte phantom, bind the label, register the function
before translating the body (push_fn, then push_scope), translate the
children, pop the scope and append a return. -/
def translate_function_impl (s : TransSt) (name : String) (_span : Span)
    (children : IrNodeList) : TResult TransSt :=
  let p := s.asm.create_label
  let a2 := (p.2.emit .zeroBytes).emit (.bindLabel p.1)
  let s2 : TransSt := { s with
    asm := a2
    scopes := ((s.scopes.push_fn name p.1).push_scope name) }
  TResult.bind (translateNodes s2 children) (fun s3 =>
    .ok { s3 with scopes := s3.scopes.pop_scope, asm := s3.asm.emit .ret })

/-- The Function arm of translate_ir_node_impl is exactly a call to
translate_function_impl, as at x86.rs:280-282. -/
theorem translate_function_eq (s : TransSt) (name : String) (span : Span)
    (children : IrNodeList) :
    translate_ir_node_impl s (.mk (.Function name children) span) =
      translate_function_impl s name span children := rfl

/-! Assembler capability model.  The spec scopes the encoding engine out
(section 1), treating it as a capability that takes symbolic instructions
and produces a byte buffer plus resolved label addresses.  The model
assigns each item a fixed x86-64 encoding; call and jump targets are
resolved eagerly, as the source comments at x86.rs:495-497 state. -/

def itemSize : AsmItem → Nat
  | .zeroBytes => 0
  | .bindLabel _ => 0
  | .addCell _ => 4
  | .subCell _ => 4
  | .leaR8Add _ => 7
  | .leaR8Sub _ => 7
  | .leaR9Add _ => 7
  | .leaR9Sub _ => 7
  | .movAlCell => 3
  | .movStackAl => 3
  | .movAlStack => 3
  | .movCellAl => 3
  | .cmpCellZero => 4
  | .je _ => 6
  | .jmp _ => 5
  | .callLabel _ => 5
  | .pushReg _ => 2
  | .popReg _ => 2
  | .leaArg _ _ => 5
  | .ret => 1

/-- Labels referenced as jump or call targets. -/
def referencedLabels : List AsmItem → List Nat
  | [] => []
  | .je l :: rest => l :: referencedLabels rest
  | .jmp l :: rest => l :: referencedLabels rest
  | .callLabel l :: rest => l :: referencedLabels rest
  | _ :: rest => referencedLabels rest

/-- Address of each bound label, instructions measured by `itemSize`. -/
def labelAddrs (addr : Nat) : List AsmItem → List (Nat × Nat)
  | [] => []
  | .bindLabel l :: rest => (l, addr) :: labelAddrs addr rest
  | i :: rest => labelAddrs (addr + itemSize i) rest

/-- Little-endian 32-bit byte encoding. -/
def le32 (v : Nat) : List Nat :=
  [v % 256, v / 256 % 256, v / 65536 % 256, v / 16777216 % 256]

/-- Displacement from the end of an instruction to a target address,
reduced modulo 2^32 (the IP-relative operand of call/jmp/je). -/
def rel32 (target after : Nat) : Nat :=
  (target + 2 ^ 32 - after % 2 ^ 32) % 2 ^ 32

def encodeReg : Reg → Nat
  | .r8 => 0
  | .r9 => 1
  | .rdi => 7
  | .rsi => 6
  | .rcx => 2
  | .rdx => 3

/-- Byte encoding of one item; `addr` is the item's own address and `env`
resolves label targets. -/
def encodeItem (env : Nat → Option Nat) (addr : Nat) : AsmItem → List Nat
  | .zeroBytes => []
  | .bindLabel _ => []
  | .addCell imm => [0x41, 0x80, 0x00, imm % 256]
  | .subCell imm => [0x41, 0x80, 0x28, imm % 256]
  | .leaR8Add d => [0x4D, 0x8D, 0x80] ++ le32 d
  | .leaR8Sub d => [0x4D, 0x8D, 0x80] ++ le32 ((2 ^ 32 - d % 2 ^ 32) % 2 ^ 32)
  | .leaR9Add d => [0x4D, 0x8D, 0x89] ++ le32 d
  | .leaR9Sub d => [0x4D, 0x8D, 0x89] ++ le32 ((2 ^ 32 - d % 2 ^ 32) % 2 ^ 32)
  | .movAlCell => [0x41, 0x8A, 0x00]
  | .movStackAl => [0x41, 0x88, 0x01]
  | .movAlStack => [0x41, 0x8A, 0x01]
  | .movCellAl => [0x41, 0x88, 0x00]
  | .cmpCellZero => [0x41, 0x80, 0x38, 0x00]
  | .je l => [0x0F, 0x84] ++ le32 (rel32 ((env l).getD 0) (addr + 6))
  | .jmp l => [0xE9] ++ le32 (rel32 ((env l).getD 0) (addr + 5))
  | .callLabel l => [0xE8] ++ le32 (rel32 ((env l).getD 0) (addr + 5))
  | .pushReg r => [0x41, 0x50 + encodeReg r]
  | .popReg r => [0x41, 0x58 + encodeReg r]
  | .leaArg r off => [0x48, 0x8D, encodeReg r, 0x24, off % 256]
  | .ret => [0xC3]

def encodeAll (env : Nat → Option Nat) (addr : Nat) : List AsmItem → List Nat
  | [] => []
  | i :: rest => encodeItem env addr i ++ encodeAll env (addr + itemSize i) rest

/-- The assembled result: a machine-code byte buffer plus the label
address table (iced_x86 CodeAssemblerResult as consumed by x86.rs). -/
structure CodeAssemblerResult where
  codeBuffer : List Nat
  labelIps : List (Nat × Nat)
deriving DecidableEq

def CodeAssemblerResult.label_ip (r : CodeAssemblerResult) (l : Nat) : Option Nat :=
  (r.labelIps.find? (fun e => e.1 == l)).map (fun e => e.2)

def lookupAddr (env : List (Nat × Nat)) (l : Nat) : Option Nat :=
  (env.find? (fun e => e.1 == l)).map (fun e => e.2)

/-- `assemble_options` of the capability: resolves and encodes, failing
when an instruction references a label that was never bound. -/
def assembleItems (base : Nat) (items : List AsmItem) : Except String CodeAssemblerResult :=
  let env := labelAddrs base items
  if (referencedLabels items).all (fun l => (lookupAddr env l).isSome) then
    .ok ⟨encodeAll (lookupAddr env) base items, env⟩
  else
    .error "label is not initialized"

/-! Machine model for the translated straight-line data instructions.
R8 is the data pointer, R9 the auxiliary stack pointer; memory is a byte
map.  Control flow and the native-stack items take no step here: only
the cell/pointer effects the claims quantify over are modelled. -/

structure Machine where
  r8 : Nat
  r9 : Nat
  al : Nat
  mem : Nat → Nat

def updMem (f : Nat → Nat) (a v : Nat) : Nat → Nat :=
  fun x => if x = a then v else f x

def stepStraight (m : Machine) : AsmItem → Option Machine
  | .zeroBytes => some m
  | .bindLabel _ => some m
  | .addCell imm => some { m with mem := updMem m.mem m.r8 ((m.mem m.r8 + imm) % 256) }
  | .subCell imm =>
    some { m with mem := updMem m.mem m.r8 ((m.mem m.r8 + (256 - imm % 256)) % 256) }
  | .leaR8Add d => some { m with r8 := (m.r8 + d) % 2 ^ 64 }
  | .leaR8Sub d => some { m with r8 := (m.r8 + (2 ^ 64 - d % 2 ^ 64)) % 2 ^ 64 }
  | .leaR9Add d => some { m with r9 := (m.r9 + d) % 2 ^ 64 }
  | .leaR9Sub d => some { m with r9 := (m.r9 + (2 ^ 64 - d % 2 ^ 64)) % 2 ^ 64 }
  | .movAlCell => some { m with al := m.mem m.r8 }
  | .movStackAl => some { m with mem := updMem m.mem m.r9 m.al }
  | .movAlStack => some { m with al := m.mem m.r9 }
  | .movCellAl => some { m with mem := updMem m.mem m.r8 m.al }
  | _ => none

def execStraight (m : Machine) : List AsmItem → Option Machine
  | [] => some m
  | i :: rest => (stepStraight m i).bind (fun m2 => execStraight m2 rest)

/-! The Compiler value and its two compile entry points. -/

/-- The Compiler struct (x86.rs:20-26).  The function registry and the
external-call table are fields of the long-lived value. -/
structure Compiler where
  bitness : Nat
  calling_convention : CallingConvention
  settings : CompilerSettings
  external_calls : List (String × List Nat)
  scopes : ScopeManager
deriving DecidableEq

/-- Compiler::new (x86.rs:29-41). -/
def Compiler.new (bitness : Nat) (compiler_settings : CompilerSettings)
    (calling_convention : CallingConvention) : Compiler :=
  ⟨bitness, calling_convention, compiler_settings, [], ScopeManager.new⟩

/-- Compiler::translate_ir_node (x86.rs:59-77): a fresh assembler, the
node loop, then assembly at the configured base address; assembler
failures are wrapped with no span. -/
def translate_ir_node (c : Compiler) (ir_node : IrNodeList) :
    TResult (CodeAssemblerResult × Compiler) :=
  let s0 : TransSt := ⟨c.calling_convention, c.external_calls, c.scopes, ⟨[], 0⟩⟩
  TResult.bind (translateNodes s0 ir_node) (fun s1 =>
    match assembleItems c.settings.base_address s1.asm.items with
    | .error e => .err ⟨.AssemblerError e, none⟩
    | .ok res =>
      .ok (res, { c with external_calls := s1.external_calls, scopes := s1.scopes }))

/-- CompilerTrait::compile_to_bytecode (x86.rs:391-393). -/
def compile_to_bytecode (c : Compiler) (ir : IrNodeList) : TResult (List Nat × Compiler) :=
  TResult.bind (translate_ir_node c ir) (fun rc => .ok (rc.1.codeBuffer, rc.2))

/-! Object artifact model.  The container writer (the object crate) is an
external capability; symbols and relocations are recorded in insertion
order and a symbol id is the symbol's index.  The Rust field name
`section` is a Lean keyword, so the symbol field is called `sect`. -/

inductive SymKind : Type where
  | Text
  | File
deriving DecidableEq

inductive SymScope : Type where
  | Dynamic
  | Compilation
deriving DecidableEq

inductive SymSection : Type where
  | Undefined
  | Section
  | NoSection
deriving DecidableEq

structure ObjSymbol where
  name : String
  value : Nat
  size : Nat
  kind : SymKind
  scope : SymScope
  weak : Bool
  sect : SymSection
deriving DecidableEq

inductive RelocKind : Type where
  | Relative
deriving DecidableEq

inductive RelocEncoding : Type where
  | X86RipRelative
deriving DecidableEq

structure ObjRelocation where
  offset : Nat
  symbol : Nat
  addend : Int
  kind : RelocKind
  encoding : RelocEncoding
  size : Nat
deriving DecidableEq

structure ObjectFile where
  symbols : List ObjSymbol
  relocs : List ObjRelocation
  textData : List Nat
deriving DecidableEq

def ObjectFile.addSymbolId (o : ObjectFile) (s : ObjSymbol) : ObjectFile × Nat :=
  ({ o with symbols := o.symbols ++ [s] }, o.symbols.length)

def listModify {α : Type} : List α → Nat → (α → α) → List α
  | [], _, _ => []
  | x :: xs, 0, f => f x :: xs
  | x :: xs, n + 1, f => x :: listModify xs n f

/-- object::write::Object::set_symbol_data as used at x86.rs:532 and 559:
re-values an existing symbol at an in-section offset. -/
def ObjectFile.set_symbol_data (o : ObjectFile) (id ip sz : Nat) : ObjectFile :=
  let upd := fun (s : ObjSymbol) => { s with value := ip, size := sz, sect := SymSection.Section }
  { o with symbols := listModify o.symbols id upd }

def alignUp (n a : Nat) : Nat := ((n + a - 1) / a) * a

/-- object::write::Object::add_symbol_data as used at x86.rs:521-522:
appends the code buffer to the text section at an aligned offset and
points the symbol at it. -/
def ObjectFile.add_symbol_data (o : ObjectFile) (id : Nat) (data : List Nat)
    (align : Nat) : ObjectFile × Nat :=
  let off := alignUp o.textData.length align
  let upd := fun (s : ObjSymbol) =>
    { s with value := off, size := data.length, sect := SymSection.Section }
  ({ o with
      textData := o.textData ++ List.replicate (off - o.textData.length) 0 ++ data
      symbols := listModify o.symbols id upd },
    off)

/-- HashMap::insert semantics for fn_symbol_map (x86.rs:465): overwrite
the value at an existing key, append a new key. -/
def assocUpdate : List (String × Nat) → String → Nat → List (String × Nat)
  | [], name, v => [(name, v)]
  | (n, x) :: rest, name, v =>
    if n = name then (n, v) :: rest else (n, x) :: assocUpdate rest name v

/-- The partition loop at x86.rs:448-470: pre-create one exported symbol
per top-level Function node, record it in fn_symbol_map, and split the
ast into function and non-function nodes. -/
def partitionTopLevel (o : ObjectFile) (map : List (String × Nat))
    (fnAst nonFnAst : IrNodeList) :
    IrNodeList → ObjectFile × List (String × Nat) × IrNodeList × IrNodeList
  | .nil => (o, map, fnAst, nonFnAst)
  | .cons node rest =>
    match node with
    | .mk (.Function name _children) _ =>
      let p := o.addSymbolId
        { name := name, value := 0, size := 0, kind := .Text, scope := .Dynamic,
          weak := false, sect := .Section }
      partitionTopLevel p.1 (assocUpdate map name p.2)
        (fnAst.append (.cons node .nil)) nonFnAst rest
    | _ => partitionTopLevel o map fnAst (nonFnAst.append (.cons node .nil)) rest

/-- The symbol loop over get_global_functions at x86.rs:481-493: one more
symbol per root-registered function, valued at its resolved label
address; a missing address is the expect panic. -/
def addGlobalFnSymbols (res : CodeAssemblerResult) (o : ObjectFile) :
    List (String × Nat) → TResult ObjectFile
  | [] => .ok o
  | (name, lbl) :: rest =>
    match res.label_ip lbl with
    | none => .diverged "couldnt find label ip"
    | some ip =>
      addGlobalFnSymbols res
        ((o.addSymbolId
          { name := name, value := ip, size := 0, kind := .Text, scope := .Dynamic,
            weak := false, sect := .Section }).1) rest

/-- The four forced-zero bytes of one external call site
(x86.rs:503-505): buffer indices ip+1 through ip+4. -/
def zeroCallBytes (buf : List Nat) (ip : Nat) : List Nat :=
  ((((buf.set (ip + 1) 0).set (ip + 2) 0).set (ip + 3) 0).set (ip + 4) 0)

def zeroLabelList (res : CodeAssemblerResult) : List Nat → List Nat → TResult (List Nat)
  | [], buf => .ok buf
  | l :: rest, buf =>
    match res.label_ip l with
    | none => .diverged "couldnt find label ip for external call"
    | some ip =>
      if ip + 5 ≤ buf.length then zeroLabelList res rest (zeroCallBytes buf ip)
      else .diverged "index out of bounds"

/-- The loop at x86.rs:498-507: force the already-resolved call operand
bytes of every recorded external call site to zero. -/
def zeroExternalCallBytes (res : CodeAssemblerResult) :
    List (String × List Nat) → List Nat → TResult (List Nat)
  | [], buf => .ok buf
  | (_, ls) :: rest, buf =>
    TResult.bind (zeroLabelList res ls buf) (zeroExternalCallBytes res rest)

/-- The label-to-ip mapping at x86.rs:539-547 (unwrap on a missing ip). -/
def mapLabelIps (res : CodeAssemblerResult) : List Nat → TResult (List Nat)
  | [] => .ok []
  | l :: rest =>
    match res.label_ip l with
    | none => .diverged "label ip unwrap failed"
    | some ip => TResult.bind (mapLabelIps res rest) (fun ips => .ok (ip :: ips))

def externalSiteIps (res : CodeAssemblerResult) :
    List (String × List Nat) → TResult (List (String × List Nat))
  | [] => .ok []
  | (n, ls) :: rest =>
    TResult.bind (mapLabelIps res ls) (fun ips =>
      TResult.bind (externalSiteIps res rest) (fun tbl => .ok ((n, ips) :: tbl)))

/-- add_relocations_for_external_symbol (x86.rs:403-442): one undefined
dynamic symbol for the external name, then one 32-bit relative
relocation per call site at offset call_site + 1 with addend -4. -/
def add_relocations_for_external_symbol (obj : ObjectFile) (symbol : String)
    (call_sites : List Nat) : ObjectFile :=
  let p := obj.addSymbolId
    { name := symbol, value := 0, size := 0, kind := .Text, scope := .Dynamic,
      weak := false, sect := .Undefined }
  { p.1 with relocs := p.1.relocs ++ call_sites.map (fun call_site =>
      { offset := call_site + 1, symbol := p.2, addend := -4, kind := .Relative,
        encoding := .X86RipRelative, size := 32 }) }

/-- The fn_symbol_map update loop at x86.rs:552-560. -/
def updateFnSymbols (res : CodeAssemblerResult) (scopes : ScopeManager) (o : ObjectFile) :
    List (String × Nat) → TResult ObjectFile
  | [] => .ok o
  | (name, symId) :: rest =>
    match scopes.get_fn name with
    | none => .diverged "couldnt find function label"
    | some lbl =>
      match res.label_ip lbl with
      | none => .diverged "couldnt find label ip"
      | some ip => updateFnSymbols res scopes (o.set_symbol_data symId ip 0) rest

/-- The initial object holding only the file symbol (x86.rs:400-401). -/
def initialObj (filename : String) : ObjectFile :=
  ((⟨[], [], []⟩ : ObjectFile).addSymbolId
    { name := filename, value := 0, size := 0, kind := .File, scope := .Compilation,
      weak := false, sect := .NoSection }).1

/-- The partition pass of compile_to_object_file over the top-level ast. -/
def objPartition (ast : IrNodeList) (filename : String) :
    ObjectFile × List (String × Nat) × IrNodeList × IrNodeList :=
  partitionTopLevel (initialObj filename) [] .nil .nil ast

/-- The ordered sequence handed to the translator: the top-level function
nodes followed by the synthesized _start function wrapping the top-level
non-function nodes (x86.rs:472-478). -/
def fnAstOf (ast : IrNodeList) (filename : String) : IrNodeList :=
  (objPartition ast filename).2.2.1.append
    (.cons (IrNode.mk (.Function "_start" (objPartition ast filename).2.2.2) ⟨(0, 0), 1⟩)
      .nil)

/-- CompilerTrait::compile_to_object_file (x86.rs:395-563). -/
def compile_to_object_file (c : Compiler) (ast : IrNodeList) (filename : String) :
    TResult (ObjectFile × Compiler) :=
  let part := objPartition ast filename
  let fn_ast := fnAstOf ast filename
  TResult.bind (translate_ir_node c fn_ast) (fun rc =>
    TResult.bind (addGlobalFnSymbols rc.1 part.1 rc.2.scopes.get_global_functions)
      (fun obj3 =>
    TResult.bind (zeroExternalCallBytes rc.1 rc.2.external_calls rc.1.codeBuffer)
      (fun buf =>
    let ps := obj3.addSymbolId
      { name := "_start", value := 0, size := 0, kind := .Text, scope := .Dynamic,
        weak := false, sect := .Section }
    let obj5 := (ps.1.add_symbol_data ps.2 buf 16).1
    TResult.bind
      (match rc.2.scopes.get_fn "_start" with
       | none => .diverged "couldnt find function label for start"
       | some lbl =>
         match rc.1.label_ip lbl with
         | none => .diverged "couldnt find label ip for start"
         | some ip => .ok (obj5.set_symbol_data ps.2 ip 0))
      (fun obj6 =>
    TResult.bind (externalSiteIps rc.1 rc.2.external_calls) (fun externals =>
    let obj7 := externals.foldl (fun o p => add_relocations_for_external_symbol o p.1 p.2) obj6
    TResult.bind (updateFnSymbols rc.1 rc.2.scopes obj7 part.2.1) (fun obj8 =>
    .ok (obj8, rc.2)))))))

/-! Invariants tying the translator state to the emitted item stream.
They are what the object-file pass relies on: every label it looks up
was bound exactly once, and every recorded external call site is a
set_label immediately followed by its call. -/

/-- How many times the item stream binds label l. -/
def bindCount (items : List AsmItem) (l : Nat) : Nat :=
  (items.filter (fun i => i == AsmItem.bindLabel l)).length

/-- The label is bound immediately before a call to it (the external
call-site emission pattern at x86.rs:350-358: set_label, then call). -/
def bindCallAt (items : List AsmItem) (l : Nat) : Prop :=
  ∃ pre post, items = pre ++ .bindLabel l :: .callLabel l :: post

def sizeSum (items : List AsmItem) : Nat := (items.map itemSize).sum

def isBind : AsmItem → Bool
  | .bindLabel _ => true
  | _ => false

/-- Translator state invariant: labels at or above the counter are
unbound, every label is bound at most once, external-table keys are
distinct, every recorded external call label is bound exactly once
immediately before its call, and every registered function label is
bound exactly once and below the counter. -/
structure StInv (s : TransSt) : Prop where
  bound_lt : ∀ l, s.asm.nextLabel ≤ l → bindCount s.asm.items l = 0
  bound_once : ∀ l, bindCount s.asm.items l ≤ 1
  ext_keys : (s.external_calls.map Prod.fst).Nodup
  ext_call : ∀ p ∈ s.external_calls, ∀ l ∈ p.2,
    bindCallAt s.asm.items l ∧ bindCount s.asm.items l = 1
  fn_bound : ∀ e ∈ s.scopes.fns, bindCount s.asm.items e.2.1 = 1 ∧ e.2.1 < s.asm.nextLabel

mutual

/-- All function names declared anywhere in a node (traversal order). -/
def declaredFns : IrNode → List String
  | .mk (.Condition body) _ => declaredFnsList body
  | .mk (.Function name body) _ => name :: declaredFnsList body
  | .mk _ _ => []

def declaredFnsList : IrNodeList → List String
  | .nil => []
  | .cons n rest => declaredFns n ++ declaredFnsList rest

end

/-- The names of the top-level Function nodes, in order. -/
def topFnNames : IrNodeList → List String
  | .nil => []
  | .cons (.mk (.Function name _) _) rest => name :: topFnNames rest
  | .cons _ rest => topFnNames rest

/-- Every node of the list is a Function declaration (the shape of the
sequence compile_to_object_file hands to the translator). -/
def allFnNodes : IrNodeList → Prop
  | .nil => True
  | .cons (.mk (.Function _ _) _) rest => allFnNodes rest
  | .cons _ _ => False

/-- What one translation step may do to the state: append items, allocate
labels upward, keep the bind counts of previously allocated labels,
prepend exactly the declared function names to the registry, keep the
scope-stack names, and leave the root function list alone when the scope
stack is nonempty. -/
structure TransExt (ds : List String) (s s' : TransSt) : Prop where
  conv : s'.calling_convention = s.calling_convention
  items : ∃ new, s'.asm.items = s.asm.items ++ new
  label_le : s.asm.nextLabel ≤ s'.asm.nextLabel
  bind_pres : ∀ l, l < s.asm.nextLabel → bindCount s'.asm.items l = bindCount s.asm.items l
  fns_names : s'.scopes.fns.map Prod.fst = ds.reverse ++ s.scopes.fns.map Prod.fst
  stack : s'.scopes.scope_stack.map Prod.fst = s.scopes.scope_stack.map Prod.fst
  root_pres : s.scopes.scope_stack ≠ [] →
    s'.scopes.get_global_functions = s.scopes.get_global_functions

/-! Observers and concrete fixtures used by the claim statements. -/

def TResult.isOk {α : Type} : TResult α → Bool
  | .ok _ => true
  | _ => false

def TResult.okOr {α : Type} (d : α) : TResult α → α
  | .ok a => a
  | _ => d

def span0 : Span := ⟨(1, 2), 3⟩

def span1 : Span := ⟨(4, 5), 6⟩

def compiler0 : Compiler := Compiler.new 64 ⟨0⟩ .X86_64_SystemVAMD64

def transSt0 : TransSt := ⟨.X86_64_SystemVAMD64, [], ScopeManager.new, ⟨[], 0⟩⟩

def mach0 : Machine := ⟨100, 200, 0, fun _ => 7⟩

def progFnF : IrNodeList := .cons (.mk (.Function "f" .nil) span0) .nil

def progCallF : IrNodeList := .cons (.mk (.FunctionCall "f") span0) .nil

def progExtE : IrNodeList := .cons (.mk (.ExternalFunctionCall "e") span0) .nil

def progSibling : IrNodeList :=
  .cons (.mk (.Function "f" (.cons (.mk (.FunctionCall "g") span1) .nil)) span0)
    (.cons (.mk (.Function "g" .nil) span0) .nil)

def progHostFn : IrNodeList := .cons (.mk (.ExternalFunctionCall "host_fn") span0) .nil

/-- Compiler state returned by a first compile request that declares
function f. -/
def afterFnF : Compiler := ((compile_to_bytecode compiler0 progFnF).okOr ([], compiler0)).2

/-- Compiler state returned by a first compile request containing one
external call to e. -/
def afterExtE : Compiler := ((compile_to_bytecode compiler0 progExtE).okOr ([], compiler0)).2

/-- The undefined symbol add_relocations_for_external_symbol creates for
an external name (x86.rs:405-414). -/
def undefSym (name : String) : ObjSymbol :=
  ⟨name, 0, 0, .Text, .Dynamic, false, .Undefined⟩

/-- The exported symbol the partition loop pre-creates per top-level
function (x86.rs:450-459). -/
def preSym (name : String) : ObjSymbol :=
  ⟨name, 0, 0, .Text, .Dynamic, false, .Section⟩

/-- The relocation batch the external-symbol fold appends: the symbol ids
count up from u, and each resolved call-site ip contributes one 32-bit
RIP-relative relocation at offset ip + 1 with addend -4. -/
def expectedRelocs : Nat → List (String × List Nat) → List ObjRelocation
  | _, [] => []
  | u, (_, ips) :: rest =>
    ips.map (fun ip =>
        ({ offset := ip + 1, symbol := u, addend := -4, kind := .Relative,
           encoding := .X86RipRelative, size := 32 } : ObjRelocation)) ++
      expectedRelocs (u + 1) rest

/-- fn_symbol_map built by the partition loop over distinct names: ids
count up from k in declaration order. -/
def symIdMap : Nat → List String → List (String × Nat)
  | _, [] => []
  | k, n :: rest => (n, k) :: symIdMap (k + 1) rest

/-- The top-level Function nodes, in order (the fn_ast accumulator of the
partition loop). -/
def topFnNodes : IrNodeList → IrNodeList
  | .nil => .nil
  | .cons (.mk (.Function name body) sp) rest =>
    .cons (.mk (.Function name body) sp) (topFnNodes rest)
  | .cons _ rest => topFnNodes rest

/-- Object artifact of compiling one external call to host_fn on a fresh
compiler. -/
def objHostFn : ObjectFile :=
  ((compile_to_object_file compiler0 progHostFn "t.hf").okOr (⟨[], [], []⟩, compiler0)).1

def c2HostFn : Compiler :=
  ((compile_to_object_file compiler0 progHostFn "t.hf").okOr (⟨[], [], []⟩, compiler0)).2

/-- Object artifact of compiling one Function declaration f on a fresh
compiler. -/
def objFnF : ObjectFile :=
  ((compile_to_object_file compiler0 progFnF "t.hf").okOr (⟨[], [], []⟩, compiler0)).1

def c2FnF : Compiler :=
  ((compile_to_object_file compiler0 progFnF "t.hf").okOr (⟨[], [], []⟩, compiler0)).2

/-! Support lemmas for the Add chunking loop. -/

theorem addEmits_sum (n : Nat) : (addEmits n).sum = n := by
  induction n using Nat.strong_induction_on with
  | _ n ih =>
    rw [addEmits]
    split
    · rename_i h
      rw [List.sum_cons, ih (n - 255) (by omega)]
      omega
    · simp

theorem addEmits_small {n : Nat} (h : n ≤ 255) : addEmits n = [n] := by
  rw [addEmits]
  split
  · rename_i h2
    exact absurd h2 (by omega)
  · rfl

theorem addEmits_length {n : Nat} (h : 255 < n) :
    (addEmits n).length = (n + 254) / 255 := by
  induction n using Nat.strong_induction_on with
  | _ n ih =>
    rw [addEmits, dif_pos (by omega : n > 255)]
    by_cases h2 : 255 < n - 255
    · rw [List.length_cons, ih (n - 255) (by omega) h2]
      omega
    · rw [addEmits_small (by omega)]
      simp only [List.length_cons, List.length_nil]
      omega

theorem addEmits_form (n : Nat) :
    ∃ k, addEmits n = List.replicate k 255 ++ [n - 255 * k] ∧ n - 255 * k ≤ 255 ∧
      (255 < n → 0 < k) := by
  induction n using Nat.strong_induction_on with
  | _ n ih =>
    rw [addEmits]
    split
    · rename_i h
      obtain ⟨k, hk, hle, _⟩ := ih (n - 255) (by omega)
      refine ⟨k + 1, ?_, by omega, fun _ => by omega⟩
      have heq : n - 255 - 255 * k = n - 255 * (k + 1) := by omega
      rw [hk, heq, List.replicate_succ, List.cons_append]
    · rename_i h
      exact ⟨0, by simp, by omega, fun hc => absurd hc h⟩

theorem addEmits_pos (n : Nat) : 1 ≤ (addEmits n).length := by
  rw [addEmits]
  split
  · simp
  · simp

theorem addEmits_300 : addEmits 300 = [255, 45] := by
  rw [addEmits, dif_pos (by norm_num : (300 : Nat) > 255)]
  rw [show (300 : Nat) - 255 = 45 by norm_num, addEmits_small (by norm_num)]

/-- Executing a nonempty run of add-to-cell instructions leaves both
pointer registers alone and adds the sum of the immediates to the cell,
modulo 256. -/
theorem execStraight_addCells (xs : List Nat) (x : Nat) (m : Machine) :
    ∃ m2, execStraight m ((x :: xs).map AsmItem.addCell) = some m2 ∧
      m2.r8 = m.r8 ∧ m2.r9 = m.r9 ∧
      m2.mem m.r8 = (m.mem m.r8 + (x :: xs).sum) % 256 ∧
      ∀ a, a ≠ m.r8 → m2.mem a = m.mem a := by
  induction xs generalizing x m with
  | nil =>
    refine ⟨_, rfl, rfl, rfl, ?_, ?_⟩
    · simp [updMem]
    · intro a ha
      simp [updMem, ha]
  | cons y ys ih =>
    obtain ⟨m2, hex, hr8, hr9, hcell, hother⟩ :=
      ih y { m with mem := updMem m.mem m.r8 ((m.mem m.r8 + x) % 256) }
    refine ⟨m2, ?_, hr8, hr9, ?_, ?_⟩
    · simpa [execStraight, stepStraight] using hex
    · rw [hcell]
      simp only [updMem, if_true]
      simp only [List.sum_cons]
      omega
    · intro a ha
      rw [hother a ha]
      simp [updMem, ha]

/-! Claim theorems for the per-operation translation rules. -/

/-- Claim C1: the spec demands an explicit unsupported-operation error for
any other operation kind, but the catch-all arm at x86.rs:384 is todo!,
so translation panics instead of returning a CompilerErrorKind. -/
theorem C1_unsupported_operation_todo (s : TransSt) (span : Span) :
    translate_ir_node_impl s (.mk .OtherOp span) = .diverged "not yet implemented" :=
  rfl

/-- Claim C2: the spec demands a structured unsupported-calling-convention
error, but the catch-all arms at x86.rs:347 and 381 are todo!, so
translating an ExternalFunctionCall under any other convention panics
instead of returning an error. -/
theorem C2_unsupported_convention_todo (ext : List (String × List Nat))
    (scopes : ScopeManager) (asm : CodeAssembler) (name : String) (span : Span) :
    translate_ir_node_impl ⟨CallingConvention.OtherConvention, ext, scopes, asm⟩
        (.mk (.ExternalFunctionCall name) span) = .diverged "not yet implemented" :=
  rfl

/-- Claim C4: Add(n) emits the 255-chunk sequence: for n > 255 exactly
⌈n/255⌉ add-to-cell instructions (255 chunks then the remainder), for
n ≤ 255 a single add of n; the immediates sum to n, so executing the
emitted run adds n mod 256 to the cell; Add(300) emits exactly the two
instructions 255 then 45 and nothing else. -/
theorem C4_add_chunking (n : Nat) (s : TransSt) (span : Span) :
    (translate_ir_node_impl s (.mk (.Add n) span) =
      .ok { s with asm := s.asm.emitAll ((addEmits n).map AsmItem.addCell) }) ∧
    (255 < n → (addEmits n).length = (n + 254) / 255 ∧
      ∃ k, 0 < k ∧ addEmits n = List.replicate k 255 ++ [n - 255 * k] ∧
        n - 255 * k ≤ 255) ∧
    (n ≤ 255 → addEmits n = [n]) ∧
    (addEmits n).sum = n ∧
    (∀ m : Machine, ∃ m2,
      execStraight m ((addEmits n).map AsmItem.addCell) = some m2 ∧
      m2.r8 = m.r8 ∧ m2.r9 = m.r9 ∧
      m2.mem m.r8 = (m.mem m.r8 + n % 256) % 256 ∧
      ∀ a, a ≠ m.r8 → m2.mem a = m.mem a) ∧
    addEmits 300 = [255, 45] := by
  refine ⟨rfl, ?_, fun h => addEmits_small h, addEmits_sum n, ?_, addEmits_300⟩
  · intro h
    obtain ⟨k, hk, hle, hpos⟩ := addEmits_form n
    exact ⟨addEmits_length h, k, hpos h, hk, hle⟩
  · intro m
    cases haE : addEmits n with
    | nil =>
      have := addEmits_pos n
      rw [haE] at this
      simp at this
    | cons x xs =>
      obtain ⟨m2, hex, hr8, hr9, hcell, hother⟩ := execStraight_addCells xs x m
      refine ⟨m2, hex, hr8, hr9, ?_, hother⟩
      rw [hcell]
      have hs : (x :: xs).sum = n := by rw [← haE]; exact addEmits_sum n
      rw [hs, Nat.add_mod_mod]

/-- Claim C4, witness at n = 300. -/
theorem C4_add_chunking_witness :
    255 < 300 ∧ (addEmits 300).length = (300 + 254) / 255 :=
  ⟨by norm_num, ((C4_add_chunking 300 transSt0 span0).2.1 (by norm_num)).1⟩

/-- Claim C8: Subtract(n) always translates to exactly one subtract
instruction whose operand is the u32 cast of n; the low 8 bits of n are
what act on the cell: executing it subtracts n mod 256. -/
theorem C8_subtract_single (n : Nat) (s : TransSt) (span : Span) :
    (translate_ir_node_impl s (.mk (.Subtract n) span) =
      .ok { s with asm := s.asm.emit (.subCell (n % 2 ^ 32)) }) ∧
    (n % 2 ^ 32) % 256 = n % 256 ∧
    (∀ m : Machine, ∃ m2, execStraight m [.subCell (n % 2 ^ 32)] = some m2 ∧
      m2.r8 = m.r8 ∧ m2.r9 = m.r9 ∧
      m2.mem m.r8 = (m.mem m.r8 + (256 - n % 256)) % 256 ∧
      ∀ a, a ≠ m.r8 → m2.mem a = m.mem a) := by
  have hmod : (n % 2 ^ 32) % 256 = n % 256 :=
    Nat.mod_mod_of_dvd n (by norm_num)
  refine ⟨rfl, hmod, fun m => ⟨_, rfl, rfl, rfl, ?_, ?_⟩⟩
  · simp only [updMem, if_true]
    omega
  · intro a ha
    simp [updMem, ha]

/-- Claim C8, witness at n = 300 (beyond a byte's range). -/
theorem C8_subtract_single_witness :
    translate_ir_node_impl transSt0 (.mk (.Subtract 300) span0) =
      .ok { transSt0 with asm := transSt0.asm.emit (.subCell (300 % 2 ^ 32)) } :=
  (C8_subtract_single 300 transSt0 span0).1

/-- Claim C9: for n within the 32-bit signed positive range, MoveRight(n)
and MoveLeft(n) each emit one address-computation instruction and
executing the pair returns the data pointer to its original value; above
the range both fail with MoveTooLarge carrying the node's span. -/
theorem C9_move_round_trip :
    (∀ (s : TransSt) (span : Span) (n : Nat), n ≤ 0x7FFFFFFF →
      translate_ir_node_impl s (.mk (.MoveRight n) span) =
        .ok { s with asm := s.asm.emit (.leaR8Add n) } ∧
      translate_ir_node_impl s (.mk (.MoveLeft n) span) =
        .ok { s with asm := s.asm.emit (.leaR8Sub n) } ∧
      (∀ m : Machine, m.r8 < 2 ^ 64 →
        ∃ m2, execStraight m [.leaR8Add n, .leaR8Sub n] = some m2 ∧
          m2.r8 = m.r8 ∧ m2.r9 = m.r9 ∧ m2.al = m.al ∧ m2.mem = m.mem)) ∧
    (∀ (s : TransSt) (span : Span) (n : Nat), 0x7FFFFFFF < n →
      translate_ir_node_impl s (.mk (.MoveRight n) span) =
        .err ⟨.MoveTooLarge (n % 2 ^ 32), some span⟩ ∧
      translate_ir_node_impl s (.mk (.MoveLeft n) span) =
        .err ⟨.MoveTooLarge (n % 2 ^ 32), some span⟩) := by
  constructor
  · intro s span n h
    have hmod : n % 2 ^ 32 = n := Nat.mod_eq_of_lt (by omega)
    refine ⟨?_, ?_, ?_⟩
    · show (if n > 0x7FFFFFFF then _ else _) = _
      rw [if_neg (by omega), hmod]
    · show (if n > 0x7FFFFFFF then _ else _) = _
      rw [if_neg (by omega), hmod]
    · intro m hm
      refine ⟨_, rfl, ?_, rfl, rfl, rfl⟩
      show ((m.r8 + n) % 2 ^ 64 + (2 ^ 64 - n % 2 ^ 64)) % 2 ^ 64 = m.r8
      have h64 : (2 : Nat) ^ 64 = 18446744073709551616 := by norm_num
      rw [h64] at hm ⊢
      omega
  · intro s span n h
    constructor
    · show (if n > 0x7FFFFFFF then _ else _) = _
      rw [if_pos (by omega)]
    · show (if n > 0x7FFFFFFF then _ else _) = _
      rw [if_pos (by omega)]

/-- Claim C9, witness at n = 5 and n = 2^31. -/
theorem C9_move_round_trip_witness :
    (5 ≤ 0x7FFFFFFF ∧
      translate_ir_node_impl transSt0 (.mk (.MoveRight 5) span0) =
        .ok { transSt0 with asm := transSt0.asm.emit (.leaR8Add 5) }) ∧
    (0x7FFFFFFF < 0x80000000 ∧
      translate_ir_node_impl transSt0 (.mk (.MoveRight 0x80000000) span0) =
        .err ⟨.MoveTooLarge (0x80000000 % 2 ^ 32), some span0⟩) :=
  ⟨⟨by norm_num, (C9_move_round_trip.1 transSt0 span0 5 (by norm_num)).1⟩,
   ⟨by norm_num, (C9_move_round_trip.2 transSt0 span0 0x80000000 (by norm_num)).1⟩⟩

/-- Claim C10: Add(0) still emits exactly one add instruction with
immediate 0, and no Add node ever contributes an empty emission. -/
theorem C10_add_zero_emits_one (s : TransSt) (span : Span) :
    translate_ir_node_impl s (.mk (.Add 0) span) =
      .ok { s with asm := s.asm.emitAll [.addCell 0] } ∧
    ∀ n, 1 ≤ ((addEmits n).map AsmItem.addCell).length := by
  constructor
  · have h0 : addEmits 0 = [0] := addEmits_small (by norm_num)
    calc translate_ir_node_impl s (.mk (.Add 0) span)
        = .ok { s with asm := s.asm.emitAll ((addEmits 0).map AsmItem.addCell) } := rfl
      _ = .ok { s with asm := s.asm.emitAll [.addCell 0] } := by rw [h0]; rfl
  · intro n
    rw [List.length_map]
    exact addEmits_pos n

/-- Claim C6: a function's registry entry is made before its body is
translated, so a self-call inside the body resolves (any compiler state,
any names and spans); a FunctionCall whose name is absent from the
registry at that moment fails with FunctionNotFound carrying the call's
span, as a later-defined sibling concretely does. -/
theorem C6_registration_before_body :
    (∀ (m : ScopeManager) (name : String) (l : Nat),
      ((m.push_fn name l).push_scope name).get_fn name = some l) ∧
    (∀ (c : Compiler) (name : String) (spanF spanC : Span),
      (translate_ir_node c
        (.cons (.mk (.Function name (.cons (.mk (.FunctionCall name) spanC) .nil)) spanF)
          .nil)).isOk = true) ∧
    (∀ (s : TransSt) (name : String) (span : Span), s.scopes.get_fn name = none →
      translate_ir_node_impl s (.mk (.FunctionCall name) span) =
        .err ⟨.FunctionNotFound name, some span⟩) ∧
    compile_to_bytecode compiler0 progSibling =
      .err ⟨.FunctionNotFound "g", some span1⟩ := by
  refine ⟨?_, ?_, ?_, ?_⟩
  · intro m name l
    simp [ScopeManager.get_fn, ScopeManager.push_fn, ScopeManager.push_scope]
  · intro c name spanF spanC
    simp [translate_ir_node, translateNodes, translate_ir_node_impl, TResult.bind,
      ScopeManager.get_fn, ScopeManager.push_fn, ScopeManager.push_scope,
      CodeAssembler.create_label, CodeAssembler.emit, CodeAssembler.emitAll,
      assembleItems, referencedLabels, labelAddrs, lookupAddr, itemSize, TResult.isOk]
  · intro s name span h
    show (match s.scopes.get_fn name with
      | none => TResult.err ⟨.FunctionNotFound name, some span⟩
      | some fn_label => .ok { s with asm := s.asm.emit (.callLabel fn_label) }) = _
    rw [h]
  · rfl

/-- Claim C6, witness: the unregistered name g fails at a concrete
state. -/
theorem C6_registration_before_body_witness :
    transSt0.scopes.get_fn "g" = none ∧
    translate_ir_node_impl transSt0 (.mk (.FunctionCall "g") span0) =
      .err ⟨.FunctionNotFound "g", some span0⟩ :=
  ⟨rfl, C6_registration_before_body.2.2.1 transSt0 "g" span0 rfl⟩

/-- Claim C7: the spec requires the function registry and external-call
table to be scoped to one compile request, but the Compiler fields are
never reset: a second request on the same value still sees the first
request's registry entry for f (resolving a call that a fresh compiler
rejects with FunctionNotFound) and still carries the first request's
recorded external call site. -/
theorem C7_compiler_state_reuse :
    (compile_to_bytecode compiler0 progFnF).isOk = true ∧
    afterFnF.scopes.get_fn "f" = some 0 ∧
    compile_to_bytecode afterFnF progCallF =
      .err ⟨.AssemblerError "label is not initialized", none⟩ ∧
    compile_to_bytecode compiler0 progCallF =
      .err ⟨.FunctionNotFound "f", some span0⟩ ∧
    (compile_to_bytecode compiler0 progExtE).isOk = true ∧
    afterExtE.external_calls = [("e", [0])] ∧
    ((compile_to_bytecode afterExtE IrNodeList.nil).okOr ([], compiler0)).2.external_calls =
      [("e", [0])] :=
  ⟨rfl, rfl, rfl, rfl, rfl, rfl, rfl⟩

/-! Toolbox lemmas about bind counts, the bind-call pattern and the
assembler state. -/

theorem bindCount_append (a b : List AsmItem) (l : Nat) :
    bindCount (a ++ b) l = bindCount a l + bindCount b l := by
  simp [bindCount, List.filter_append]

theorem bindCount_nil (l : Nat) : bindCount [] l = 0 := rfl

theorem bindCount_cons (i : AsmItem) (rest : List AsmItem) (l : Nat) :
    bindCount (i :: rest) l =
      (if i = AsmItem.bindLabel l then 1 else 0) + bindCount rest l := by
  by_cases h : i = AsmItem.bindLabel l
  · subst h
    simp only [bindCount, List.filter_cons, beq_self_eq_true, if_pos, List.length_cons,
      if_true]
    omega
  · rw [if_neg h]
    show (List.filter _ (i :: rest)).length = _
    rw [List.filter_cons_of_neg (by simp [h])]
    show bindCount rest l = _
    omega

theorem beq_bindLabel_eq_false {i : AsmItem} {l : Nat} (h : isBind i = false) :
    (i == AsmItem.bindLabel l) = false := by
  cases i <;> first | rfl | simp [isBind] at h

theorem bindCount_nonbind {new : List AsmItem} (h : ∀ i ∈ new, isBind i = false)
    (l : Nat) : bindCount new l = 0 := by
  induction new with
  | nil => rfl
  | cons x xs ih =>
    have hx : (x == AsmItem.bindLabel l) = false :=
      beq_bindLabel_eq_false (h x (List.mem_cons_self x xs))
    simp only [bindCount, List.filter_cons, hx, if_false, Bool.false_eq_true]
    exact ih (fun i hi => h i (List.mem_cons_of_mem x hi))

theorem bindCount_single_bind (l : Nat) : bindCount [.bindLabel l] l = 1 := by
  simp [bindCount]

theorem bindCount_single_bind_ne {l l2 : Nat} (h : l2 ≠ l) :
    bindCount [.bindLabel l2] l = 0 := by
  simp [bindCount, h]

theorem bindCallAt_append_right {items : List AsmItem} {l : Nat}
    (h : bindCallAt items l) (b : List AsmItem) : bindCallAt (items ++ b) l := by
  obtain ⟨pre, post, rfl⟩ := h
  exact ⟨pre, post ++ b, by simp⟩

theorem bindCallAt_of_ext {s s' : TransSt} {l : Nat} (h : bindCallAt s.asm.items l)
    (he : TransExt ds s s') : bindCallAt s'.asm.items l := by
  obtain ⟨new, hnew⟩ := he.items
  rw [hnew]
  exact bindCallAt_append_right h new

@[simp] theorem create_label_fst (a : CodeAssembler) :
    a.create_label.1 = a.nextLabel := rfl

@[simp] theorem create_label_items (a : CodeAssembler) :
    a.create_label.2.items = a.items := rfl

@[simp] theorem create_label_nextLabel (a : CodeAssembler) :
    a.create_label.2.nextLabel = a.nextLabel + 1 := rfl

@[simp] theorem emit_items (a : CodeAssembler) (i : AsmItem) :
    (a.emit i).items = a.items ++ [i] := rfl

@[simp] theorem emit_nextLabel (a : CodeAssembler) (i : AsmItem) :
    (a.emit i).nextLabel = a.nextLabel := rfl

@[simp] theorem emitAll_items (a : CodeAssembler) (l : List AsmItem) :
    (a.emitAll l).items = a.items ++ l := rfl

@[simp] theorem emitAll_nextLabel (a : CodeAssembler) (l : List AsmItem) :
    (a.emitAll l).nextLabel = a.nextLabel := rfl

/-- TransExt is reflexive with no declared names. -/
theorem TransExt.refl (s : TransSt) : TransExt [] s s :=
  ⟨rfl, ⟨[], by simp⟩, le_refl _, fun _ _ => rfl, by simp, rfl, fun _ => rfl⟩

theorem TransExt.trans {d1 d2 : List String} {s t u : TransSt}
    (h1 : TransExt d1 s t) (h2 : TransExt d2 t u) : TransExt (d1 ++ d2) s u := by
  refine ⟨h2.conv.trans h1.conv, ?_, le_trans h1.label_le h2.label_le, ?_, ?_, ?_, ?_⟩
  · obtain ⟨n1, e1⟩ := h1.items
    obtain ⟨n2, e2⟩ := h2.items
    exact ⟨n1 ++ n2, by rw [e2, e1, List.append_assoc]⟩
  · intro l hl
    rw [h2.bind_pres l (lt_of_lt_of_le hl h1.label_le), h1.bind_pres l hl]
  · rw [h2.fns_names, h1.fns_names, List.reverse_append, List.append_assoc]
  · rw [h2.stack, h1.stack]
  · intro hne
    have hne2 : t.scopes.scope_stack ≠ [] := by
      intro hemp
      apply hne
      have := h1.stack
      rw [hemp] at this
      simpa using this.symm
    rw [h2.root_pres hne2, h1.root_pres hne]

/-- A step that only appends items and allocates k labels, binding only
fresh labels and each at most once, preserves the invariant and is an
extension declaring nothing. -/
theorem step_state (s t : TransSt) (new : List AsmItem) (k : Nat)
    (hit : t.asm.items = s.asm.items ++ new)
    (hnl : t.asm.nextLabel = s.asm.nextLabel + k)
    (hconv : t.calling_convention = s.calling_convention)
    (hext : t.external_calls = s.external_calls)
    (hfns : t.scopes.fns = s.scopes.fns)
    (hstk : t.scopes.scope_stack = s.scopes.scope_stack)
    (hcov : ∀ l, bindCount new l ≤ 1 ∧
      (1 ≤ bindCount new l → s.asm.nextLabel ≤ l ∧ l < s.asm.nextLabel + k))
    (hinv : StInv s) : StInv t ∧ TransExt [] s t := by
  have hccount : ∀ l, l < s.asm.nextLabel → bindCount new l = 0 := by
    intro l hl
    rcases Nat.eq_zero_or_pos (bindCount new l) with h0 | h1
    · exact h0
    · exact absurd ((hcov l).2 h1).1 (by omega)
  constructor
  · refine ⟨?_, ?_, ?_, ?_, ?_⟩
    · intro l hl
      rw [hit, bindCount_append, hinv.bound_lt l (by omega)]
      rcases Nat.eq_zero_or_pos (bindCount new l) with h0 | h1
      · omega
      · exact absurd ((hcov l).2 h1).2 (by omega)
    · intro l
      rw [hit, bindCount_append]
      rcases Nat.eq_zero_or_pos (bindCount new l) with h0 | h1
      · have := hinv.bound_once l
        omega
      · have := ((hcov l).2 h1).1
        rw [hinv.bound_lt l this]
        have := (hcov l).1
        omega
    · rw [hext]; exact hinv.ext_keys
    · intro p hp l hl
      rw [hext] at hp
      obtain ⟨hbc, hb1⟩ := hinv.ext_call p hp l hl
      have hlt : l < s.asm.nextLabel := by
        by_contra hge
        rw [hinv.bound_lt l (by omega)] at hb1
        omega
      constructor
      · rw [hit]; exact bindCallAt_append_right hbc new
      · rw [hit, bindCount_append, hb1, hccount l hlt]
    · intro e he
      rw [hfns] at he
      obtain ⟨hb1, hlt⟩ := hinv.fn_bound e he
      refine ⟨?_, by omega⟩
      rw [hit, bindCount_append, hb1, hccount e.2.1 hlt]
  · refine ⟨hconv, ⟨new, hit⟩, by omega, ?_, by rw [hfns]; simp, by rw [hstk], ?_⟩
    · intro l hl
      rw [hit, bindCount_append, hccount l hl, Nat.add_zero]
    · intro _
      show ScopeManager.get_global_functions _ = ScopeManager.get_global_functions _
      rw [show t.scopes.get_global_functions =
        (t.scopes.fns.filter (fun e => e.2.2)).map (fun e => (e.1, e.2.1)) from rfl, hfns]
      rfl

theorem TResult.bind_eq_ok {α β : Type} {x : TResult α} {f : α → TResult β} {b : β}
    (h : TResult.bind x f = .ok b) : ∃ a, x = .ok a ∧ f a = .ok b := by
  cases x with
  | ok a => exact ⟨a, rfl, h⟩
  | err e => exact TResult.noConfusion h
  | diverged m => exact TResult.noConfusion h

/-- Changes that leave the assembler, the external table and the
registry untouched keep the invariant (scope-stack bookkeeping). -/
theorem StInv_congr {s t : TransSt} (hasm : t.asm = s.asm)
    (hext : t.external_calls = s.external_calls)
    (hfns : t.scopes.fns = s.scopes.fns) (hinv : StInv s) : StInv t := by
  refine ⟨?_, ?_, ?_, ?_, ?_⟩
  · rw [hasm]; exact hinv.bound_lt
  · rw [hasm]; exact hinv.bound_once
  · rw [hext]; exact hinv.ext_keys
  · intro p hp l hl
    rw [hext] at hp
    rw [hasm]
    exact hinv.ext_call p hp l hl
  · intro e he
    rw [hfns] at he
    rw [hasm]
    exact hinv.fn_bound e he

/-- Registering a function whose label is already bound exactly once
keeps the invariant. -/
theorem StInv_push_fn {s t : TransSt} (name : String) (l : Nat) (flag : Bool)
    (hinv : StInv s)
    (hasm : t.asm = s.asm) (hext : t.external_calls = s.external_calls)
    (hfns : t.scopes.fns = (name, l, flag) :: s.scopes.fns)
    (hb : bindCount s.asm.items l = 1) (hlt : l < s.asm.nextLabel) :
    StInv t := by
  refine ⟨?_, ?_, ?_, ?_, ?_⟩
  · rw [hasm]; exact hinv.bound_lt
  · rw [hasm]; exact hinv.bound_once
  · rw [hext]; exact hinv.ext_keys
  · intro p hp x hx
    rw [hext] at hp
    rw [hasm]
    exact hinv.ext_call p hp x hx
  · intro e he
    rw [hfns] at he
    rw [hasm]
    rcases List.mem_cons.mp he with rfl | he2
    · exact ⟨hb, hlt⟩
    · exact hinv.fn_bound e he2

theorem insertExternalCall_keys (ext : List (String × List Nat)) (name : String) (l : Nat) :
    (insertExternalCall ext name l).map Prod.fst = ext.map Prod.fst ∨
    ((insertExternalCall ext name l).map Prod.fst = ext.map Prod.fst ++ [name] ∧
      name ∉ ext.map Prod.fst) := by
  induction ext with
  | nil => exact Or.inr ⟨rfl, by simp⟩
  | cons p rest ih =>
    obtain ⟨n, ls⟩ := p
    by_cases h : n = name
    · left
      simp [insertExternalCall, h]
    · rcases ih with h1 | ⟨h1, h2⟩
      · left
        simp only [insertExternalCall, if_neg h, List.map_cons, h1]
      · right
        refine ⟨by simp only [insertExternalCall, if_neg h, List.map_cons, h1]; rfl, ?_⟩
        simp only [List.map_cons, List.mem_cons]
        rintro (rfl | hc)
        · exact h rfl
        · exact h2 hc

theorem insertExternalCall_mem {ext : List (String × List Nat)} {name : String} {l : Nat} :
    ∀ p ∈ insertExternalCall ext name l, ∀ x ∈ p.2,
      (∃ q ∈ ext, x ∈ q.2) ∨ x = l := by
  induction ext with
  | nil =>
    intro p hp x hx
    simp only [insertExternalCall, List.mem_singleton] at hp
    subst hp
    simp only [List.mem_singleton] at hx
    exact Or.inr hx
  | cons q rest ih =>
    obtain ⟨n, ls⟩ := q
    intro p hp x hx
    by_cases h : n = name
    · simp only [insertExternalCall, if_pos h, List.mem_cons] at hp
      rcases hp with rfl | hp
      · rcases List.mem_append.mp hx with hx1 | hx1
        · exact Or.inl ⟨(n, ls), List.mem_cons_self _ _, hx1⟩
        · exact Or.inr (List.mem_singleton.mp hx1)
      · exact Or.inl ⟨p, List.mem_cons_of_mem _ hp, hx⟩
    · simp only [insertExternalCall, if_neg h, List.mem_cons] at hp
      rcases hp with rfl | hp
      · exact Or.inl ⟨(n, ls), List.mem_cons_self _ _, hx⟩
      · rcases ih p hp x hx with ⟨q2, hq2, hxq⟩ | hxl
        · exact Or.inl ⟨q2, List.mem_cons_of_mem _ hq2, hxq⟩
        · exact Or.inr hxl

/-- Recording an external call site whose label is bound exactly once
immediately before its call keeps the invariant. -/
theorem StInv_insert_ext {s t : TransSt} (name : String) (l : Nat)
    (hinv : StInv s)
    (hasm : t.asm = s.asm)
    (hext : t.external_calls = insertExternalCall s.external_calls name l)
    (hfns : t.scopes.fns = s.scopes.fns)
    (hbc : bindCallAt s.asm.items l) (hb1 : bindCount s.asm.items l = 1) :
    StInv t := by
  refine ⟨?_, ?_, ?_, ?_, ?_⟩
  · rw [hasm]; exact hinv.bound_lt
  · rw [hasm]; exact hinv.bound_once
  · rw [hext]
    rcases insertExternalCall_keys s.external_calls name l with h1 | ⟨h1, h2⟩
    · rw [h1]; exact hinv.ext_keys
    · rw [h1]
      rw [List.nodup_append]
      exact ⟨hinv.ext_keys, List.nodup_singleton name,
        fun a ha hb => h2 (by rwa [List.mem_singleton.mp hb] at ha)⟩
  · intro p hp x hx
    rw [hext] at hp
    rw [hasm]
    rcases insertExternalCall_mem p hp x hx with ⟨q, hq, hxq⟩ | rfl
    · exact hinv.ext_call q hq x hxq
    · exact ⟨hbc, hb1⟩
  · intro e he
    rw [hfns] at he
    rw [hasm]
    exact hinv.fn_bound e he

theorem get_global_functions_push (m : ScopeManager) (name : String) (l : Nat) :
    (m.push_fn name l).get_global_functions =
      (if m.scope_stack.isEmpty then [(name, l)] else []) ++ m.get_global_functions := by
  by_cases h : m.scope_stack.isEmpty <;>
    simp [ScopeManager.push_fn, ScopeManager.get_global_functions, List.filter_cons, h]

theorem mem_global_functions {m : ScopeManager} {p : String × Nat}
    (h : p ∈ m.get_global_functions) : (p.1, p.2, true) ∈ m.fns := by
  obtain ⟨pn, pl⟩ := p
  simp only [ScopeManager.get_global_functions, List.mem_map, List.mem_filter] at h
  obtain ⟨⟨a, b, c⟩, ⟨he, hflag⟩, hp⟩ := h
  simp only at hp hflag
  injection hp with h1 h2
  subst h1
  subst h2
  cases c with
  | false => simp at hflag
  | true => exact he

/-- When a name occurs exactly once in the registry, resolution returns
the label of that unique entry. -/
theorem find_name_unique {fns : List (String × Nat × Bool)} {name : String} {l : Nat}
    {flag : Bool} (hmem : (name, l, flag) ∈ fns)
    (hcount : (fns.map Prod.fst).count name = 1) :
    (fns.find? (fun e => e.1 == name)).map (fun e => e.2.1) = some l := by
  induction fns with
  | nil => simp at hmem
  | cons e rest ih =>
    obtain ⟨n, x, fl⟩ := e
    rcases List.mem_cons.mp hmem with heq | hmem2
    · injection heq with e1 e23
      injection e23 with e2 e3
      subst e1
      subst e2
      rw [List.find?_cons_of_pos _ (by simp)]
      simp
    · by_cases h : n = name
      · exfalso
        subst h
        have h1 : 0 < (rest.map Prod.fst).count n :=
          List.count_pos_iff.mpr (List.mem_map.mpr ⟨_, hmem2, rfl⟩)
        simp only [List.map_cons, List.count_cons, beq_self_eq_true, if_true] at hcount
        omega
      · rw [List.find?_cons_of_neg _ (by simp [h])]
        apply ih hmem2
        have hne : name ≠ n := fun hc => h hc.symm
        simpa [List.count_cons, hne] using hcount

/-- Invariant-only version of the emission step: the appended items may
bind a previously allocated label as long as it was not bound before. -/
theorem step_state_inv (s t : TransSt) (new : List AsmItem) (k : Nat)
    (hit : t.asm.items = s.asm.items ++ new)
    (hnl : t.asm.nextLabel = s.asm.nextLabel + k)
    (hext : t.external_calls = s.external_calls)
    (hfns : t.scopes.fns = s.scopes.fns)
    (hcov : ∀ l, bindCount new l ≤ 1 ∧
      (1 ≤ bindCount new l → bindCount s.asm.items l = 0 ∧ l < s.asm.nextLabel + k))
    (hinv : StInv s) : StInv t := by
  refine ⟨?_, ?_, ?_, ?_, ?_⟩
  · intro l hl
    rw [hit, bindCount_append, hinv.bound_lt l (by omega)]
    rcases Nat.eq_zero_or_pos (bindCount new l) with h0 | h1
    · omega
    · exact absurd ((hcov l).2 h1).2 (by omega)
  · intro l
    rw [hit, bindCount_append]
    rcases Nat.eq_zero_or_pos (bindCount new l) with h0 | h1
    · have := hinv.bound_once l
      omega
    · rw [((hcov l).2 h1).1]
      have := (hcov l).1
      omega
  · rw [hext]; exact hinv.ext_keys
  · intro p hp l hl
    rw [hext] at hp
    obtain ⟨hbc, hb1⟩ := hinv.ext_call p hp l hl
    have hz : bindCount new l = 0 := by
      rcases Nat.eq_zero_or_pos (bindCount new l) with h0 | h1
      · exact h0
      · rw [((hcov l).2 h1).1] at hb1
        omega
    constructor
    · rw [hit]; exact bindCallAt_append_right hbc new
    · rw [hit, bindCount_append, hb1, hz]
  · intro e he
    rw [hfns] at he
    obtain ⟨hb1, hlt⟩ := hinv.fn_bound e he
    have hz : bindCount new e.2.1 = 0 := by
      rcases Nat.eq_zero_or_pos (bindCount new e.2.1) with h0 | h1
      · exact h0
      · rw [((hcov e.2.1).2 h1).1] at hb1
        omega
    refine ⟨?_, by omega⟩
    rw [hit, bindCount_append, hb1, hz]

theorem nonbind_addCells (xs : List Nat) :
    ∀ i ∈ xs.map AsmItem.addCell, isBind i = false := by
  intro i hi
  obtain ⟨x, _, rfl⟩ := List.mem_map.mp hi
  rfl

theorem next_unnamed_fns (m : ScopeManager) :
    (m.next_unnamed_scope_number).2.fns = m.fns := by
  rcases hm : m.scope_stack with _ | ⟨⟨a, b⟩, rest⟩ <;>
    simp [ScopeManager.next_unnamed_scope_number, hm]

theorem next_unnamed_stack_names (m : ScopeManager) :
    (m.next_unnamed_scope_number).2.scope_stack.map Prod.fst =
      m.scope_stack.map Prod.fst := by
  rcases hm : m.scope_stack with _ | ⟨⟨a, b⟩, rest⟩ <;>
    simp [ScopeManager.next_unnamed_scope_number, hm]

theorem get_global_functions_congr {m m' : ScopeManager} (h : m.fns = m'.fns) :
    m.get_global_functions = m'.get_global_functions := by
  show (m.fns.filter _).map _ = (m'.fns.filter _).map _
  rw [h]

theorem map_fst_tail {α β : Type} (l : List (α × β)) :
    l.tail.map Prod.fst = (l.map Prod.fst).tail := by
  cases l <;> rfl

/-! The translator preserves the label/registry invariant and only
extends the item stream; proved by mutual structural induction. -/

mutual

theorem translateNode_inv : ∀ (n : IrNode) (s s' : TransSt),
    translate_ir_node_impl s n = .ok s' → StInv s →
    StInv s' ∧ TransExt (declaredFns n) s s'
  | .mk (.Add k) span, s, s', h, hinv => by
    have h' : TResult.ok { s with asm := s.asm.emitAll ((addEmits k).map AsmItem.addCell) } =
        TResult.ok s' := h
    injection h' with h2
    subst h2
    have hz : ∀ l, bindCount ((addEmits k).map AsmItem.addCell) l = 0 :=
      fun l => bindCount_nonbind (nonbind_addCells _) l
    exact step_state s _ _ 0 rfl rfl rfl rfl rfl rfl (fun l => by rw [hz l]; omega) hinv
  | .mk (.Subtract k) span, s, s', h, hinv => by
    have h' : TResult.ok { s with asm := s.asm.emit (.subCell (k % 2 ^ 32)) } =
        TResult.ok s' := h
    injection h' with h2
    subst h2
    have hz : ∀ l, bindCount [AsmItem.subCell (k % 2 ^ 32)] l = 0 := fun l =>
      bindCount_nonbind (fun i hi => by rw [List.mem_singleton.mp hi]; rfl) l
    exact step_state s _ _ 0 rfl rfl rfl rfl rfl rfl (fun l => by rw [hz l]; omega) hinv
  | .mk (.MoveRight k) span, s, s', h, hinv => by
    by_cases hk : k > 0x7FFFFFFF
    · have h' : TResult.err ⟨.MoveTooLarge (k % 2 ^ 32), some span⟩ = TResult.ok s' := by
        rw [← h]
        show _ = (if k > 0x7FFFFFFF then _ else _)
        rw [if_pos hk]
      exact TResult.noConfusion h'
    · have h' : TResult.ok { s with asm := s.asm.emit (.leaR8Add (k % 2 ^ 32)) } =
          TResult.ok s' := by
        rw [← h]
        show _ = (if k > 0x7FFFFFFF then _ else _)
        rw [if_neg hk]
      injection h' with h2
      subst h2
      have hz : ∀ l, bindCount [AsmItem.leaR8Add (k % 2 ^ 32)] l = 0 := fun l =>
        bindCount_nonbind (fun i hi => by rw [List.mem_singleton.mp hi]; rfl) l
      exact step_state s _ _ 0 rfl rfl rfl rfl rfl rfl (fun l => by rw [hz l]; omega) hinv
  | .mk (.MoveLeft k) span, s, s', h, hinv => by
    by_cases hk : k > 0x7FFFFFFF
    · have h' : TResult.err ⟨.MoveTooLarge (k % 2 ^ 32), some span⟩ = TResult.ok s' := by
        rw [← h]
        show _ = (if k > 0x7FFFFFFF then _ else _)
        rw [if_pos hk]
      exact TResult.noConfusion h'
    · have h' : TResult.ok { s with asm := s.asm.emit (.leaR8Sub (k % 2 ^ 32)) } =
          TResult.ok s' := by
        rw [← h]
        show _ = (if k > 0x7FFFFFFF then _ else _)
        rw [if_neg hk]
      injection h' with h2
      subst h2
      have hz : ∀ l, bindCount [AsmItem.leaR8Sub (k % 2 ^ 32)] l = 0 := fun l =>
        bindCount_nonbind (fun i hi => by rw [List.mem_singleton.mp hi]; rfl) l
      exact step_state s _ _ 0 rfl rfl rfl rfl rfl rfl (fun l => by rw [hz l]; omega) hinv
  | .mk .StackPush span, s, s', h, hinv => by
    have h' : TResult.ok
        { s with asm := s.asm.emitAll [.leaR9Add 1, .movAlCell, .movStackAl] } =
        TResult.ok s' := h
    injection h' with h2
    subst h2
    have hz : ∀ l, bindCount [AsmItem.leaR9Add 1, .movAlCell, .movStackAl] l = 0 := fun l =>
      bindCount_nonbind (fun i hi => by
        simp at hi
        rcases hi with rfl | rfl | rfl <;> rfl) l
    exact step_state s _ _ 0 rfl rfl rfl rfl rfl rfl (fun l => by rw [hz l]; omega) hinv
  | .mk .StackPop span, s, s', h, hinv => by
    have h' : TResult.ok
        { s with asm := s.asm.emitAll [.movAlStack, .movCellAl, .leaR9Sub 1] } =
        TResult.ok s' := h
    injection h' with h2
    subst h2
    have hz : ∀ l, bindCount [AsmItem.movAlStack, .movCellAl, .leaR9Sub 1] l = 0 := fun l =>
      bindCount_nonbind (fun i hi => by
        simp at hi
        rcases hi with rfl | rfl | rfl <;> rfl) l
    exact step_state s _ _ 0 rfl rfl rfl rfl rfl rfl (fun l => by rw [hz l]; omega) hinv
  | .mk (.FunctionCall name) span, s, s', h, hinv => by
    rcases hfn : s.scopes.get_fn name with _ | fl
    · have h' : TResult.err ⟨.FunctionNotFound name, some span⟩ = TResult.ok s' := by
        rw [← h]
        show _ = (match s.scopes.get_fn name with
          | none => TResult.err ⟨.FunctionNotFound name, some span⟩
          | some fn_label => .ok { s with asm := s.asm.emit (.callLabel fn_label) })
        rw [hfn]
      exact TResult.noConfusion h'
    · have h' : TResult.ok { s with asm := s.asm.emit (.callLabel fl) } =
          TResult.ok s' := by
        rw [← h]
        show _ = (match s.scopes.get_fn name with
          | none => TResult.err ⟨.FunctionNotFound name, some span⟩
          | some fn_label => .ok { s with asm := s.asm.emit (.callLabel fn_label) })
        rw [hfn]
      injection h' with h2
      subst h2
      have hz : ∀ l, bindCount [AsmItem.callLabel fl] l = 0 := fun l =>
        bindCount_nonbind (fun i hi => by rw [List.mem_singleton.mp hi]; rfl) l
      exact step_state s _ _ 0 rfl rfl rfl rfl rfl rfl (fun l => by rw [hz l]; omega) hinv
  | .mk .OtherOp span, s, s', h, hinv => TResult.noConfusion h
  | .mk (.Condition body) span, s, s', h, hinv => by
    obtain ⟨s5, ht0, hf⟩ := TResult.bind_eq_ok h
    injection hf with hf2
    subst hf2
    have hcount4 : ∀ l, bindCount [AsmItem.zeroBytes, AsmItem.bindLabel s.asm.nextLabel,
        AsmItem.cmpCellZero, AsmItem.je (s.asm.nextLabel + 1)] l =
        if s.asm.nextLabel = l then 1 else 0 := by
      intro l
      simp [bindCount_cons, bindCount_nil]
    have hcount3 : ∀ l, bindCount [AsmItem.jmp s.asm.nextLabel,
        AsmItem.bindLabel (s.asm.nextLabel + 1), AsmItem.zeroBytes] l =
        if s.asm.nextLabel + 1 = l then 1 else 0 := by
      intro l
      simp [bindCount_cons, bindCount_nil]
    have hinv4 := step_state_inv s
      { s with
        scopes := s.scopes.next_unnamed_scope_number.2.push_scope
          (s.scopes.get_top_scope_name.getD "" ++ ";" ++
            toString s.scopes.next_unnamed_scope_number.1)
        asm := (((s.asm.create_label.2.create_label.2.emit AsmItem.zeroBytes).emit
          (AsmItem.bindLabel s.asm.create_label.1)).emit AsmItem.cmpCellZero).emit
          (AsmItem.je s.asm.create_label.2.create_label.1) }
      [AsmItem.zeroBytes, AsmItem.bindLabel s.asm.nextLabel, AsmItem.cmpCellZero,
        AsmItem.je (s.asm.nextLabel + 1)] 2
      (by simp) rfl rfl (next_unnamed_fns s.scopes)
      (fun l => by
        rw [hcount4 l]
        split
        · rename_i hl
          exact ⟨by omega, fun _ => ⟨hinv.bound_lt l (by omega), by omega⟩⟩
        · exact ⟨by omega, by omega⟩) hinv
    obtain ⟨hinv5, hext5⟩ := translateNodes_inv body _ s5 ht0 hinv4
    have hs4items : ((((s.asm.create_label.2.create_label.2.emit AsmItem.zeroBytes).emit
        (AsmItem.bindLabel s.asm.create_label.1)).emit AsmItem.cmpCellZero).emit
        (AsmItem.je s.asm.create_label.2.create_label.1)).items =
        s.asm.items ++ [AsmItem.zeroBytes, AsmItem.bindLabel s.asm.nextLabel,
          AsmItem.cmpCellZero, AsmItem.je (s.asm.nextLabel + 1)] := by simp
    have hle2 : s.asm.nextLabel + 2 ≤ s5.asm.nextLabel := hext5.label_le
    have hcnt5 : ∀ l, l < s.asm.nextLabel + 2 → bindCount s5.asm.items l =
        bindCount s.asm.items l + (if s.asm.nextLabel = l then 1 else 0) := by
      intro l hl
      rw [hext5.bind_pres l hl, hs4items, bindCount_append, hcount4 l]
    refine ⟨?_, ?_⟩
    · refine step_state_inv s5 _ [AsmItem.jmp s.asm.nextLabel,
        AsmItem.bindLabel (s.asm.nextLabel + 1), AsmItem.zeroBytes] 0 (by simp) rfl rfl rfl
        (fun l => ?_) hinv5
      rw [hcount3 l]
      split
      · rename_i hl
        refine ⟨by omega, fun _ => ⟨?_, by omega⟩⟩
        have e1 := hcnt5 l (by omega)
        rw [if_neg (by omega)] at e1
        rw [e1, hinv.bound_lt l (by omega)]
      · exact ⟨by omega, by omega⟩
    · obtain ⟨bn, hbn⟩ := hext5.items
      have hS4fns : (s.scopes.next_unnamed_scope_number.2.push_scope
          (s.scopes.get_top_scope_name.getD "" ++ ";" ++
            toString s.scopes.next_unnamed_scope_number.1)).fns = s.scopes.fns :=
        next_unnamed_fns s.scopes
      refine ⟨hext5.conv, ?_, ?_, ?_, ?_, ?_, ?_⟩
      · exact ⟨[AsmItem.zeroBytes, AsmItem.bindLabel s.asm.nextLabel, AsmItem.cmpCellZero,
          AsmItem.je (s.asm.nextLabel + 1)] ++ bn ++ [AsmItem.jmp s.asm.nextLabel,
          AsmItem.bindLabel (s.asm.nextLabel + 1), AsmItem.zeroBytes],
          by simp [hbn, hs4items, List.append_assoc]⟩
      · show s.asm.nextLabel ≤ s5.asm.nextLabel
        omega
      · intro l hl
        have e3 : bindCount [AsmItem.jmp s.asm.nextLabel,
            AsmItem.bindLabel (s.asm.nextLabel + 1), AsmItem.zeroBytes] l = 0 := by
          rw [hcount3 l, if_neg (by omega)]
        have e5 : bindCount s5.asm.items l = bindCount s.asm.items l := by
          have e1 := hcnt5 l (by omega)
          rw [if_neg (by omega)] at e1
          omega
        show bindCount (s5.asm.items ++ [AsmItem.jmp s.asm.nextLabel] ++
          [AsmItem.bindLabel (s.asm.nextLabel + 1)] ++ [AsmItem.zeroBytes]) l = _
        rw [List.append_assoc, List.append_assoc, bindCount_append, e5]
        have e4 : bindCount ([AsmItem.jmp s.asm.nextLabel] ++
            ([AsmItem.bindLabel (s.asm.nextLabel + 1)] ++ [AsmItem.zeroBytes])) l = 0 := e3
        rw [e4]
        omega
      · show s5.scopes.fns.map Prod.fst =
          (declaredFnsList body).reverse ++ s.scopes.fns.map Prod.fst
        rw [hext5.fns_names, hS4fns]
      · show s5.scopes.scope_stack.tail.map Prod.fst = s.scopes.scope_stack.map Prod.fst
        rw [map_fst_tail, hext5.stack]
        show ((((s.scopes.get_top_scope_name.getD "" ++ ";" ++
          toString s.scopes.next_unnamed_scope_number.1), 0) ::
          s.scopes.next_unnamed_scope_number.2.scope_stack).map Prod.fst).tail =
          s.scopes.scope_stack.map Prod.fst
        rw [List.map_cons, List.tail_cons]
        exact next_unnamed_stack_names s.scopes
      · intro hne
        have e1 : (s5.scopes.pop_scope).get_global_functions =
            s5.scopes.get_global_functions := get_global_functions_congr rfl
        rw [e1, hext5.root_pres (by
          show ((s.scopes.get_top_scope_name.getD "" ++ ";" ++
            toString s.scopes.next_unnamed_scope_number.1), 0) ::
            s.scopes.next_unnamed_scope_number.2.scope_stack ≠ []
          exact List.cons_ne_nil _ _)]
        exact get_global_functions_congr hS4fns
  | .mk (.Function name body) span, s, s', h, hinv => by
    obtain ⟨s3, ht0, hf⟩ := TResult.bind_eq_ok h
    injection hf with hf2
    subst hf2
    have hcount2 : ∀ l, bindCount [AsmItem.zeroBytes, AsmItem.bindLabel s.asm.nextLabel] l =
        if s.asm.nextLabel = l then 1 else 0 := by
      intro l
      simp [bindCount_cons, bindCount_nil]
    have hinv1 := step_state_inv s
      { s with asm := (s.asm.create_label.2.emit AsmItem.zeroBytes).emit (AsmItem.bindLabel s.asm.create_label.1) }
      [AsmItem.zeroBytes, AsmItem.bindLabel s.asm.nextLabel] 1
      (by simp) rfl rfl rfl
      (fun l => by
        rw [hcount2 l]
        split
        · rename_i hl
          exact ⟨by omega, fun _ => ⟨hinv.bound_lt l (by omega), by omega⟩⟩
        · exact ⟨by omega, by omega⟩) hinv
    have hb1 : bindCount ((s.asm.create_label.2.emit AsmItem.zeroBytes).emit
        (AsmItem.bindLabel s.asm.create_label.1)).items s.asm.nextLabel = 1 := by
      show bindCount ((s.asm.items ++ [AsmItem.zeroBytes]) ++
        [AsmItem.bindLabel s.asm.nextLabel]) _ = 1
      rw [List.append_assoc, bindCount_append,
        hinv.bound_lt s.asm.nextLabel (le_refl _),
        show [AsmItem.zeroBytes] ++ [AsmItem.bindLabel s.asm.nextLabel] =
          [AsmItem.zeroBytes, AsmItem.bindLabel s.asm.nextLabel] from rfl,
        hcount2, if_pos rfl]
    have hinv2 : StInv { s with
        asm := (s.asm.create_label.2.emit AsmItem.zeroBytes).emit (AsmItem.bindLabel s.asm.create_label.1)
        scopes := (s.scopes.push_fn name s.asm.create_label.1).push_scope name } := by
      refine StInv_push_fn name s.asm.create_label.1 s.scopes.scope_stack.isEmpty
        hinv1 rfl rfl rfl ?_ ?_
      · exact hb1
      · show s.asm.nextLabel < s.asm.nextLabel + 1
        omega
    obtain ⟨hinv3, hext3⟩ := translateNodes_inv body _ s3 ht0 hinv2
    have hs2items : ((s.asm.create_label.2.emit AsmItem.zeroBytes).emit
        (AsmItem.bindLabel s.asm.create_label.1)).items =
        s.asm.items ++ [AsmItem.zeroBytes, AsmItem.bindLabel s.asm.nextLabel] := by simp
    have hle1 : s.asm.nextLabel + 1 ≤ s3.asm.nextLabel := hext3.label_le
    have hcnt3 : ∀ l, l < s.asm.nextLabel + 1 → bindCount s3.asm.items l =
        bindCount s.asm.items l + (if s.asm.nextLabel = l then 1 else 0) := by
      intro l hl
      rw [hext3.bind_pres l hl, hs2items, bindCount_append, hcount2 l]
    refine ⟨?_, ?_⟩
    · refine step_state_inv s3 _ [AsmItem.ret] 0 (by simp) rfl rfl rfl (fun l => ?_) hinv3
      have hz : bindCount [AsmItem.ret] l = 0 := by
        simp [bindCount_cons, bindCount_nil]
      rw [hz]
      exact ⟨by omega, by omega⟩
    · obtain ⟨bn, hbn⟩ := hext3.items
      refine ⟨hext3.conv, ?_, ?_, ?_, ?_, ?_, ?_⟩
      · exact ⟨[AsmItem.zeroBytes, AsmItem.bindLabel s.asm.nextLabel] ++ bn ++ [AsmItem.ret],
          by simp [hbn, List.append_assoc]⟩
      · show s.asm.nextLabel ≤ s3.asm.nextLabel
        omega
      · intro l hl
        have e5 : bindCount s3.asm.items l = bindCount s.asm.items l := by
          have e1 := hcnt3 l (by omega)
          rw [if_neg (by omega)] at e1
          omega
        show bindCount (s3.asm.items ++ [AsmItem.ret]) l = _
        rw [bindCount_append, e5]
        have hz : bindCount [AsmItem.ret] l = 0 := by
          simp [bindCount_cons, bindCount_nil]
        rw [hz]
        omega
      · show s3.scopes.fns.map Prod.fst =
          (name :: declaredFnsList body).reverse ++ s.scopes.fns.map Prod.fst
        rw [hext3.fns_names]
        show (declaredFnsList body).reverse ++
          ((name, s.asm.nextLabel, s.scopes.scope_stack.isEmpty) ::
            s.scopes.fns).map Prod.fst = _
        simp [List.append_assoc]
      · show s3.scopes.scope_stack.tail.map Prod.fst = s.scopes.scope_stack.map Prod.fst
        rw [map_fst_tail, hext3.stack]
        show ((( name, 0) :: s.scopes.scope_stack).map Prod.fst).tail = _
        rw [List.map_cons, List.tail_cons]
      · intro hne
        have hie : s.scopes.scope_stack.isEmpty = false := by
          cases hstk : s.scopes.scope_stack with
          | nil => exact absurd hstk hne
          | cons x xs => rfl
        have e1 : (s3.scopes.pop_scope).get_global_functions =
            s3.scopes.get_global_functions := get_global_functions_congr rfl
        rw [e1, hext3.root_pres (by
          show (name, 0) :: s.scopes.scope_stack ≠ []
          exact List.cons_ne_nil _ _)]
        have e2 : ((s.scopes.push_fn name s.asm.create_label.1).push_scope
            name).get_global_functions =
            (s.scopes.push_fn name s.asm.create_label.1).get_global_functions :=
          get_global_functions_congr rfl
        rw [e2, get_global_functions_push, hie]
        rfl
  | .mk (.ExternalFunctionCall name) span, ⟨.X86_64_SystemVAMD64, ext, sc, a⟩, s', h, hinv => by
    injection h with h2
    subst h2
    have hcount9 : ∀ l, bindCount [AsmItem.zeroBytes, AsmItem.pushReg .r8,
        AsmItem.pushReg .r9, AsmItem.leaArg .rdi 8, AsmItem.leaArg .rsi 0,
        AsmItem.bindLabel a.nextLabel, AsmItem.callLabel a.nextLabel,
        AsmItem.popReg .r9, AsmItem.popReg .r8] l =
        if a.nextLabel = l then 1 else 0 := by
      intro l
      simp [bindCount_cons, bindCount_nil]
    have hstep := step_state ⟨.X86_64_SystemVAMD64, ext, sc, a⟩
      ⟨.X86_64_SystemVAMD64, ext, sc,
        ((((a.create_label.2.emit AsmItem.zeroBytes).emitAll
          [AsmItem.pushReg .r8, AsmItem.pushReg .r9, AsmItem.leaArg .rdi 8,
            AsmItem.leaArg .rsi 0]).emit (AsmItem.bindLabel a.create_label.1)).emit
          (AsmItem.callLabel a.create_label.1)).emitAll
          [AsmItem.popReg .r9, AsmItem.popReg .r8]⟩
      [AsmItem.zeroBytes, AsmItem.pushReg .r8, AsmItem.pushReg .r9, AsmItem.leaArg .rdi 8,
        AsmItem.leaArg .rsi 0, AsmItem.bindLabel a.nextLabel,
        AsmItem.callLabel a.nextLabel, AsmItem.popReg .r9, AsmItem.popReg .r8] 1
      (by simp) rfl rfl rfl rfl rfl
      (fun l => by
        rw [hcount9 l]
        split
        · rename_i hl
          exact ⟨by omega, fun _ => ⟨(by omega : a.nextLabel ≤ l),
            (by omega : l < a.nextLabel + 1)⟩⟩
        · exact ⟨by omega, by omega⟩) hinv
    obtain ⟨hinvT, hextT⟩ := hstep
    constructor
    · refine StInv_insert_ext name a.create_label.1 hinvT rfl rfl rfl ?_ ?_
      · exact ⟨a.items ++ [AsmItem.zeroBytes, AsmItem.pushReg .r8, AsmItem.pushReg .r9,
          AsmItem.leaArg .rdi 8, AsmItem.leaArg .rsi 0],
          [AsmItem.popReg .r9, AsmItem.popReg .r8], by simp⟩
      · show bindCount (((((a.create_label.2.emit AsmItem.zeroBytes).emitAll
          [AsmItem.pushReg .r8, AsmItem.pushReg .r9, AsmItem.leaArg .rdi 8,
            AsmItem.leaArg .rsi 0]).emit (AsmItem.bindLabel a.create_label.1)).emit
          (AsmItem.callLabel a.create_label.1)).emitAll
          [AsmItem.popReg .r9, AsmItem.popReg .r8]).items a.nextLabel = 1
        have e0 : (((((a.create_label.2.emit AsmItem.zeroBytes).emitAll
            [AsmItem.pushReg .r8, AsmItem.pushReg .r9, AsmItem.leaArg .rdi 8,
              AsmItem.leaArg .rsi 0]).emit (AsmItem.bindLabel a.create_label.1)).emit
            (AsmItem.callLabel a.create_label.1)).emitAll
            [AsmItem.popReg .r9, AsmItem.popReg .r8]).items =
            a.items ++ [AsmItem.zeroBytes, AsmItem.pushReg .r8, AsmItem.pushReg .r9,
              AsmItem.leaArg .rdi 8, AsmItem.leaArg .rsi 0,
              AsmItem.bindLabel a.nextLabel, AsmItem.callLabel a.nextLabel,
              AsmItem.popReg .r9, AsmItem.popReg .r8] := by simp
        rw [e0, bindCount_append, hinv.bound_lt a.nextLabel (le_refl _), hcount9,
          if_pos rfl]
    · exact ⟨hextT.conv, hextT.items, hextT.label_le, hextT.bind_pres,
        hextT.fns_names, hextT.stack, hextT.root_pres⟩
  | .mk (.ExternalFunctionCall name) span, ⟨.X86_64_MicrosoftX64, ext, sc, a⟩, s', h, hinv => by
    injection h with h2
    subst h2
    have hcount9 : ∀ l, bindCount [AsmItem.zeroBytes, AsmItem.pushReg .r8,
        AsmItem.pushReg .r9, AsmItem.leaArg .rcx 8, AsmItem.leaArg .rdx 0,
        AsmItem.bindLabel a.nextLabel, AsmItem.callLabel a.nextLabel,
        AsmItem.popReg .r9, AsmItem.popReg .r8] l =
        if a.nextLabel = l then 1 else 0 := by
      intro l
      simp [bindCount_cons, bindCount_nil]
    have hstep := step_state ⟨.X86_64_MicrosoftX64, ext, sc, a⟩
      ⟨.X86_64_MicrosoftX64, ext, sc,
        ((((a.create_label.2.emit AsmItem.zeroBytes).emitAll
          [AsmItem.pushReg .r8, AsmItem.pushReg .r9, AsmItem.leaArg .rcx 8,
            AsmItem.leaArg .rdx 0]).emit (AsmItem.bindLabel a.create_label.1)).emit
          (AsmItem.callLabel a.create_label.1)).emitAll
          [AsmItem.popReg .r9, AsmItem.popReg .r8]⟩
      [AsmItem.zeroBytes, AsmItem.pushReg .r8, AsmItem.pushReg .r9, AsmItem.leaArg .rcx 8,
        AsmItem.leaArg .rdx 0, AsmItem.bindLabel a.nextLabel,
        AsmItem.callLabel a.nextLabel, AsmItem.popReg .r9, AsmItem.popReg .r8] 1
      (by simp) rfl rfl rfl rfl rfl
      (fun l => by
        rw [hcount9 l]
        split
        · rename_i hl
          exact ⟨by omega, fun _ => ⟨(by omega : a.nextLabel ≤ l),
            (by omega : l < a.nextLabel + 1)⟩⟩
        · exact ⟨by omega, by omega⟩) hinv
    obtain ⟨hinvT, hextT⟩ := hstep
    constructor
    · refine StInv_insert_ext name a.create_label.1 hinvT rfl rfl rfl ?_ ?_
      · exact ⟨a.items ++ [AsmItem.zeroBytes, AsmItem.pushReg .r8, AsmItem.pushReg .r9,
          AsmItem.leaArg .rcx 8, AsmItem.leaArg .rdx 0],
          [AsmItem.popReg .r9, AsmItem.popReg .r8], by simp⟩
      · show bindCount (((((a.create_label.2.emit AsmItem.zeroBytes).emitAll
          [AsmItem.pushReg .r8, AsmItem.pushReg .r9, AsmItem.leaArg .rcx 8,
            AsmItem.leaArg .rdx 0]).emit (AsmItem.bindLabel a.create_label.1)).emit
          (AsmItem.callLabel a.create_label.1)).emitAll
          [AsmItem.popReg .r9, AsmItem.popReg .r8]).items a.nextLabel = 1
        have e0 : (((((a.create_label.2.emit AsmItem.zeroBytes).emitAll
            [AsmItem.pushReg .r8, AsmItem.pushReg .r9, AsmItem.leaArg .rcx 8,
              AsmItem.leaArg .rdx 0]).emit (AsmItem.bindLabel a.create_label.1)).emit
            (AsmItem.callLabel a.create_label.1)).emitAll
            [AsmItem.popReg .r9, AsmItem.popReg .r8]).items =
            a.items ++ [AsmItem.zeroBytes, AsmItem.pushReg .r8, AsmItem.pushReg .r9,
              AsmItem.leaArg .rcx 8, AsmItem.leaArg .rdx 0,
              AsmItem.bindLabel a.nextLabel, AsmItem.callLabel a.nextLabel,
              AsmItem.popReg .r9, AsmItem.popReg .r8] := by simp
        rw [e0, bindCount_append, hinv.bound_lt a.nextLabel (le_refl _), hcount9,
          if_pos rfl]
    · exact ⟨hextT.conv, hextT.items, hextT.label_le, hextT.bind_pres,
        hextT.fns_names, hextT.stack, hextT.root_pres⟩
  | .mk (.ExternalFunctionCall name) span, ⟨.OtherConvention, ext, sc, a⟩, s', h, hinv =>
    TResult.noConfusion h

theorem translateNodes_inv : ∀ (ns : IrNodeList) (s s' : TransSt),
    translateNodes s ns = .ok s' → StInv s →
    StInv s' ∧ TransExt (declaredFnsList ns) s s'
  | .nil, s, s', h, hinv => by
    have h' : TResult.ok s = TResult.ok s' := h
    injection h' with h2
    subst h2
    exact ⟨hinv, TransExt.refl s⟩
  | .cons n rest, s, s', h, hinv => by
    obtain ⟨s2, h1, h2⟩ := TResult.bind_eq_ok h
    obtain ⟨hinv2, hext2⟩ := translateNode_inv n s s2 h1 hinv
    obtain ⟨hinv3, hext3⟩ := translateNodes_inv rest s2 s' h2 hinv2
    exact ⟨hinv3, hext2.trans hext3⟩

end

/-! List, object-model and scope-registry support lemmas for the
object-file claims. -/


theorem listModify_length {α : Type} (xs : List α) (id : Nat) (f : α → α) :
    (listModify xs id f).length = xs.length := by
  induction xs generalizing id with
  | nil => rfl
  | cons x rest ih =>
    cases id with
    | zero => rfl
    | succ id2 =>
      show (x :: listModify rest id2 f).length = (x :: rest).length
      simp [ih]

theorem listModify_append {α : Type} (pre : List α) (x : α) (rest : List α) (f : α → α) :
    listModify (pre ++ x :: rest) pre.length f = pre ++ f x :: rest := by
  induction pre with
  | nil => rfl
  | cons a as ih =>
    show a :: listModify (as ++ x :: rest) as.length f = a :: (as ++ f x :: rest)
    rw [ih]

theorem listModify_get_ne {α : Type} (xs : List α) (id j : Nat) (f : α → α) (h : j ≠ id) :
    (listModify xs id f).get? j = xs.get? j := by
  induction xs generalizing id j with
  | nil => rfl
  | cons x rest ih =>
    cases id with
    | zero =>
      cases j with
      | zero => exact absurd rfl h
      | succ j2 => rfl
    | succ id2 =>
      cases j with
      | zero => rfl
      | succ j2 =>
        show (listModify rest id2 f).get? j2 = rest.get? j2
        exact ih id2 j2 (fun he => h (by omega))

theorem listModify_get_eq {α : Type} (xs : List α) (id : Nat) (f : α → α) :
    (listModify xs id f).get? id = (xs.get? id).map f := by
  induction xs generalizing id with
  | nil => rfl
  | cons x rest ih =>
    cases id with
    | zero => rfl
    | succ id2 =>
      show (listModify rest id2 f).get? id2 = (rest.get? id2).map f
      exact ih id2

theorem get_set_zero_pres (buf : List Nat) (j p : Nat) (h : buf.get? p = some 0) :
    (buf.set j 0).get? p = some 0 := by
  rw [List.get?_set]
  split
  · rw [h]
    rfl
  · exact h

theorem get_set_zero_self (buf : List Nat) (p : Nat) (h : p < buf.length) :
    (buf.set p 0).get? p = some 0 := by
  rw [List.get?_set, if_pos rfl, List.get?_eq_get h]
  rfl

theorem list_eq_of_get {α : Type} (l1 l2 : List α) (h : ∀ n, l1.get? n = l2.get? n) :
    l1 = l2 := by
  induction l1 generalizing l2 with
  | nil =>
    cases l2 with
    | nil => rfl
    | cons y ys => exact Option.noConfusion (h 0)
  | cons x xs ih =>
    cases l2 with
    | nil => exact Option.noConfusion (h 0)
    | cons y ys =>
      have h0 := h 0
      injection h0 with h0
      rw [h0, ih ys (fun n => h (n + 1))]


theorem zeroCallBytes_length (buf : List Nat) (ip : Nat) :
    (zeroCallBytes buf ip).length = buf.length := by
  simp [zeroCallBytes]

theorem zeroCallBytes_pres (buf : List Nat) (ip p : Nat) (h : buf.get? p = some 0) :
    (zeroCallBytes buf ip).get? p = some 0 := by
  simp only [zeroCallBytes]
  exact get_set_zero_pres _ _ _ (get_set_zero_pres _ _ _
    (get_set_zero_pres _ _ _ (get_set_zero_pres _ _ _ h)))

theorem zeroCallBytes_zero (buf : List Nat) (ip : Nat) (hlen : ip + 5 ≤ buf.length)
    (j : Nat) (hj1 : 1 ≤ j) (hj4 : j ≤ 4) :
    (zeroCallBytes buf ip).get? (ip + j) = some 0 := by
  simp only [zeroCallBytes]
  rcases (by omega : j = 1 ∨ j = 2 ∨ j = 3 ∨ j = 4) with rfl | rfl | rfl | rfl
  · exact get_set_zero_pres _ _ _ (get_set_zero_pres _ _ _ (get_set_zero_pres _ _ _
      (get_set_zero_self _ _ (by omega))))
  · exact get_set_zero_pres _ _ _ (get_set_zero_pres _ _ _
      (get_set_zero_self _ _ (by rw [List.length_set]; omega)))
  · exact get_set_zero_pres _ _ _
      (get_set_zero_self _ _ (by rw [List.length_set, List.length_set]; omega))
  · exact get_set_zero_self _ _
      (by rw [List.length_set, List.length_set, List.length_set]; omega)

theorem forall2_mem_right {α β : Type} {R : α → β → Prop} {as : List α} {bs : List β}
    (h : List.Forall₂ R as bs) : ∀ b ∈ bs, ∃ a ∈ as, R a b := by
  induction h with
  | nil =>
    intro b hb
    simp at hb
  | cons hR hrest ih =>
    intro b hb
    rcases List.mem_cons.mp hb with rfl | hb2
    · exact ⟨_, List.mem_cons_self _ _, hR⟩
    · obtain ⟨a, ha, hra⟩ := ih b hb2
      exact ⟨a, List.mem_cons_of_mem _ ha, hra⟩

theorem mapLabelIps_char (res : CodeAssemblerResult) :
    ∀ (ls ips : List Nat), mapLabelIps res ls = .ok ips →
      List.Forall₂ (fun l ip => res.label_ip l = some ip) ls ips
  | [], ips, h => by
    have h2 : TResult.ok ([] : List Nat) = .ok ips := h
    injection h2 with h3
    subst h3
    exact .nil
  | l :: rest, ips, h => by
    simp only [mapLabelIps] at h
    cases heq : res.label_ip l with
    | none =>
      rw [heq] at h
      exact TResult.noConfusion h
    | some ip =>
      rw [heq] at h
      obtain ⟨ips0, h1, h2⟩ := TResult.bind_eq_ok h
      have h3 : TResult.ok (ip :: ips0) = .ok ips := h2
      injection h3 with h4
      subst h4
      exact .cons heq (mapLabelIps_char res rest ips0 h1)

theorem externalSiteIps_char (res : CodeAssemblerResult) :
    ∀ (tbl tbl' : List (String × List Nat)), externalSiteIps res tbl = .ok tbl' →
      List.Forall₂ (fun p q => p.1 = q.1 ∧
        List.Forall₂ (fun l ip => res.label_ip l = some ip) p.2 q.2) tbl tbl'
  | [], tbl', h => by
    have h2 : TResult.ok ([] : List (String × List Nat)) = .ok tbl' := h
    injection h2 with h3
    subst h3
    exact .nil
  | (n, ls) :: rest, tbl', h => by
    simp only [externalSiteIps] at h
    obtain ⟨ips, h1, h2⟩ := TResult.bind_eq_ok h
    obtain ⟨tbl0, h3, h4⟩ := TResult.bind_eq_ok h2
    have h5 : TResult.ok ((n, ips) :: tbl0) = .ok tbl' := h4
    injection h5 with h6
    subst h6
    exact .cons ⟨rfl, mapLabelIps_char res ls ips h1⟩ (externalSiteIps_char res rest tbl0 h3)

theorem zeroLabelList_char (res : CodeAssemblerResult) :
    ∀ (ls : List Nat) (buf buf' : List Nat), zeroLabelList res ls buf = .ok buf' →
      buf'.length = buf.length ∧
      (∀ p, buf.get? p = some 0 → buf'.get? p = some 0) ∧
      (∀ l ∈ ls, ∃ ip, res.label_ip l = some ip ∧ ip + 5 ≤ buf.length ∧
        ∀ j, 1 ≤ j → j ≤ 4 → buf'.get? (ip + j) = some 0)
  | [], buf, buf', h => by
    have h2 : TResult.ok buf = .ok buf' := h
    injection h2 with h3
    subst h3
    exact ⟨rfl, fun p hp => hp, fun l hl => absurd hl (List.not_mem_nil l)⟩
  | l :: rest, buf, buf', h => by
    simp only [zeroLabelList] at h
    cases heq : res.label_ip l with
    | none =>
      rw [heq] at h
      exact TResult.noConfusion h
    | some ip =>
      rw [heq] at h
      have h9 : (if ip + 5 ≤ buf.length then zeroLabelList res rest (zeroCallBytes buf ip)
          else TResult.diverged "index out of bounds") = TResult.ok buf' := h
      by_cases hle : ip + 5 ≤ buf.length
      · rw [if_pos hle] at h9
        obtain ⟨hlen2, hpres2, hrest⟩ := zeroLabelList_char res rest (zeroCallBytes buf ip) buf' h9
        refine ⟨hlen2.trans (zeroCallBytes_length buf ip), ?_, ?_⟩
        · intro p hp
          exact hpres2 p (zeroCallBytes_pres buf ip p hp)
        · intro l2 hl2
          rcases List.mem_cons.mp hl2 with rfl | hl3
          · refine ⟨ip, heq, hle, ?_⟩
            intro j hj1 hj4
            exact hpres2 _ (zeroCallBytes_zero buf ip hle j hj1 hj4)
          · obtain ⟨ip2, hip2, hb2, hz2⟩ := hrest l2 hl3
            refine ⟨ip2, hip2, ?_, hz2⟩
            rw [zeroCallBytes_length] at hb2
            exact hb2
      · rw [if_neg hle] at h9
        exact TResult.noConfusion h9

theorem zeroExternalCallBytes_char (res : CodeAssemblerResult) :
    ∀ (tbl : List (String × List Nat)) (buf buf' : List Nat),
      zeroExternalCallBytes res tbl buf = .ok buf' →
      buf'.length = buf.length ∧
      (∀ p, buf.get? p = some 0 → buf'.get? p = some 0) ∧
      (∀ p ∈ tbl, ∀ l ∈ p.2, ∃ ip, res.label_ip l = some ip ∧ ip + 5 ≤ buf.length ∧
        ∀ j, 1 ≤ j → j ≤ 4 → buf'.get? (ip + j) = some 0)
  | [], buf, buf', h => by
    have h2 : TResult.ok buf = .ok buf' := h
    injection h2 with h3
    subst h3
    exact ⟨rfl, fun p hp => hp, fun p hp => absurd hp (List.not_mem_nil p)⟩
  | (n, ls) :: rest, buf, buf', h => by
    simp only [zeroExternalCallBytes] at h
    obtain ⟨buf2, h1, h2⟩ := TResult.bind_eq_ok h
    obtain ⟨hlen1, hpres1, hsites1⟩ := zeroLabelList_char res ls buf buf2 h1
    obtain ⟨hlen2, hpres2, hsites2⟩ := zeroExternalCallBytes_char res rest buf2 buf' h2
    refine ⟨hlen2.trans hlen1, ?_, ?_⟩
    · intro p hp
      exact hpres2 p (hpres1 p hp)
    · intro p hp l hl
      rcases List.mem_cons.mp hp with rfl | hp2
      · obtain ⟨ip, hip, hb, hz⟩ := hsites1 l hl
        refine ⟨ip, hip, hb, ?_⟩
        intro j hj1 hj4
        exact hpres2 _ (hz j hj1 hj4)
      · obtain ⟨ip, hip, hb, hz⟩ := hsites2 p hp2 l hl
        refine ⟨ip, hip, ?_, hz⟩
        rw [hlen1] at hb
        exact hb


theorem append_nil_ir : ∀ (a : IrNodeList), a.append .nil = a
  | .nil => rfl
  | .cons x xs => by
    show IrNodeList.cons x (xs.append .nil) = IrNodeList.cons x xs
    rw [append_nil_ir xs]

theorem append_assoc_ir : ∀ (a b c : IrNodeList), (a.append b).append c = a.append (b.append c)
  | .nil, b, c => rfl
  | .cons x xs, b, c => by
    show IrNodeList.cons x ((xs.append b).append c) = IrNodeList.cons x (xs.append (b.append c))
    rw [append_assoc_ir xs b c]

theorem assocUpdate_fresh : ∀ (map : List (String × Nat)) (name : String) (v : Nat),
    name ∉ map.map Prod.fst → assocUpdate map name v = map ++ [(name, v)]
  | [], name, v, _ => rfl
  | (n, x) :: rest, name, v, h => by
    have hne : n ≠ name := by
      intro he
      exact h (by simp [he])
    simp only [assocUpdate, if_neg hne]
    rw [assocUpdate_fresh rest name v (fun hm => h (by simp [hm]))]
    simp

theorem mem_assocUpdate : ∀ (map : List (String × Nat)) (name : String) (v : Nat),
    ∀ q ∈ assocUpdate map name v, q ∈ map ∨ q.2 = v
  | [], name, v, q, hq => by
    simp only [assocUpdate, List.mem_singleton] at hq
    subst hq
    exact Or.inr rfl
  | (n, x) :: rest, name, v, q, hq => by
    simp only [assocUpdate] at hq
    by_cases he : n = name
    · rw [if_pos he] at hq
      rcases List.mem_cons.mp hq with rfl | hq2
      · exact Or.inr rfl
      · exact Or.inl (List.mem_cons_of_mem _ hq2)
    · rw [if_neg he] at hq
      rcases List.mem_cons.mp hq with rfl | hq2
      · exact Or.inl (List.mem_cons_self _ _)
      · rcases mem_assocUpdate rest name v q hq2 with h1 | h2
        · exact Or.inl (List.mem_cons_of_mem _ h1)
        · exact Or.inr h2

theorem addGlobalFnSymbols_char (res : CodeAssemblerResult) :
    ∀ (gl : List (String × Nat)) (o o' : ObjectFile), addGlobalFnSymbols res o gl = .ok o' →
      o'.relocs = o.relocs ∧ o'.textData = o.textData ∧
      ∃ syms, o'.symbols = o.symbols ++ syms ∧
        List.Forall₂ (fun (g : String × Nat) (s : ObjSymbol) =>
          s.name = g.1 ∧ s.kind = SymKind.Text ∧ s.scope = SymScope.Dynamic ∧
          s.sect = SymSection.Section ∧ s.size = 0 ∧ res.label_ip g.2 = some s.value) gl syms
  | [], o, o', h => by
    have h2 : TResult.ok o = .ok o' := h
    injection h2 with h3
    subst h3
    exact ⟨rfl, rfl, [], by simp, .nil⟩
  | (name, lbl) :: rest, o, o', h => by
    simp only [addGlobalFnSymbols] at h
    cases heq : res.label_ip lbl with
    | none =>
      rw [heq] at h
      exact TResult.noConfusion h
    | some ip =>
      rw [heq] at h
      have h9 : addGlobalFnSymbols res
          ((o.addSymbolId
            { name := name, value := ip, size := 0, kind := .Text, scope := .Dynamic,
              weak := false, sect := .Section }).1) rest = .ok o' := h
      obtain ⟨hrel, htd, syms, hsyms, hrel2⟩ := addGlobalFnSymbols_char res rest _ o' h9
      refine ⟨hrel, htd, (⟨name, ip, 0, .Text, .Dynamic, false, .Section⟩ : ObjSymbol) :: syms, ?_, ?_⟩
      · rw [hsyms]
        simp [ObjectFile.addSymbolId]
      · exact .cons ⟨rfl, rfl, rfl, rfl, rfl, heq⟩ hrel2

theorem partitionTopLevel_char :
    ∀ (ast : IrNodeList) (o : ObjectFile) (map : List (String × Nat)) (fa nf : IrNodeList),
      ((partitionTopLevel o map fa nf ast).1.symbols =
        o.symbols ++ (topFnNames ast).map preSym) ∧
      ((partitionTopLevel o map fa nf ast).1.relocs = o.relocs) ∧
      ((partitionTopLevel o map fa nf ast).1.textData = o.textData) ∧
      ((partitionTopLevel o map fa nf ast).2.2.1 = fa.append (topFnNodes ast)) ∧
      ((∀ q ∈ map, q.2 < o.symbols.length) →
        ∀ q ∈ (partitionTopLevel o map fa nf ast).2.1,
          q.2 < (partitionTopLevel o map fa nf ast).1.symbols.length)
  | .nil, o, map, fa, nf => by
    refine ⟨by simp [partitionTopLevel, topFnNames], rfl, rfl, ?_, ?_⟩
    · show fa = fa.append (topFnNodes .nil)
      rw [show topFnNodes .nil = .nil from rfl, append_nil_ir]
    · intro hmap q hq
      exact hmap q hq
  | .cons (.mk (.Function name body) sp) rest, o, map, fa, nf => by
    have step : partitionTopLevel o map fa nf (.cons (.mk (.Function name body) sp) rest) =
        partitionTopLevel
          (o.addSymbolId (preSym name)).1
          (assocUpdate map name (o.addSymbolId (preSym name)).2)
          (fa.append (.cons (.mk (.Function name body) sp) .nil)) nf rest := rfl
    rw [step]
    obtain ⟨hs, hr, ht, hfa, hid⟩ := partitionTopLevel_char rest
      (o.addSymbolId (preSym name)).1
      (assocUpdate map name (o.addSymbolId (preSym name)).2)
      (fa.append (.cons (.mk (.Function name body) sp) .nil)) nf
    refine ⟨?_, hr, ht, ?_, ?_⟩
    · rw [hs]
      show (o.symbols ++ [preSym name]) ++ _ = _
      rw [show topFnNames (.cons (.mk (.Function name body) sp) rest) =
        name :: topFnNames rest from rfl]
      simp
    · rw [hfa, append_assoc_ir]
      rfl
    · intro hmap q hq
      refine hid ?_ q hq
      intro q2 hq2
      rcases mem_assocUpdate map name (o.addSymbolId (preSym name)).2 q2 hq2 with h1 | h2
      · have := hmap q2 h1
        show q2.2 < (o.symbols ++ [preSym name]).length
        rw [List.length_append]
        omega
      · show q2.2 < (o.symbols ++ [preSym name]).length
        rw [h2, List.length_append]
        show o.symbols.length < o.symbols.length + 1
        omega
  | .cons (.mk (.Add k) sp) rest, o, map, fa, nf =>
    partitionTopLevel_char rest o map fa (nf.append (.cons (.mk (.Add k) sp) .nil))
  | .cons (.mk (.Subtract k) sp) rest, o, map, fa, nf =>
    partitionTopLevel_char rest o map fa (nf.append (.cons (.mk (.Subtract k) sp) .nil))
  | .cons (.mk (.MoveRight k) sp) rest, o, map, fa, nf =>
    partitionTopLevel_char rest o map fa (nf.append (.cons (.mk (.MoveRight k) sp) .nil))
  | .cons (.mk (.MoveLeft k) sp) rest, o, map, fa, nf =>
    partitionTopLevel_char rest o map fa (nf.append (.cons (.mk (.MoveLeft k) sp) .nil))
  | .cons (.mk .StackPush sp) rest, o, map, fa, nf =>
    partitionTopLevel_char rest o map fa (nf.append (.cons (.mk .StackPush sp) .nil))
  | .cons (.mk .StackPop sp) rest, o, map, fa, nf =>
    partitionTopLevel_char rest o map fa (nf.append (.cons (.mk .StackPop sp) .nil))
  | .cons (.mk (.Condition body) sp) rest, o, map, fa, nf =>
    partitionTopLevel_char rest o map fa (nf.append (.cons (.mk (.Condition body) sp) .nil))
  | .cons (.mk (.FunctionCall n2) sp) rest, o, map, fa, nf =>
    partitionTopLevel_char rest o map fa (nf.append (.cons (.mk (.FunctionCall n2) sp) .nil))
  | .cons (.mk (.ExternalFunctionCall n2) sp) rest, o, map, fa, nf =>
    partitionTopLevel_char rest o map fa (nf.append (.cons (.mk (.ExternalFunctionCall n2) sp) .nil))
  | .cons (.mk .OtherOp sp) rest, o, map, fa, nf =>
    partitionTopLevel_char rest o map fa (nf.append (.cons (.mk .OtherOp sp) .nil))


theorem updateFnSymbols_char (res : CodeAssemblerResult) (sc : ScopeManager) :
    ∀ (m : List (String × Nat)) (o o' : ObjectFile), updateFnSymbols res sc o m = .ok o' →
      o'.relocs = o.relocs ∧ o'.textData = o.textData ∧
      o'.symbols.length = o.symbols.length ∧
      (∀ j, (∀ q ∈ m, q.2 ≠ j) → o'.symbols.get? j = o.symbols.get? j) ∧
      (∀ j, o'.symbols.get? j = o.symbols.get? j ∨
        ∃ s ip, o.symbols.get? j = some s ∧
          o'.symbols.get? j = some { s with value := ip, size := 0, sect := SymSection.Section })
  | [], o, o', h => by
    have h2 : TResult.ok o = .ok o' := h
    injection h2 with h3
    subst h3
    exact ⟨rfl, rfl, rfl, fun j hj => rfl, fun j => Or.inl rfl⟩
  | (name, id) :: rest, o, o', h => by
    simp only [updateFnSymbols] at h
    cases hfn : sc.get_fn name with
    | none =>
      rw [hfn] at h
      exact TResult.noConfusion h
    | some lbl =>
      rw [hfn] at h
      have h8 : (match res.label_ip lbl with
          | none => TResult.diverged "couldnt find label ip"
          | some ip => updateFnSymbols res sc (o.set_symbol_data id ip 0) rest) =
          TResult.ok o' := h
      cases hip : res.label_ip lbl with
      | none =>
        rw [hip] at h8
        exact TResult.noConfusion h8
      | some ip =>
        rw [hip] at h8
        have h9 : updateFnSymbols res sc (o.set_symbol_data id ip 0) rest = .ok o' := h8
        obtain ⟨hrel, htd, hlen, hne, hpt⟩ := updateFnSymbols_char res sc rest _ o' h9
        have hmid_len : (o.set_symbol_data id ip 0).symbols.length = o.symbols.length := by
          show (listModify o.symbols id _).length = o.symbols.length
          exact listModify_length _ _ _
        refine ⟨hrel, htd, hlen.trans hmid_len, ?_, ?_⟩
        · intro j hj
          rw [hne j (fun q hq => hj q (List.mem_cons_of_mem _ hq))]
          show (listModify o.symbols id _).get? j = o.symbols.get? j
          exact listModify_get_ne _ _ _ _ (fun he => hj (name, id) (List.mem_cons_self _ _) he.symm)
        · intro j
          have hmid : (o.set_symbol_data id ip 0).symbols.get? j = o.symbols.get? j ∨
              ∃ s, o.symbols.get? j = some s ∧
                (o.set_symbol_data id ip 0).symbols.get? j =
                  some { s with value := ip, size := 0, sect := SymSection.Section } := by
            by_cases hj : j = id
            · subst hj
              cases hos : o.symbols.get? j with
              | none =>
                left
                show (listModify o.symbols j _).get? j = _
                rw [listModify_get_eq, hos]
                rfl
              | some s =>
                right
                refine ⟨s, rfl, ?_⟩
                show (listModify o.symbols j _).get? j = _
                rw [listModify_get_eq, hos]
                rfl
            · left
              show (listModify o.symbols id _).get? j = _
              exact listModify_get_ne _ _ _ _ hj
          rcases hpt j with h1 | ⟨s2, ip2, hs2, hs2'⟩
          · rcases hmid with h2 | ⟨s, hs, hs'⟩
            · exact Or.inl (h1.trans h2)
            · exact Or.inr ⟨s, ip, hs, h1.trans hs'⟩
          · rcases hmid with h2 | ⟨s, hs, hs'⟩
            · rw [h2] at hs2
              exact Or.inr ⟨s2, ip2, hs2, hs2'⟩
            · rw [hs'] at hs2
              injection hs2 with hs3
              subst hs3
              exact Or.inr ⟨s, ip2, hs, hs2'⟩
  
theorem updateFnSymbols_aligned (res : CodeAssemblerResult) (sc : ScopeManager) :
    ∀ (names : List String) (pre mid post : List ObjSymbol) (rel : List ObjRelocation)
      (td : List Nat) (o' : ObjectFile),
      mid.length = names.length →
      updateFnSymbols res sc ⟨pre ++ mid ++ post, rel, td⟩ (symIdMap pre.length names) =
        .ok o' →
      ∃ mid', o' = ⟨pre ++ mid' ++ post, rel, td⟩ ∧
        List.Forall₂ (fun (p : String × ObjSymbol) (s2 : ObjSymbol) =>
          ∃ l ip, sc.get_fn p.1 = some l ∧ res.label_ip l = some ip ∧
            s2 = { p.2 with value := ip, size := 0, sect := SymSection.Section })
          (names.zip mid) mid'
  | [], pre, mid, post, rel, td, o', hlen, h => by
    have hmid : mid = [] := List.length_eq_zero.mp hlen
    subst hmid
    have h2 : TResult.ok (⟨pre ++ [] ++ post, rel, td⟩ : ObjectFile) = .ok o' := h
    injection h2 with h3
    subst h3
    exact ⟨[], rfl, by simp⟩
  | n :: ns, pre, mid, post, rel, td, o', hlen, h => by
    cases mid with
    | nil => simp at hlen
    | cons m ms =>
      simp only [symIdMap, updateFnSymbols] at h
      cases hfn : sc.get_fn n with
      | none =>
        rw [hfn] at h
        exact TResult.noConfusion h
      | some lbl =>
        rw [hfn] at h
        have h8 : (match res.label_ip lbl with
            | none => TResult.diverged "couldnt find label ip"
            | some ip => updateFnSymbols res sc
                (ObjectFile.set_symbol_data ⟨pre ++ (m :: ms) ++ post, rel, td⟩
                  pre.length ip 0) (symIdMap (pre.length + 1) ns)) =
            TResult.ok o' := h
        cases hip : res.label_ip lbl with
        | none =>
          rw [hip] at h8
          exact TResult.noConfusion h8
        | some ip =>
          rw [hip] at h8
          have hmod : (ObjectFile.set_symbol_data ⟨pre ++ (m :: ms) ++ post, rel, td⟩
              pre.length ip 0) =
              ⟨(pre ++ [{ m with value := ip, size := 0, sect := SymSection.Section }]) ++
                ms ++ post, rel, td⟩ := by
            show (⟨listModify (pre ++ (m :: ms) ++ post) pre.length _, rel, td⟩ : ObjectFile) = _
            rw [show pre ++ (m :: ms) ++ post = pre ++ m :: (ms ++ post) by simp]
            rw [listModify_append]
            simp
          have hL : (pre ++ [{ m with value := ip, size := 0, sect := SymSection.Section }]).length = pre.length + 1 := by simp
          have h9 : updateFnSymbols res sc (⟨(pre ++ [{ m with value := ip, size := 0, sect := SymSection.Section }]) ++ ms ++ post, rel, td⟩ : ObjectFile) (symIdMap (pre ++ [{ m with value := ip, size := 0, sect := SymSection.Section }]).length ns) = .ok o' := by
            rw [hL, ← hmod]
            exact h8
          obtain ⟨mid', hobj, hrel2⟩ := updateFnSymbols_aligned res sc ns _ ms post rel td o'
            (by simpa using Nat.succ_injective (by simpa using hlen)) h9
          refine ⟨{ m with value := ip, size := 0, sect := SymSection.Section } :: mid', ?_, ?_⟩
          · rw [hobj]
            simp
          · exact .cons ⟨lbl, ip, hfn, hip, rfl⟩ hrel2

theorem relocFold :
    ∀ (tbl : List (String × List Nat)) (o : ObjectFile),
      tbl.foldl (fun acc p => add_relocations_for_external_symbol acc p.1 p.2) o =
      ⟨o.symbols ++ tbl.map (fun p => undefSym p.1),
       o.relocs ++ expectedRelocs o.symbols.length tbl, o.textData⟩
  | [], o => by
    obtain ⟨syms, rel, td⟩ := o
    simp [expectedRelocs]
  | (n, ips) :: rest, o => by
    show (rest.foldl (fun acc p => add_relocations_for_external_symbol acc p.1 p.2)
      (add_relocations_for_external_symbol o n ips)) = _
    rw [relocFold rest (add_relocations_for_external_symbol o n ips)]
    have hsym : (add_relocations_for_external_symbol o n ips).symbols =
        o.symbols ++ [undefSym n] := rfl
    have hrel : (add_relocations_for_external_symbol o n ips).relocs =
        o.relocs ++ ips.map (fun ip =>
          ({ offset := ip + 1, symbol := o.symbols.length, addend := -4, kind := .Relative,
             encoding := .X86RipRelative, size := 32 } : ObjRelocation)) := rfl
    have htd : (add_relocations_for_external_symbol o n ips).textData = o.textData := rfl
    rw [hsym, hrel, htd]
    rw [show (o.symbols ++ [undefSym n]).length = o.symbols.length + 1 by simp]
    show (⟨(o.symbols ++ [undefSym n]) ++ _, _, o.textData⟩ : ObjectFile) = _
    rw [List.append_assoc, List.append_assoc]
    rfl

theorem mem_expectedRelocs :
    ∀ (tbl : List (String × List Nat)) (u : Nat) (r : ObjRelocation),
      r ∈ expectedRelocs u tbl →
      r.addend = -4 ∧ r.kind = RelocKind.Relative ∧ r.encoding = RelocEncoding.X86RipRelative ∧
      r.size = 32 ∧ u ≤ r.symbol ∧ r.symbol < u + tbl.length ∧
      ∃ p ∈ tbl, ∃ ip ∈ p.2, r.offset = ip + 1
  | [], u, r, h => absurd h (List.not_mem_nil r)
  | (n, ips) :: rest, u, r, h => by
    simp only [expectedRelocs, List.mem_append] at h
    rcases h with h1 | h2
    · obtain ⟨ip, hip, hr⟩ := List.mem_map.mp h1
      subst hr
      refine ⟨rfl, rfl, rfl, rfl, le_refl u, ?_, (n, ips), List.mem_cons_self _ _, ip, hip, rfl⟩
      show u < u + ((n, ips) :: rest).length
      simp
    · obtain ⟨ha, hk, he, hs, hu1, hu2, p, hp, ip, hip, ho⟩ := mem_expectedRelocs rest (u + 1) r h2
      refine ⟨ha, hk, he, hs, by omega, ?_, p, List.mem_cons_of_mem _ hp, ip, hip, ho⟩
      show r.symbol < u + ((n, ips) :: rest).length
      simp only [List.length_cons]
      omega

theorem partitionTopLevel_map :
    ∀ (ast : IrNodeList) (o : ObjectFile) (map : List (String × Nat)) (fa nf : IrNodeList),
      (topFnNames ast).Nodup → (∀ n ∈ topFnNames ast, n ∉ map.map Prod.fst) →
      (partitionTopLevel o map fa nf ast).2.1 =
        map ++ symIdMap o.symbols.length (topFnNames ast)
  | .nil, o, map, fa, nf, hnd, hfresh => by
    show map = map ++ symIdMap o.symbols.length (topFnNames .nil)
    rw [show topFnNames .nil = [] from rfl]
    simp [symIdMap]
  | .cons (.mk (.Function name body) sp) rest, o, map, fa, nf, hnd, hfresh => by
    have htop : topFnNames (.cons (.mk (.Function name body) sp) rest) =
        name :: topFnNames rest := rfl
    rw [htop] at hnd hfresh
    have hfr1 : name ∉ map.map Prod.fst := hfresh name (List.mem_cons_self _ _)
    have step : partitionTopLevel o map fa nf (.cons (.mk (.Function name body) sp) rest) =
        partitionTopLevel
          (o.addSymbolId (preSym name)).1
          (assocUpdate map name (o.addSymbolId (preSym name)).2)
          (fa.append (.cons (.mk (.Function name body) sp) .nil)) nf rest := rfl
    rw [step]
    have hupd : assocUpdate map name (o.addSymbolId (preSym name)).2 =
        map ++ [(name, o.symbols.length)] := assocUpdate_fresh map name _ hfr1
    rw [partitionTopLevel_map rest (o.addSymbolId (preSym name)).1 _ _ nf
      (List.Nodup.of_cons hnd) ?fresh]
    case fresh =>
      intro n2 hn2
      rw [hupd]
      simp only [List.map_append, List.mem_append]
      intro hc
      rcases hc with hc1 | hc2
      · exact hfresh n2 (List.mem_cons_of_mem _ hn2) hc1
      · simp only [List.map_cons, List.map_nil, List.mem_singleton] at hc2
        subst hc2
        exact (List.nodup_cons.mp hnd).1 hn2
    rw [hupd]
    rw [show ((o.addSymbolId (preSym name)).1).symbols.length = o.symbols.length + 1 by
      show (o.symbols ++ [preSym name]).length = o.symbols.length + 1
      simp]
    rw [htop, List.append_assoc]
    rfl
  | .cons (.mk (.Add k) sp) rest, o, map, fa, nf, hnd, hfresh =>
    partitionTopLevel_map rest o map fa (nf.append (.cons (.mk (.Add k) sp) .nil)) hnd hfresh
  | .cons (.mk (.Subtract k) sp) rest, o, map, fa, nf, hnd, hfresh =>
    partitionTopLevel_map rest o map fa (nf.append (.cons (.mk (.Subtract k) sp) .nil)) hnd hfresh
  | .cons (.mk (.MoveRight k) sp) rest, o, map, fa, nf, hnd, hfresh =>
    partitionTopLevel_map rest o map fa (nf.append (.cons (.mk (.MoveRight k) sp) .nil)) hnd hfresh
  | .cons (.mk (.MoveLeft k) sp) rest, o, map, fa, nf, hnd, hfresh =>
    partitionTopLevel_map rest o map fa (nf.append (.cons (.mk (.MoveLeft k) sp) .nil)) hnd hfresh
  | .cons (.mk .StackPush sp) rest, o, map, fa, nf, hnd, hfresh =>
    partitionTopLevel_map rest o map fa (nf.append (.cons (.mk .StackPush sp) .nil)) hnd hfresh
  | .cons (.mk .StackPop sp) rest, o, map, fa, nf, hnd, hfresh =>
    partitionTopLevel_map rest o map fa (nf.append (.cons (.mk .StackPop sp) .nil)) hnd hfresh
  | .cons (.mk (.Condition body) sp) rest, o, map, fa, nf, hnd, hfresh =>
    partitionTopLevel_map rest o map fa (nf.append (.cons (.mk (.Condition body) sp) .nil)) hnd hfresh
  | .cons (.mk (.FunctionCall n2) sp) rest, o, map, fa, nf, hnd, hfresh =>
    partitionTopLevel_map rest o map fa (nf.append (.cons (.mk (.FunctionCall n2) sp) .nil)) hnd hfresh
  | .cons (.mk (.ExternalFunctionCall n2) sp) rest, o, map, fa, nf, hnd, hfresh =>
    partitionTopLevel_map rest o map fa (nf.append (.cons (.mk (.ExternalFunctionCall n2) sp) .nil)) hnd hfresh
  | .cons (.mk .OtherOp sp) rest, o, map, fa, nf, hnd, hfresh =>
    partitionTopLevel_map rest o map fa (nf.append (.cons (.mk .OtherOp sp) .nil)) hnd hfresh


theorem lookupAddr_of_bound :
    ∀ (items : List AsmItem) (base l : Nat), 1 ≤ bindCount items l →
      ∃ a, lookupAddr (labelAddrs base items) l = some a
  | [], base, l, h => by
    rw [bindCount_nil] at h
    omega
  | i :: rest, base, l, h => by
    rw [bindCount_cons] at h
    cases i with
    | bindLabel m =>
      by_cases hm : m = l
      · subst hm
        exact ⟨base, by simp [labelAddrs, lookupAddr]⟩
      · rw [if_neg (fun hc => hm (by injection hc))] at h
        obtain ⟨a, ha⟩ := lookupAddr_of_bound rest base l (by omega)
        refine ⟨a, ?_⟩
        show lookupAddr ((m, base) :: labelAddrs base rest) l = some a
        rw [show lookupAddr ((m, base) :: labelAddrs base rest) l =
          lookupAddr (labelAddrs base rest) l by simp [lookupAddr, List.find?_cons_of_neg, hm]]
        exact ha
    | zeroBytes =>
      rw [if_neg (fun hc => AsmItem.noConfusion hc)] at h
      exact lookupAddr_of_bound rest (base + itemSize .zeroBytes) l (by omega)
    | addCell k =>
      rw [if_neg (fun hc => AsmItem.noConfusion hc)] at h
      exact lookupAddr_of_bound rest (base + itemSize (.addCell k)) l (by omega)
    | subCell k =>
      rw [if_neg (fun hc => AsmItem.noConfusion hc)] at h
      exact lookupAddr_of_bound rest (base + itemSize (.subCell k)) l (by omega)
    | leaR8Add k =>
      rw [if_neg (fun hc => AsmItem.noConfusion hc)] at h
      exact lookupAddr_of_bound rest (base + itemSize (.leaR8Add k)) l (by omega)
    | leaR8Sub k =>
      rw [if_neg (fun hc => AsmItem.noConfusion hc)] at h
      exact lookupAddr_of_bound rest (base + itemSize (.leaR8Sub k)) l (by omega)
    | leaR9Add k =>
      rw [if_neg (fun hc => AsmItem.noConfusion hc)] at h
      exact lookupAddr_of_bound rest (base + itemSize (.leaR9Add k)) l (by omega)
    | leaR9Sub k =>
      rw [if_neg (fun hc => AsmItem.noConfusion hc)] at h
      exact lookupAddr_of_bound rest (base + itemSize (.leaR9Sub k)) l (by omega)
    | movAlCell =>
      rw [if_neg (fun hc => AsmItem.noConfusion hc)] at h
      exact lookupAddr_of_bound rest (base + itemSize .movAlCell) l (by omega)
    | movStackAl =>
      rw [if_neg (fun hc => AsmItem.noConfusion hc)] at h
      exact lookupAddr_of_bound rest (base + itemSize .movStackAl) l (by omega)
    | movAlStack =>
      rw [if_neg (fun hc => AsmItem.noConfusion hc)] at h
      exact lookupAddr_of_bound rest (base + itemSize .movAlStack) l (by omega)
    | movCellAl =>
      rw [if_neg (fun hc => AsmItem.noConfusion hc)] at h
      exact lookupAddr_of_bound rest (base + itemSize .movCellAl) l (by omega)
    | cmpCellZero =>
      rw [if_neg (fun hc => AsmItem.noConfusion hc)] at h
      exact lookupAddr_of_bound rest (base + itemSize .cmpCellZero) l (by omega)
    | je k =>
      rw [if_neg (fun hc => AsmItem.noConfusion hc)] at h
      exact lookupAddr_of_bound rest (base + itemSize (.je k)) l (by omega)
    | jmp k =>
      rw [if_neg (fun hc => AsmItem.noConfusion hc)] at h
      exact lookupAddr_of_bound rest (base + itemSize (.jmp k)) l (by omega)
    | callLabel k =>
      rw [if_neg (fun hc => AsmItem.noConfusion hc)] at h
      exact lookupAddr_of_bound rest (base + itemSize (.callLabel k)) l (by omega)
    | pushReg r =>
      rw [if_neg (fun hc => AsmItem.noConfusion hc)] at h
      exact lookupAddr_of_bound rest (base + itemSize (.pushReg r)) l (by omega)
    | popReg r =>
      rw [if_neg (fun hc => AsmItem.noConfusion hc)] at h
      exact lookupAddr_of_bound rest (base + itemSize (.popReg r)) l (by omega)
    | leaArg r k =>
      rw [if_neg (fun hc => AsmItem.noConfusion hc)] at h
      exact lookupAddr_of_bound rest (base + itemSize (.leaArg r k)) l (by omega)
    | ret =>
      rw [if_neg (fun hc => AsmItem.noConfusion hc)] at h
      exact lookupAddr_of_bound rest (base + itemSize .ret) l (by omega)

theorem topFnNames_append : ∀ (a b : IrNodeList),
    topFnNames (a.append b) = topFnNames a ++ topFnNames b
  | .nil, b => rfl
  | .cons (.mk (.Function name body) sp) rest, b => by
    show name :: topFnNames (rest.append b) = name :: topFnNames rest ++ topFnNames b
    rw [topFnNames_append rest b]
    rfl
  | .cons (.mk (.Add k) sp) rest, b => topFnNames_append rest b
  | .cons (.mk (.Subtract k) sp) rest, b => topFnNames_append rest b
  | .cons (.mk (.MoveRight k) sp) rest, b => topFnNames_append rest b
  | .cons (.mk (.MoveLeft k) sp) rest, b => topFnNames_append rest b
  | .cons (.mk .StackPush sp) rest, b => topFnNames_append rest b
  | .cons (.mk .StackPop sp) rest, b => topFnNames_append rest b
  | .cons (.mk (.Condition body) sp) rest, b => topFnNames_append rest b
  | .cons (.mk (.FunctionCall n2) sp) rest, b => topFnNames_append rest b
  | .cons (.mk (.ExternalFunctionCall n2) sp) rest, b => topFnNames_append rest b
  | .cons (.mk .OtherOp sp) rest, b => topFnNames_append rest b

theorem topFnNames_topFnNodes : ∀ (ns : IrNodeList),
    topFnNames (topFnNodes ns) = topFnNames ns
  | .nil => rfl
  | .cons (.mk (.Function name body) sp) rest => by
    show name :: topFnNames (topFnNodes rest) = name :: topFnNames rest
    rw [topFnNames_topFnNodes rest]
  | .cons (.mk (.Add k) sp) rest => topFnNames_topFnNodes rest
  | .cons (.mk (.Subtract k) sp) rest => topFnNames_topFnNodes rest
  | .cons (.mk (.MoveRight k) sp) rest => topFnNames_topFnNodes rest
  | .cons (.mk (.MoveLeft k) sp) rest => topFnNames_topFnNodes rest
  | .cons (.mk .StackPush sp) rest => topFnNames_topFnNodes rest
  | .cons (.mk .StackPop sp) rest => topFnNames_topFnNodes rest
  | .cons (.mk (.Condition body) sp) rest => topFnNames_topFnNodes rest
  | .cons (.mk (.FunctionCall n2) sp) rest => topFnNames_topFnNodes rest
  | .cons (.mk (.ExternalFunctionCall n2) sp) rest => topFnNames_topFnNodes rest
  | .cons (.mk .OtherOp sp) rest => topFnNames_topFnNodes rest

theorem allFnNodes_topFnNodes : ∀ (ns : IrNodeList), allFnNodes (topFnNodes ns)
  | .nil => trivial
  | .cons (.mk (.Function name body) sp) rest => allFnNodes_topFnNodes rest
  | .cons (.mk (.Add k) sp) rest => allFnNodes_topFnNodes rest
  | .cons (.mk (.Subtract k) sp) rest => allFnNodes_topFnNodes rest
  | .cons (.mk (.MoveRight k) sp) rest => allFnNodes_topFnNodes rest
  | .cons (.mk (.MoveLeft k) sp) rest => allFnNodes_topFnNodes rest
  | .cons (.mk .StackPush sp) rest => allFnNodes_topFnNodes rest
  | .cons (.mk .StackPop sp) rest => allFnNodes_topFnNodes rest
  | .cons (.mk (.Condition body) sp) rest => allFnNodes_topFnNodes rest
  | .cons (.mk (.FunctionCall n2) sp) rest => allFnNodes_topFnNodes rest
  | .cons (.mk (.ExternalFunctionCall n2) sp) rest => allFnNodes_topFnNodes rest
  | .cons (.mk .OtherOp sp) rest => allFnNodes_topFnNodes rest

theorem allFnNodes_append : ∀ (a b : IrNodeList),
    allFnNodes a → allFnNodes b → allFnNodes (a.append b)
  | .nil, b, _, hb => hb
  | .cons (.mk (.Function name body) sp) rest, b, ha, hb =>
    allFnNodes_append rest b ha hb
  | .cons (.mk (.Add k) sp) rest, b, ha, _ => ha.elim
  | .cons (.mk (.Subtract k) sp) rest, b, ha, _ => ha.elim
  | .cons (.mk (.MoveRight k) sp) rest, b, ha, _ => ha.elim
  | .cons (.mk (.MoveLeft k) sp) rest, b, ha, _ => ha.elim
  | .cons (.mk .StackPush sp) rest, b, ha, _ => ha.elim
  | .cons (.mk .StackPop sp) rest, b, ha, _ => ha.elim
  | .cons (.mk (.Condition body) sp) rest, b, ha, _ => ha.elim
  | .cons (.mk (.FunctionCall n2) sp) rest, b, ha, _ => ha.elim
  | .cons (.mk (.ExternalFunctionCall n2) sp) rest, b, ha, _ => ha.elim
  | .cons (.mk .OtherOp sp) rest, b, ha, _ => ha.elim

theorem topFnNames_sub_declared : ∀ (ns : IrNodeList),
    ∀ n ∈ topFnNames ns, n ∈ declaredFnsList ns
  | .cons (.mk (.Function name body) sp) rest, n, hn => by
    show n ∈ (name :: declaredFnsList body) ++ declaredFnsList rest
    rcases List.mem_cons.mp hn with rfl | hn2
    · simp
    · have := topFnNames_sub_declared rest n hn2
      simp [this]
  | .cons (.mk (.Add k) sp) rest, n, hn => by
    show n ∈ [] ++ declaredFnsList rest
    simpa using topFnNames_sub_declared rest n hn
  | .cons (.mk (.Subtract k) sp) rest, n, hn => by
    show n ∈ [] ++ declaredFnsList rest
    simpa using topFnNames_sub_declared rest n hn
  | .cons (.mk (.MoveRight k) sp) rest, n, hn => by
    show n ∈ [] ++ declaredFnsList rest
    simpa using topFnNames_sub_declared rest n hn
  | .cons (.mk (.MoveLeft k) sp) rest, n, hn => by
    show n ∈ [] ++ declaredFnsList rest
    simpa using topFnNames_sub_declared rest n hn
  | .cons (.mk .StackPush sp) rest, n, hn => by
    show n ∈ [] ++ declaredFnsList rest
    simpa using topFnNames_sub_declared rest n hn
  | .cons (.mk .StackPop sp) rest, n, hn => by
    show n ∈ [] ++ declaredFnsList rest
    simpa using topFnNames_sub_declared rest n hn
  | .cons (.mk (.Condition body) sp) rest, n, hn => by
    show n ∈ declaredFnsList body ++ declaredFnsList rest
    have := topFnNames_sub_declared rest n hn
    simp [this]
  | .cons (.mk (.FunctionCall n2) sp) rest, n, hn => by
    show n ∈ [] ++ declaredFnsList rest
    simpa using topFnNames_sub_declared rest n hn
  | .cons (.mk (.ExternalFunctionCall n2) sp) rest, n, hn => by
    show n ∈ [] ++ declaredFnsList rest
    simpa using topFnNames_sub_declared rest n hn
  | .cons (.mk .OtherOp sp) rest, n, hn => by
    show n ∈ [] ++ declaredFnsList rest
    simpa using topFnNames_sub_declared rest n hn


/-- Translating a list of top-level Function declarations from a state
with an empty scope stack leaves the stack empty and prepends exactly one
root registry entry per declaration, so get_global_functions grows by the
declared names in reverse order. -/
theorem translateNodes_root :
    ∀ (ns : IrNodeList) (s s' : TransSt), allFnNodes ns →
      s.scopes.scope_stack = [] → translateNodes s ns = .ok s' → StInv s →
      s'.scopes.scope_stack = [] ∧
      ∃ gs, s'.scopes.get_global_functions = gs ++ s.scopes.get_global_functions ∧
        gs.map Prod.fst = (topFnNames ns).reverse
  | .nil, s, s', _, hstk, h, _ => by
    have h2 : TResult.ok s = .ok s' := h
    injection h2 with h3
    subst h3
    exact ⟨hstk, [], by simp, by simp [topFnNames]⟩
  | .cons (.mk (.Function name body) sp) rest, s, s', hall, hstk, h, hinv => by
    obtain ⟨t, h1, h2⟩ := TResult.bind_eq_ok h
    obtain ⟨hinvT, hextT⟩ :=
      translateNode_inv (.mk (.Function name body) sp) s t h1 hinv
    obtain ⟨s3, hb, hf⟩ := TResult.bind_eq_ok h1
    injection hf with hf2
    subst hf2
    have hcount2 : ∀ l, bindCount [AsmItem.zeroBytes, AsmItem.bindLabel s.asm.nextLabel] l =
        if s.asm.nextLabel = l then 1 else 0 := by
      intro l
      simp [bindCount_cons, bindCount_nil]
    have hinv1 := step_state_inv s
      { s with asm := (s.asm.create_label.2.emit AsmItem.zeroBytes).emit (AsmItem.bindLabel s.asm.create_label.1) }
      [AsmItem.zeroBytes, AsmItem.bindLabel s.asm.nextLabel] 1
      (by simp) rfl rfl rfl
      (fun l => by
        rw [hcount2 l]
        split
        · rename_i hl
          exact ⟨by omega, fun _ => ⟨hinv.bound_lt l (by omega), by omega⟩⟩
        · exact ⟨by omega, by omega⟩) hinv
    have hb1 : bindCount ((s.asm.create_label.2.emit AsmItem.zeroBytes).emit
        (AsmItem.bindLabel s.asm.create_label.1)).items s.asm.nextLabel = 1 := by
      show bindCount ((s.asm.items ++ [AsmItem.zeroBytes]) ++
        [AsmItem.bindLabel s.asm.nextLabel]) _ = 1
      rw [List.append_assoc, bindCount_append,
        hinv.bound_lt s.asm.nextLabel (le_refl _),
        show [AsmItem.zeroBytes] ++ [AsmItem.bindLabel s.asm.nextLabel] =
          [AsmItem.zeroBytes, AsmItem.bindLabel s.asm.nextLabel] from rfl,
        hcount2, if_pos rfl]
    have hinv2 : StInv { s with
        asm := (s.asm.create_label.2.emit AsmItem.zeroBytes).emit (AsmItem.bindLabel s.asm.create_label.1)
        scopes := (s.scopes.push_fn name s.asm.create_label.1).push_scope name } := by
      refine StInv_push_fn name s.asm.create_label.1 s.scopes.scope_stack.isEmpty
        hinv1 rfl rfl rfl ?_ ?_
      · exact hb1
      · show s.asm.nextLabel < s.asm.nextLabel + 1
        omega
    obtain ⟨hinv3, hext3⟩ := translateNodes_inv body _ s3 hb hinv2
    have hstk3 : s3.scopes.scope_stack.map Prod.fst = [name] := by
      rw [hext3.stack]
      show ((name, 0) :: s.scopes.scope_stack).map Prod.fst = [name]
      rw [hstk]
      rfl
    have htstk : s3.scopes.scope_stack.tail = [] := by
      cases hc : s3.scopes.scope_stack with
      | nil => rfl
      | cons x xs =>
        rw [hc] at hstk3
        have : xs.map Prod.fst = [] := by
          have := congrArg List.tail hstk3
          simpa using this
        simpa using List.map_eq_nil.mp this
    have hglobT : s3.scopes.pop_scope.get_global_functions =
        (name, s.asm.nextLabel) :: s.scopes.get_global_functions := by
      rw [get_global_functions_congr (show s3.scopes.pop_scope.fns = s3.scopes.fns from rfl)]
      rw [hext3.root_pres (by
        show (name, 0) :: s.scopes.scope_stack ≠ []
        exact List.cons_ne_nil _ _)]
      rw [get_global_functions_congr (show ((s.scopes.push_fn name
        s.asm.create_label.1).push_scope name).fns =
        (s.scopes.push_fn name s.asm.create_label.1).fns from rfl)]
      rw [get_global_functions_push]
      rw [show s.scopes.scope_stack.isEmpty = true by rw [hstk]; rfl]
      rfl
    obtain ⟨hstk', gs2, hg2, hn2⟩ := translateNodes_root rest _ s' hall htstk h2 hinvT
    refine ⟨hstk', gs2 ++ [(name, s.asm.nextLabel)], ?_, ?_⟩
    · rw [hg2]
      show gs2 ++ s3.scopes.pop_scope.get_global_functions =
        (gs2 ++ [(name, s.asm.nextLabel)]) ++ s.scopes.get_global_functions
      rw [hglobT, List.append_assoc]
      rfl
    · rw [List.map_append, hn2]
      show (topFnNames rest).reverse ++ [name] = (name :: topFnNames rest).reverse
      rw [List.reverse_cons]
  | .cons (.mk (.Add k) sp) rest, s, s', hall, _, _, _ => hall.elim
  | .cons (.mk (.Subtract k) sp) rest, s, s', hall, _, _, _ => hall.elim
  | .cons (.mk (.MoveRight k) sp) rest, s, s', hall, _, _, _ => hall.elim
  | .cons (.mk (.MoveLeft k) sp) rest, s, s', hall, _, _, _ => hall.elim
  | .cons (.mk .StackPush sp) rest, s, s', hall, _, _, _ => hall.elim
  | .cons (.mk .StackPop sp) rest, s, s', hall, _, _, _ => hall.elim
  | .cons (.mk (.Condition body) sp) rest, s, s', hall, _, _, _ => hall.elim
  | .cons (.mk (.FunctionCall n2) sp) rest, s, s', hall, _, _, _ => hall.elim
  | .cons (.mk (.ExternalFunctionCall n2) sp) rest, s, s', hall, _, _, _ => hall.elim
  | .cons (.mk .OtherOp sp) rest, s, s', hall, _, _, _ => hall.elim


theorem set_add_symbols (o : ObjectFile) (s0 : ObjSymbol) (data : List Nat)
    (al ip sz : Nat) :
    (ObjectFile.set_symbol_data
      ((ObjectFile.add_symbol_data (o.addSymbolId s0).1 (o.addSymbolId s0).2 data al).1)
      (o.addSymbolId s0).2 ip sz).symbols =
    o.symbols ++ [{ s0 with value := ip, size := sz, sect := SymSection.Section }] := by
  show listModify (listModify (o.symbols ++ [s0]) o.symbols.length _) o.symbols.length _ = _
  rw [listModify_append o.symbols s0 []]
  rw [listModify_append o.symbols _ []]

theorem set_add_textData (o : ObjectFile) (s0 : ObjSymbol) (data : List Nat)
    (ip sz : Nat) (h : o.textData = []) :
    (ObjectFile.set_symbol_data
      ((ObjectFile.add_symbol_data (o.addSymbolId s0).1 (o.addSymbolId s0).2 data 16).1)
      (o.addSymbolId s0).2 ip sz).textData = data := by
  show o.textData ++ List.replicate (alignUp o.textData.length 16 - o.textData.length) 0 ++
    data = data
  rw [h]
  rfl

theorem set_add_relocs (o : ObjectFile) (s0 : ObjSymbol) (data : List Nat)
    (al ip sz : Nat) :
    (ObjectFile.set_symbol_data
      ((ObjectFile.add_symbol_data (o.addSymbolId s0).1 (o.addSymbolId s0).2 data al).1)
      (o.addSymbolId s0).2 ip sz).relocs = o.relocs := rfl

theorem forall2_names_eq {R : Nat → Nat → Prop} :
    ∀ {as bs : List (String × List Nat)},
      List.Forall₂ (fun p q => p.1 = q.1 ∧ List.Forall₂ R p.2 q.2) as bs →
      as.map Prod.fst = bs.map Prod.fst := by
  intro as bs h
  induction h with
  | nil => rfl
  | cons hR hrest ih =>
    simp only [List.map_cons, ih]
    rw [hR.1]


/-- Claim C3: compiling a program with external calls on a fresh compiler
yields exactly one undefined symbol per distinct recorded external name
(the non-undefined symbols come first), and the relocation list is
exactly the per-call-site batch: for the i-th external name, one
relocation per resolved call site at offset site + 1, addend -4, 32-bit
RIP-relative, against that name's undefined symbol; every relocation's
four operand bytes in the text section are forced to zero. -/
theorem C3_external_relocations
    (c : Compiler) (ast : IrNodeList) (filename : String) (obj : ObjectFile) (c2 : Compiler)
    (hext0 : c.external_calls = [])
    (hsc0 : c.scopes = ScopeManager.new)
    (h : compile_to_object_file c ast filename = .ok (obj, c2)) :
    ∃ res tbl base,
      translate_ir_node c (fnAstOf ast filename) = .ok (res, c2) ∧
      (c2.external_calls.map Prod.fst).Nodup ∧
      List.Forall₂ (fun (p q : String × List Nat) => p.1 = q.1 ∧
        List.Forall₂ (fun l ip => res.label_ip l = some ip) p.2 q.2)
        c2.external_calls tbl ∧
      obj.symbols = base ++ c2.external_calls.map (fun p => undefSym p.1) ∧
      (∀ s2 ∈ base, s2.sect ≠ SymSection.Undefined) ∧
      obj.relocs = expectedRelocs base.length tbl ∧
      (∀ r ∈ obj.relocs,
        r.addend = -4 ∧ r.kind = RelocKind.Relative ∧
        r.encoding = RelocEncoding.X86RipRelative ∧ r.size = 32 ∧
        r.offset + 4 ≤ obj.textData.length ∧
        ∀ j, j < 4 → obj.textData.get? (r.offset + j) = some 0) := by
  obtain ⟨rc, hrc, h2⟩ := TResult.bind_eq_ok h
  obtain ⟨res0, c2t⟩ := rc
  obtain ⟨obj3, hg, h3⟩ := TResult.bind_eq_ok h2
  obtain ⟨buf, hz, h4⟩ := TResult.bind_eq_ok h3
  obtain ⟨obj6, h5, h6⟩ := TResult.bind_eq_ok h4
  obtain ⟨externals, hx, h7⟩ := TResult.bind_eq_ok h6
  obtain ⟨obj8, hu, h8⟩ := TResult.bind_eq_ok h7
  have h9 : TResult.ok (obj8, c2t) = .ok (obj, c2) := h8
  injection h9 with h10
  injection h10 with hobj hc2
  subst hobj
  subst hc2
  -- the translated state and its invariant
  obtain ⟨s1, hs1, hasm⟩ := TResult.bind_eq_ok hrc
  have hinv0 : StInv ⟨c.calling_convention, c.external_calls, c.scopes, ⟨[], 0⟩⟩ := by
    refine ⟨fun l _ => rfl, fun l => ?_, ?_, ?_, ?_⟩
    · show bindCount [] l ≤ 1
      rw [bindCount_nil]
      omega
    · show (c.external_calls.map Prod.fst).Nodup
      rw [hext0]
      exact List.nodup_nil
    · intro p hp x hx
      rw [hext0] at hp
      exact absurd hp (List.not_mem_nil p)
    · intro e he
      rw [hsc0] at he
      exact absurd he (List.not_mem_nil e)
  obtain ⟨hinvS1, hextS1⟩ := translateNodes_inv (fnAstOf ast filename) _ s1 hs1 hinv0
  -- the assembler step fixes res0 and the returned compiler
  have hc2ext : c2t.external_calls = s1.external_calls := by
    cases hA : assembleItems c.settings.base_address s1.asm.items with
    | error e =>
      rw [hA] at hasm
      exact TResult.noConfusion hasm
    | ok res1 =>
      rw [hA] at hasm
      have h11 : TResult.ok (res1, { c with external_calls := s1.external_calls, scopes := s1.scopes }) = .ok (res0, c2t) := hasm
      injection h11 with h12
      injection h12 with hres hcc
      rw [← hcc]
  have hnodup : (c2t.external_calls.map Prod.fst).Nodup := by
    rw [hc2ext]
    exact hinvS1.ext_keys
  -- stage characterizations
  have hpart := partitionTopLevel_char ast (initialObj filename) [] .nil .nil
  obtain ⟨hpsyms, hprel, hptd, hpfa, hpids⟩ := hpart
  obtain ⟨hgrel, hgtd, gsyms, hgsyms, hgrel2⟩ :=
    addGlobalFnSymbols_char res0 c2t.scopes.get_global_functions
      (objPartition ast filename).1 obj3 hg
  obtain ⟨hzlen, hzpres, hzsites⟩ := zeroExternalCallBytes_char res0 c2t.external_calls
    res0.codeBuffer buf hz
  have hforall := externalSiteIps_char res0 c2t.external_calls externals hx
  -- the start-symbol stage: obj6 explicitly
  have hS : ∃ ip, obj6 =
      ObjectFile.set_symbol_data
        ((ObjectFile.add_symbol_data
          (obj3.addSymbolId ⟨"_start", 0, 0, .Text, .Dynamic, false, .Section⟩).1
          (obj3.addSymbolId ⟨"_start", 0, 0, .Text, .Dynamic, false, .Section⟩).2 buf 16).1)
        (obj3.addSymbolId ⟨"_start", 0, 0, .Text, .Dynamic, false, .Section⟩).2 ip 0 := by
    cases hfn : c2t.scopes.get_fn "_start" with
    | none =>
      rw [hfn] at h5
      exact TResult.noConfusion h5
    | some lbl =>
      rw [hfn] at h5
      have h5b : (match res0.label_ip lbl with
          | none => TResult.diverged "couldnt find label ip for start"
          | some ip => TResult.ok (ObjectFile.set_symbol_data
              ((ObjectFile.add_symbol_data
                (obj3.addSymbolId ⟨"_start", 0, 0, .Text, .Dynamic, false, .Section⟩).1
                (obj3.addSymbolId ⟨"_start", 0, 0, .Text, .Dynamic, false, .Section⟩).2 buf 16).1)
              (obj3.addSymbolId ⟨"_start", 0, 0, .Text, .Dynamic, false, .Section⟩).2 ip 0)) =
          TResult.ok obj6 := h5
      cases hip : res0.label_ip lbl with
      | none =>
        rw [hip] at h5b
        exact TResult.noConfusion h5b
      | some ip =>
        rw [hip] at h5b
        injection h5b with h5c
        exact ⟨ip, h5c.symm⟩
  obtain ⟨ipS, hobj6⟩ := hS
  -- obj6 fields
  have hobj6sym : obj6.symbols =
      obj3.symbols ++ [(⟨"_start", ipS, 0, .Text, .Dynamic, false, .Section⟩ : ObjSymbol)] := by
    rw [hobj6]
    exact set_add_symbols obj3 _ buf 16 ipS 0
  have htd3 : obj3.textData = [] := by
    rw [hgtd]
    show (partitionTopLevel (initialObj filename) [] .nil .nil ast).1.textData = []
    rw [hptd]
    rfl
  have hrel3 : obj3.relocs = [] := by
    rw [hgrel]
    show (partitionTopLevel (initialObj filename) [] .nil .nil ast).1.relocs = []
    rw [hprel]
    rfl
  have hobj6td : obj6.textData = buf := by
    rw [hobj6]
    exact set_add_textData obj3 _ buf ipS 0 htd3
  have hobj6rel : obj6.relocs = [] := by
    rw [hobj6, set_add_relocs]
    exact hrel3
  -- fold the relocation pass
  rw [relocFold externals obj6] at hu
  obtain ⟨hrel8, htd8, hlen8, hne8, hpt8⟩ :=
    updateFnSymbols_char res0 c2t.scopes _ _ obj8 hu
  have hrelocs_eq : obj8.relocs = expectedRelocs obj6.symbols.length externals := by
    have h1 : obj8.relocs = obj6.relocs ++ expectedRelocs obj6.symbols.length externals := hrel8
    rw [h1, hobj6rel]
    rfl
  have htext_eq : obj8.textData = buf := by
    have h1 : obj8.textData = obj6.textData := htd8
    rw [h1, hobj6td]
  have hsymlen : obj8.symbols.length =
      obj6.symbols.length + (c2t.external_calls.map (fun p => undefSym p.1)).length := by
    have h1 : obj8.symbols.length =
        (obj6.symbols ++ externals.map (fun p => undefSym p.1)).length := hlen8
    rw [h1, List.length_append]
    have h2 : externals.length = c2t.external_calls.length := (hforall.length_eq).symm
    simp [h2]
  -- ids in the partition map stay below the obj6 block
  have hidb : ∀ q ∈ (objPartition ast filename).2.1, q.2 < obj6.symbols.length := by
    intro q hq
    have h1 := hpids (fun q2 hq2 => absurd hq2 (List.not_mem_nil q2)) q hq
    have h2 : obj3.symbols.length =
        (partitionTopLevel (initialObj filename) [] .nil .nil ast).1.symbols.length +
          gsyms.length := by
      rw [hgsyms]
      simp only [List.length_append]
      rfl
    have h3 : obj6.symbols.length = obj3.symbols.length + 1 := by
      rw [hobj6sym]
      simp
    omega
  have hK : obj6.symbols.length ≤ obj8.symbols.length := by omega
  -- symbol-list split
  have hsplit : obj8.symbols = obj8.symbols.take obj6.symbols.length ++
      c2t.external_calls.map (fun p => undefSym p.1) := by
    refine list_eq_of_get _ _ (fun n => ?_)
    by_cases hn : n < obj6.symbols.length
    · rw [List.get?_append (by rw [List.length_take]; omega)]
      rw [List.get?_take hn]
    · have hbl : (obj8.symbols.take obj6.symbols.length).length = obj6.symbols.length := by
        rw [List.length_take]
        omega
      rw [List.get?_append_right (by omega)]
      rw [hbl]
      have hun : obj8.symbols.get? n =
          (obj6.symbols ++ externals.map (fun p => undefSym p.1)).get? n := by
        refine hne8 n (fun q hq => ?_)
        have := hidb q hq
        omega
      rw [hun, List.get?_append_right (by omega)]
      have hler : (externals.map (fun p => undefSym p.1)).get? (n - obj6.symbols.length) =
          (c2t.external_calls.map (fun p => undefSym p.1)).get? (n - obj6.symbols.length) := by
        have hnames : c2t.external_calls.map Prod.fst = externals.map Prod.fst :=
          forall2_names_eq hforall
        have hmm : externals.map (fun p => undefSym p.1) =
            c2t.external_calls.map (fun p => undefSym p.1) := by
          rw [show (fun (p : String × List Nat) => undefSym p.1) =
            (fun x => undefSym x) ∘ Prod.fst from rfl, ← List.map_map, ← List.map_map, hnames]
        rw [hmm]
      rw [hler]
  -- every symbol of the obj6 block is Section or NoSection
  have hmem6 : ∀ s2 ∈ obj6.symbols,
      s2.sect = SymSection.Section ∨ s2.sect = SymSection.NoSection := by
    rw [hobj6sym]
    intro s2 hs2
    rcases List.mem_append.mp hs2 with hs3 | hs3
    · rw [hgsyms] at hs3
      rcases List.mem_append.mp hs3 with hs4 | hs4
      · have hps : (objPartition ast filename).1.symbols =
            (initialObj filename).symbols ++ (topFnNames ast).map preSym := hpsyms
        rw [hps] at hs4
        rcases List.mem_append.mp hs4 with hs5 | hs5
        · have : s2 = (⟨filename, 0, 0, .File, .Compilation, false, .NoSection⟩ : ObjSymbol) := by
            have h1 : (initialObj filename).symbols =
                [(⟨filename, 0, 0, .File, .Compilation, false, .NoSection⟩ : ObjSymbol)] := rfl
            rw [h1] at hs5
            exact List.mem_singleton.mp hs5
          rw [this]
          exact Or.inr rfl
        · obtain ⟨n2, hn2, hps2⟩ := List.mem_map.mp hs5
          rw [← hps2]
          exact Or.inl rfl
      · obtain ⟨g, hgm, hgprop⟩ := forall2_mem_right hgrel2 s2 hs4
        exact Or.inl hgprop.2.2.2.1
    · rw [List.mem_singleton.mp hs3]
      exact Or.inl rfl
  -- pack the conclusions
  refine ⟨res0, externals, obj8.symbols.take obj6.symbols.length, hrc, hnodup, hforall,
    hsplit, ?_, ?_, ?_⟩
  · intro s2 hs2
    obtain ⟨n, hn⟩ := List.mem_iff_get?.mp hs2
    have hnlt : n < obj6.symbols.length := by
      have h1 := List.get?_eq_some.mp hn
      obtain ⟨hlt, _⟩ := h1
      rw [List.length_take] at hlt
      omega
    rw [List.get?_take hnlt] at hn
    rcases hpt8 n with h1 | ⟨s3, ip3, hs3, hs3m⟩
    · rw [h1] at hn
      have h2 : (obj6.symbols ++ externals.map (fun p => undefSym p.1)).get? n =
          obj6.symbols.get? n := List.get?_append hnlt
      rw [h2] at hn
      have hmem : s2 ∈ obj6.symbols := List.get?_mem hn
      rcases hmem6 s2 hmem with h3 | h3 <;> rw [h3] <;> intro hc <;> exact SymSection.noConfusion hc
    · rw [hs3m] at hn
      injection hn with hn2
      rw [← hn2]
      intro hc
      exact SymSection.noConfusion hc
  · have hbl : (obj8.symbols.take obj6.symbols.length).length = obj6.symbols.length := by
      rw [List.length_take]
      omega
    rw [hbl]
    exact hrelocs_eq
  · intro r hr
    rw [hrelocs_eq] at hr
    obtain ⟨ha, hk, he, hsz, hu1, hu2, p, hp, ip, hip, ho⟩ :=
      mem_expectedRelocs externals obj6.symbols.length r hr
    obtain ⟨pc, hpc, hpcR⟩ := forall2_mem_right hforall p hp
    obtain ⟨l, hl, hlip⟩ := forall2_mem_right hpcR.2 ip hip
    obtain ⟨ip0, hip0, hb0, hz0⟩ := hzsites pc hpc l hl
    rw [hlip] at hip0
    injection hip0 with hipe
    subst hipe
    refine ⟨ha, hk, he, hsz, ?_, ?_⟩
    · rw [htext_eq, hzlen]
      omega
    · intro j hj
      rw [htext_eq]
      rw [show r.offset + j = ip + (j + 1) by omega]
      exact hz0 (j + 1) (by omega) (by omega)


/-- Claim C3, witness: the concrete single-external-call program
instantiates the relocation theorem. -/
theorem C3_external_relocations_witness :
    compiler0.external_calls = [] ∧ compiler0.scopes = ScopeManager.new ∧
    compile_to_object_file compiler0 progHostFn "t.hf" = .ok (objHostFn, c2HostFn) ∧
    (∃ res tbl base,
      translate_ir_node compiler0 (fnAstOf progHostFn "t.hf") = .ok (res, c2HostFn) ∧
      (c2HostFn.external_calls.map Prod.fst).Nodup ∧
      List.Forall₂ (fun (p q : String × List Nat) => p.1 = q.1 ∧
        List.Forall₂ (fun l ip => res.label_ip l = some ip) p.2 q.2)
        c2HostFn.external_calls tbl ∧
      objHostFn.symbols = base ++ c2HostFn.external_calls.map (fun p => undefSym p.1) ∧
      (∀ s2 ∈ base, s2.sect ≠ SymSection.Undefined) ∧
      objHostFn.relocs = expectedRelocs base.length tbl ∧
      (∀ r ∈ objHostFn.relocs,
        r.addend = -4 ∧ r.kind = RelocKind.Relative ∧
        r.encoding = RelocEncoding.X86RipRelative ∧ r.size = 32 ∧
        r.offset + 4 ≤ objHostFn.textData.length ∧
        ∀ j, j < 4 → objHostFn.textData.get? (r.offset + j) = some 0)) :=
  ⟨rfl, rfl, rfl,
    C3_external_relocations compiler0 progHostFn "t.hf" objHostFn c2HostFn rfl rfl rfl⟩


theorem filter_name_count : ∀ (l : List ObjSymbol) (n : String),
    (l.filter (fun s2 => s2.name == n)).length = (l.map ObjSymbol.name).count n
  | [], n => rfl
  | s :: rest, n => by
    by_cases h : s.name = n
    · rw [List.filter_cons_of_pos (by simp [h]), List.length_cons,
        filter_name_count rest n, List.map_cons, List.count_cons]
      simp [h]
    · rw [List.filter_cons_of_neg (by simp [h]),
        filter_name_count rest n, List.map_cons, List.count_cons]
      simp [h]

theorem topFnNames_count_le : ∀ (ns : IrNodeList) (n : String),
    (topFnNames ns).count n ≤ (declaredFnsList ns).count n
  | .nil, n => le_refl _
  | .cons (.mk (.Function name body) sp) rest, n => by
    show ((name :: topFnNames rest).count n : Nat) ≤
      ((name :: declaredFnsList body) ++ declaredFnsList rest).count n
    rw [List.count_cons, List.count_append, List.count_cons]
    have h1 := topFnNames_count_le rest n
    have h2 : (0 : Nat) ≤ (declaredFnsList body).count n := Nat.zero_le _
    omega
  | .cons (.mk (.Add k) sp) rest, n => by
    show (topFnNames rest).count n ≤ ([] ++ declaredFnsList rest).count n
    simpa using topFnNames_count_le rest n
  | .cons (.mk (.Subtract k) sp) rest, n => by
    show (topFnNames rest).count n ≤ ([] ++ declaredFnsList rest).count n
    simpa using topFnNames_count_le rest n
  | .cons (.mk (.MoveRight k) sp) rest, n => by
    show (topFnNames rest).count n ≤ ([] ++ declaredFnsList rest).count n
    simpa using topFnNames_count_le rest n
  | .cons (.mk (.MoveLeft k) sp) rest, n => by
    show (topFnNames rest).count n ≤ ([] ++ declaredFnsList rest).count n
    simpa using topFnNames_count_le rest n
  | .cons (.mk .StackPush sp) rest, n => by
    show (topFnNames rest).count n ≤ ([] ++ declaredFnsList rest).count n
    simpa using topFnNames_count_le rest n
  | .cons (.mk .StackPop sp) rest, n => by
    show (topFnNames rest).count n ≤ ([] ++ declaredFnsList rest).count n
    simpa using topFnNames_count_le rest n
  | .cons (.mk (.Condition body) sp) rest, n => by
    show (topFnNames rest).count n ≤ (declaredFnsList body ++ declaredFnsList rest).count n
    rw [List.count_append]
    have := topFnNames_count_le rest n
    omega
  | .cons (.mk (.FunctionCall n2) sp) rest, n => by
    show (topFnNames rest).count n ≤ ([] ++ declaredFnsList rest).count n
    simpa using topFnNames_count_le rest n
  | .cons (.mk (.ExternalFunctionCall n2) sp) rest, n => by
    show (topFnNames rest).count n ≤ ([] ++ declaredFnsList rest).count n
    simpa using topFnNames_count_le rest n
  | .cons (.mk .OtherOp sp) rest, n => by
    show (topFnNames rest).count n ≤ ([] ++ declaredFnsList rest).count n
    simpa using topFnNames_count_le rest n

theorem declared_append : ∀ (a b : IrNodeList),
    declaredFnsList (a.append b) = declaredFnsList a ++ declaredFnsList b
  | .nil, b => rfl
  | .cons n rest, b => by
    show declaredFns n ++ declaredFnsList (rest.append b) =
      (declaredFns n ++ declaredFnsList rest) ++ declaredFnsList b
    rw [declared_append rest b, List.append_assoc]

theorem aligned_mid_names (res : CodeAssemblerResult) (sc : ScopeManager) :
    ∀ (names : List String) (mid2 : List ObjSymbol),
      List.Forall₂ (fun (p : String × ObjSymbol) (s2 : ObjSymbol) =>
        ∃ l ip, sc.get_fn p.1 = some l ∧ res.label_ip l = some ip ∧
          s2 = { p.2 with value := ip, size := 0, sect := SymSection.Section })
        (names.zip (names.map preSym)) mid2 →
      mid2.map ObjSymbol.name = names ∧
      (∀ s2 ∈ mid2, ∃ l ip, sc.get_fn s2.name = some l ∧ res.label_ip l = some ip ∧
        s2.value = ip ∧ s2.sect = SymSection.Section)
  | [], mid2, h => by
    cases h
    exact ⟨rfl, fun s2 hs2 => absurd hs2 (List.not_mem_nil s2)⟩
  | n :: ns, mid2, h => by
    have hz : ((n :: ns).zip ((n :: ns).map preSym)) =
        (n, preSym n) :: ns.zip (ns.map preSym) := rfl
    rw [hz] at h
    cases h with
    | cons hR hrest =>
      obtain ⟨hnames, hprops⟩ := aligned_mid_names res sc ns _ hrest
      obtain ⟨l, ip, hl, hip, hs⟩ := hR
      refine ⟨?_, ?_⟩
      · rw [List.map_cons, hnames, hs]
        rfl
      · intro s2 hs2
        rcases List.mem_cons.mp hs2 with rfl | hs3
        · rw [hs]
          exact ⟨l, ip, hl, hip, rfl, rfl⟩
        · exact hprops s2 hs3


theorem forall2_gsym_names (res : CodeAssemblerResult) :
    ∀ {gl : List (String × Nat)} {gsyms : List ObjSymbol},
      List.Forall₂ (fun (g : String × Nat) (s : ObjSymbol) =>
        s.name = g.1 ∧ s.kind = SymKind.Text ∧ s.scope = SymScope.Dynamic ∧
        s.sect = SymSection.Section ∧ s.size = 0 ∧ res.label_ip g.2 = some s.value)
        gl gsyms →
      gsyms.map ObjSymbol.name = gl.map Prod.fst := by
  intro gl gsyms h
  induction h with
  | nil => rfl
  | cons hR hrest ih =>
    simp only [List.map_cons, ih]
    rw [hR.1]

/-- Claim C5 (amended): the object artifact carries every top-level
declared function name as exactly TWO symbols (the pre-created exported
symbol re-valued by the fn_symbol_map pass, plus the duplicate emitted by
the get_global_functions loop), both valued at the function's resolved
label address with section placement, and the _start entry function is
likewise emitted as exactly TWO symbols, both valued at _start's resolved
label address with section placement; only the spec's one-symbol count is
refuted by the counterexample below, the resolved-offset valuation
survives. -/
theorem C5_function_symbols_twice
    (c : Compiler) (ast : IrNodeList) (filename : String) (obj : ObjectFile) (c2 : Compiler)
    (hext0 : c.external_calls = [])
    (hsc0 : c.scopes = ScopeManager.new)
    (h : compile_to_object_file c ast filename = .ok (obj, c2))
    (hnd : (declaredFnsList (fnAstOf ast filename)).Nodup)
    (hdisj : ∀ n ∈ topFnNames ast, n ∉ c2.external_calls.map Prod.fst)
    (hstart_ext : "_start" ∉ c2.external_calls.map Prod.fst)
    (hfile1 : filename ∉ topFnNames ast)
    (hfile2 : filename ≠ "_start") :
    ∃ res, translate_ir_node c (fnAstOf ast filename) = .ok (res, c2) ∧
      (∀ n ∈ topFnNames ast,
        ∃ l ip, c2.scopes.get_fn n = some l ∧ res.label_ip l = some ip ∧
          (obj.symbols.filter (fun s2 => s2.name == n)).length = 2 ∧
          ∀ s2 ∈ obj.symbols.filter (fun s2 => s2.name == n),
            s2.value = ip ∧ s2.sect = SymSection.Section) ∧
      (∃ l ip, c2.scopes.get_fn "_start" = some l ∧ res.label_ip l = some ip ∧
        (obj.symbols.filter (fun s2 => s2.name == "_start")).length = 2 ∧
        ∀ s2 ∈ obj.symbols.filter (fun s2 => s2.name == "_start"),
          s2.value = ip ∧ s2.sect = SymSection.Section) := by
  obtain ⟨rc, hrc, h2⟩ := TResult.bind_eq_ok h
  obtain ⟨res0, c2t⟩ := rc
  obtain ⟨obj3, hg, h3⟩ := TResult.bind_eq_ok h2
  obtain ⟨buf, hz, h4⟩ := TResult.bind_eq_ok h3
  obtain ⟨obj6, h5, h6⟩ := TResult.bind_eq_ok h4
  obtain ⟨externals, hx, h7⟩ := TResult.bind_eq_ok h6
  obtain ⟨obj8, hu, h8⟩ := TResult.bind_eq_ok h7
  have h9 : TResult.ok (obj8, c2t) = .ok (obj, c2) := h8
  injection h9 with h10
  injection h10 with hobj hc2
  subst hobj
  subst hc2
  obtain ⟨s1, hs1, hasm⟩ := TResult.bind_eq_ok hrc
  have hinv0 : StInv ⟨c.calling_convention, c.external_calls, c.scopes, ⟨[], 0⟩⟩ := by
    refine ⟨fun l _ => rfl, fun l => ?_, ?_, ?_, ?_⟩
    · show bindCount [] l ≤ 1
      rw [bindCount_nil]
      omega
    · show (c.external_calls.map Prod.fst).Nodup
      rw [hext0]
      exact List.nodup_nil
    · intro p hp x hx2
      rw [hext0] at hp
      exact absurd hp (List.not_mem_nil p)
    · intro e he
      rw [hsc0] at he
      exact absurd he (List.not_mem_nil e)
  obtain ⟨hinvS1, hextS1⟩ := translateNodes_inv (fnAstOf ast filename) _ s1 hs1 hinv0
  -- the assembler stage: the returned compiler and result
  have hstage : c2t.scopes = s1.scopes ∧ c2t.external_calls = s1.external_calls ∧
      res0.labelIps = labelAddrs c.settings.base_address s1.asm.items := by
    cases hA : assembleItems c.settings.base_address s1.asm.items with
    | error e =>
      rw [hA] at hasm
      exact TResult.noConfusion hasm
    | ok res1 =>
      rw [hA] at hasm
      have h11 : TResult.ok (res1, { c with external_calls := s1.external_calls, scopes := s1.scopes }) = .ok (res0, c2t) := hasm
      injection h11 with h12
      injection h12 with hres hcc
      have hips : res1.labelIps = labelAddrs c.settings.base_address s1.asm.items := by
        simp only [assembleItems] at hA
        by_cases hall2 : ((referencedLabels s1.asm.items).all
            (fun l => (lookupAddr (labelAddrs c.settings.base_address s1.asm.items) l).isSome)) = true
        · rw [if_pos hall2] at hA
          injection hA with hA2
          rw [← hA2]
        · rw [if_neg hall2] at hA
          exact Except.noConfusion hA
      rw [← hcc, ← hres]
      exact ⟨rfl, rfl, hips⟩
  obtain ⟨hc2sc, hc2ext, hres0ips⟩ := hstage
  -- partition facts
  obtain ⟨hpsyms, hprel, hptd, hpfa, hpids⟩ :=
    partitionTopLevel_char ast (initialObj filename) [] .nil .nil
  have hpfa2 : (objPartition ast filename).2.2.1 = topFnNodes ast := hpfa
  have hfae : fnAstOf ast filename = (topFnNodes ast).append
      (.cons (.mk (.Function "_start" (objPartition ast filename).2.2.2) ⟨(0, 0), 1⟩) .nil) := by
    show ((objPartition ast filename).2.2.1).append _ = _
    rw [hpfa2]
  have htopfa : topFnNames (fnAstOf ast filename) = topFnNames ast ++ ["_start"] := by
    rw [hfae, topFnNames_append, topFnNames_topFnNodes]
    rfl
  have hdecfa : declaredFnsList (fnAstOf ast filename) =
      declaredFnsList (topFnNodes ast) ++
        ("_start" :: declaredFnsList (objPartition ast filename).2.2.2) := by
    rw [hfae, declared_append]
    have h1 : declaredFnsList (.cons (.mk (.Function "_start" (objPartition ast filename).2.2.2) ⟨(0, 0), 1⟩) .nil) = ("_start" :: declaredFnsList (objPartition ast filename).2.2.2) ++ [] := rfl
    rw [h1, List.append_nil]
  -- name disjointness facts
  have hndtopfa : (topFnNames (fnAstOf ast filename)).Nodup := by
    rw [List.nodup_iff_count_le_one]
    intro a
    have h1 := topFnNames_count_le (fnAstOf ast filename) a
    have h2 : (declaredFnsList (fnAstOf ast filename)).count a ≤ 1 :=
      List.nodup_iff_count_le_one.mp hnd a
    omega
  have hndtop : (topFnNames ast).Nodup := by
    rw [htopfa] at hndtopfa
    exact (List.nodup_append.mp hndtopfa).1
  have hstarttop : "_start" ∉ topFnNames ast := by
    rw [htopfa] at hndtopfa
    intro hc
    exact (List.nodup_append.mp hndtopfa).2.2 hc (List.mem_singleton.mpr rfl)
  -- the root registry after translating the function sequence
  have hallfa : allFnNodes (fnAstOf ast filename) := by
    rw [hfae]
    exact allFnNodes_append _ _ (allFnNodes_topFnNodes ast) trivial
  have hstk0 : (⟨c.calling_convention, c.external_calls, c.scopes,
      (⟨[], 0⟩ : CodeAssembler)⟩ : TransSt).scopes.scope_stack = [] := by
    show c.scopes.scope_stack = []
    rw [hsc0]
    rfl
  obtain ⟨hstk1, gs, hgl0, hgsn⟩ := translateNodes_root (fnAstOf ast filename) _ s1
    hallfa hstk0 hs1 hinv0
  have hgl : s1.scopes.get_global_functions = gs := by
    rw [hgl0]
    have : (⟨c.calling_convention, c.external_calls, c.scopes,
        (⟨[], 0⟩ : CodeAssembler)⟩ : TransSt).scopes.get_global_functions = [] := by
      show c.scopes.get_global_functions = []
      rw [hsc0]
      rfl
    rw [this]
    simp
  -- registry names and counts
  have hfns1 : s1.scopes.fns.map Prod.fst = (declaredFnsList (fnAstOf ast filename)).reverse := by
    have h1 := hextS1.fns_names
    have h2 : (⟨c.calling_convention, c.external_calls, c.scopes,
        (⟨[], 0⟩ : CodeAssembler)⟩ : TransSt).scopes.fns.map Prod.fst = [] := by
      show c.scopes.fns.map Prod.fst = []
      rw [hsc0]
      rfl
    rw [h1, h2]
    simp
  have hcount1 : ∀ n ∈ topFnNames (fnAstOf ast filename),
      (s1.scopes.fns.map Prod.fst).count n = 1 := by
    intro n hn
    rw [hfns1, List.count_reverse]
    refine List.count_eq_one_of_mem hnd ?_
    have h1 := topFnNames_count_le (fnAstOf ast filename) n
    have h2 : 0 < (topFnNames (fnAstOf ast filename)).count n := List.count_pos_iff.mpr hn
    exact List.count_pos_iff.mp (by omega)
  -- label resolution for registered functions
  have hres_label : ∀ lbl, 1 ≤ bindCount s1.asm.items lbl →
      ∃ ip, res0.label_ip lbl = some ip := by
    intro lbl hb
    have h1 : res0.label_ip lbl = lookupAddr res0.labelIps lbl := rfl
    rw [h1, hres0ips]
    exact lookupAddr_of_bound s1.asm.items c.settings.base_address lbl hb
  have hlookup : ∀ n ∈ topFnNames (fnAstOf ast filename),
      ∀ lbl flag, (n, lbl, flag) ∈ s1.scopes.fns →
      s1.scopes.get_fn n = some lbl ∧ ∃ ip, res0.label_ip lbl = some ip := by
    intro n hn lbl flag hmem
    refine ⟨find_name_unique hmem (hcount1 n hn), ?_⟩
    obtain ⟨hb1, hb2⟩ := hinvS1.fn_bound (n, lbl, flag) hmem
    have hb3 : bindCount s1.asm.items lbl = 1 := hb1
    exact hres_label lbl (by omega)
  -- the global-symbol batch
  obtain ⟨hgrel, hgtd, gsyms, hgsyms, hgrel2⟩ :=
    addGlobalFnSymbols_char res0 c2t.scopes.get_global_functions
      (objPartition ast filename).1 obj3 hg
  have hglc : c2t.scopes.get_global_functions = gs := by
    rw [hc2sc, hgl]
  have hgsymnames : gsyms.map ObjSymbol.name = gs.map Prod.fst := by
    have h1 := forall2_gsym_names res0 hgrel2
    rw [h1, hglc]
  have hforall := externalSiteIps_char res0 c2t.external_calls externals hx
  have hkeys : externals.map Prod.fst = c2t.external_calls.map Prod.fst :=
    (forall2_names_eq hforall).symm
  -- the start-symbol stage, keeping the lookup equations it performed
  have hS : ∃ lbl ip, c2t.scopes.get_fn "_start" = some lbl ∧
      res0.label_ip lbl = some ip ∧ obj6 =
      ObjectFile.set_symbol_data
        ((ObjectFile.add_symbol_data
          (obj3.addSymbolId ⟨"_start", 0, 0, .Text, .Dynamic, false, .Section⟩).1
          (obj3.addSymbolId ⟨"_start", 0, 0, .Text, .Dynamic, false, .Section⟩).2 buf 16).1)
        (obj3.addSymbolId ⟨"_start", 0, 0, .Text, .Dynamic, false, .Section⟩).2 ip 0 := by
    cases hfn : c2t.scopes.get_fn "_start" with
    | none =>
      rw [hfn] at h5
      exact TResult.noConfusion h5
    | some lbl =>
      rw [hfn] at h5
      have h5b : (match res0.label_ip lbl with
          | none => TResult.diverged "couldnt find label ip for start"
          | some ip => TResult.ok (ObjectFile.set_symbol_data
              ((ObjectFile.add_symbol_data
                (obj3.addSymbolId ⟨"_start", 0, 0, .Text, .Dynamic, false, .Section⟩).1
                (obj3.addSymbolId ⟨"_start", 0, 0, .Text, .Dynamic, false, .Section⟩).2 buf 16).1)
              (obj3.addSymbolId ⟨"_start", 0, 0, .Text, .Dynamic, false, .Section⟩).2 ip 0)) =
          TResult.ok obj6 := h5
      cases hip : res0.label_ip lbl with
      | none =>
        rw [hip] at h5b
        exact TResult.noConfusion h5b
      | some ip =>
        rw [hip] at h5b
        injection h5b with h5c
        exact ⟨lbl, ip, rfl, hip, h5c.symm⟩
  obtain ⟨lblS, ipS, hfnS, hipS, hobj6⟩ := hS
  have hobj6sym : obj6.symbols =
      obj3.symbols ++ [(⟨"_start", ipS, 0, .Text, .Dynamic, false, .Section⟩ : ObjSymbol)] := by
    rw [hobj6]
    exact set_add_symbols obj3 _ buf 16 ipS 0
  -- the fn_symbol_map update pass, aligned on the pre-created symbols
  rw [relocFold externals obj6] at hu
  have hpsyms2 : (objPartition ast filename).1.symbols =
      (⟨filename, 0, 0, .File, .Compilation, false, .NoSection⟩ : ObjSymbol) ::
        (topFnNames ast).map preSym := by
    have h1 : (objPartition ast filename).1.symbols =
        (initialObj filename).symbols ++ (topFnNames ast).map preSym := hpsyms
    rw [h1]
    rfl
  have hsymsplit : obj6.symbols ++ externals.map (fun p => undefSym p.1) =
      [(⟨filename, 0, 0, .File, .Compilation, false, .NoSection⟩ : ObjSymbol)] ++
      (topFnNames ast).map preSym ++
      (gsyms ++ [(⟨"_start", ipS, 0, .Text, .Dynamic, false, .Section⟩ : ObjSymbol)] ++
        externals.map (fun p => undefSym p.1)) := by
    rw [hobj6sym, hgsyms, hpsyms2]
    simp
  rw [hsymsplit] at hu
  have hpmap2 : (objPartition ast filename).2.1 = symIdMap 1 (topFnNames ast) :=
    partitionTopLevel_map ast (initialObj filename) [] .nil .nil hndtop
      (fun n hn => List.not_mem_nil n)
  rw [hpmap2] at hu
  obtain ⟨mid2, hobj8, hmidrel⟩ := updateFnSymbols_aligned res0 c2t.scopes
    (topFnNames ast)
    [(⟨filename, 0, 0, .File, .Compilation, false, .NoSection⟩ : ObjSymbol)]
    ((topFnNames ast).map preSym)
    (gsyms ++ [(⟨"_start", ipS, 0, .Text, .Dynamic, false, .Section⟩ : ObjSymbol)] ++
      externals.map (fun p => undefSym p.1))
    _ _ obj8 (by simp) hu
  obtain ⟨hmidnames, hmidprops⟩ :=
    aligned_mid_names res0 c2t.scopes (topFnNames ast) mid2 hmidrel
  have hsyms8 : obj8.symbols =
      [(⟨filename, 0, 0, .File, .Compilation, false, .NoSection⟩ : ObjSymbol)] ++
      mid2 ++
      (gsyms ++ [(⟨"_start", ipS, 0, .Text, .Dynamic, false, .Section⟩ : ObjSymbol)] ++
        externals.map (fun p => undefSym p.1)) := by
    rw [hobj8]
  have hnu : (externals.map (fun p => undefSym p.1)).map ObjSymbol.name =
      externals.map Prod.fst := by
    rw [List.map_map]
    rfl
  have hnames8 : obj8.symbols.map ObjSymbol.name =
      filename :: ((topFnNames ast) ++
        (gs.map Prod.fst ++ ("_start" :: externals.map Prod.fst))) := by
    rw [hsyms8]
    simp only [List.map_append, hmidnames, hgsymnames, hnu]
    simp [List.append_assoc]
  -- per-name counting
  have hcounts : ∀ n2 : String, (obj8.symbols.map ObjSymbol.name).count n2 =
      (if filename = n2 then 1 else 0) + (topFnNames ast).count n2 +
      (gs.map Prod.fst).count n2 + (if "_start" = n2 then 1 else 0) +
      (externals.map Prod.fst).count n2 := by
    intro n2
    rw [hnames8, List.count_cons, List.count_append, List.count_append, List.count_cons]
    simp only [beq_iff_eq]
    omega
  have hgscount : ∀ n2 : String, (gs.map Prod.fst).count n2 =
      (topFnNames ast).count n2 + (if n2 = "_start" then 1 else 0) := by
    intro n2
    rw [hgsn, List.count_reverse, htopfa, List.count_append]
    have h1 : List.count n2 ["_start"] = if n2 = "_start" then 1 else 0 := by
      simp [List.count_singleton]
      split <;> rename_i hcc
      · rw [if_pos hcc.symm]
      · rw [if_neg (fun hx2 => hcc hx2.symm)]
    omega
  refine ⟨res0, hrc, ?_, ?_⟩
  · intro n hn
    have hne_start : n ≠ "_start" := fun he => hstarttop (he ▸ hn)
    have hnfa : n ∈ topFnNames (fnAstOf ast filename) := by
      rw [htopfa]
      exact List.mem_append_left _ hn
    -- the registry entry for n
    have hngs : n ∈ gs.map Prod.fst := by
      rw [hgsn, List.mem_reverse, htopfa]
      exact List.mem_append_left _ hn
    obtain ⟨g, hgmem, hgn⟩ := List.mem_map.mp hngs
    have hgmem1 : g ∈ s1.scopes.get_global_functions := by
      rw [hgl]
      exact hgmem
    have hgfns : (g.1, g.2, true) ∈ s1.scopes.fns := mem_global_functions hgmem1
    rw [hgn] at hgfns
    obtain ⟨hgetfn, ip, hip⟩ := hlookup n hnfa g.2 true hgfns
    refine ⟨g.2, ip, ?_, hip, ?_, ?_⟩
    · rw [hc2sc]
      exact hgetfn
    · -- count = 2
      rw [filter_name_count, hcounts n]
      rw [hgscount n]
      have h1 : (topFnNames ast).count n = 1 := List.count_eq_one_of_mem hndtop hn
      have h2 : (externals.map Prod.fst).count n = 0 := by
        rw [hkeys]
        exact List.count_eq_zero.mpr (hdisj n hn)
      have hneg1 : ¬ (filename = n) := fun he => hfile1 (by rw [he]; exact hn)
      have hneg3 : ¬ (("_start" : String) = n) := fun he => hne_start he.symm
      rw [h1, h2, if_neg hneg1, if_neg hne_start, if_neg hneg3]
    · -- all symbols named n carry the resolved value
      intro s2 hs2
      obtain ⟨hmem8, hname⟩ := List.mem_filter.mp hs2
      have hname2 : s2.name = n := by
        have := hname
        simpa using this
      rw [hsyms8] at hmem8
      rcases List.mem_append.mp hmem8 with hmm | hmm
      · rcases List.mem_append.mp hmm with hmm2 | hmm2
        · -- file symbol
          have heq9 : s2 = (⟨filename, 0, 0, .File, .Compilation, false, .NoSection⟩ : ObjSymbol) :=
            List.mem_singleton.mp hmm2
          have hfn3 : filename = n := by
            rw [heq9] at hname2
            exact hname2
          refine absurd ?_ hfile1
          rw [hfn3]
          exact hn
        · -- updated pre-created symbol
          obtain ⟨l2, ip2, hfn2, hip2, hval2, hsect2⟩ := hmidprops s2 hmm2
          rw [hname2, hc2sc, hgetfn] at hfn2
          injection hfn2 with hl2
          rw [← hl2] at hip2
          rw [hip] at hip2
          injection hip2 with hipe
          refine ⟨?_, hsect2⟩
          rw [hval2]
          exact hipe.symm
      · rcases List.mem_append.mp hmm with hmm2 | hmm2
        · rcases List.mem_append.mp hmm2 with hmm3 | hmm3
          · -- global-loop symbol
            obtain ⟨g2, hg2mem, hg2props⟩ := forall2_mem_right hgrel2 s2 hmm3
            have hg2mem1 : g2 ∈ s1.scopes.get_global_functions := by
              rw [hgl, ← hglc]
              exact hg2mem
            have hg2fns : (g2.1, g2.2, true) ∈ s1.scopes.fns := mem_global_functions hg2mem1
            have hg2n : g2.1 = n := by
              rw [← hg2props.1, hname2]
            rw [hg2n] at hg2fns
            obtain ⟨hgetfn2, _⟩ := hlookup n hnfa g2.2 true hg2fns
            rw [hgetfn] at hgetfn2
            injection hgetfn2 with hl2
            have hipval := hg2props.2.2.2.2.2
            rw [← hl2] at hipval
            rw [hip] at hipval
            injection hipval with hipe
            exact ⟨hipe.symm, hg2props.2.2.2.1⟩
          · -- synthesized start symbol
            have : s2 = (⟨"_start", ipS, 0, .Text, .Dynamic, false, .Section⟩ : ObjSymbol) :=
              List.mem_singleton.mp hmm3
            rw [this] at hname2
            exact absurd hname2.symm hne_start
        · -- undefined external symbol
          obtain ⟨p, hp, hps⟩ := List.mem_map.mp hmm2
          have : s2.name = p.1 := by
            rw [← hps]
            rfl
          have hpn : p.1 ∈ externals.map Prod.fst := List.mem_map.mpr ⟨p, hp, rfl⟩
          rw [hkeys] at hpn
          rw [this] at hname2
          rw [hname2] at hpn
          exact absurd hpn (hdisj n hn)
  · -- the _start entry symbol: resolved label, count 2, both at its offset
    have hnfa : "_start" ∈ topFnNames (fnAstOf ast filename) := by
      rw [htopfa]
      exact List.mem_append_right _ (List.mem_singleton.mpr rfl)
    have hngs : "_start" ∈ gs.map Prod.fst := by
      rw [hgsn, List.mem_reverse, htopfa]
      exact List.mem_append_right _ (List.mem_singleton.mpr rfl)
    obtain ⟨g, hgmem, hgn⟩ := List.mem_map.mp hngs
    have hgmem1 : g ∈ s1.scopes.get_global_functions := by
      rw [hgl]
      exact hgmem
    have hgfns : (g.1, g.2, true) ∈ s1.scopes.fns := mem_global_functions hgmem1
    rw [hgn] at hgfns
    obtain ⟨hgetfn, ip, hip⟩ := hlookup "_start" hnfa g.2 true hgfns
    have hlblS : lblS = g.2 := by
      have h1 : s1.scopes.get_fn "_start" = some lblS := by
        rw [← hc2sc]
        exact hfnS
      rw [hgetfn] at h1
      injection h1 with h2
      exact h2.symm
    have hipS2 : ipS = ip := by
      rw [hlblS] at hipS
      rw [hip] at hipS
      injection hipS with h2
      exact h2.symm
    refine ⟨g.2, ip, ?_, hip, ?_, ?_⟩
    · rw [hc2sc]
      exact hgetfn
    · rw [filter_name_count, hcounts "_start", hgscount "_start"]
      have h1 : (topFnNames ast).count "_start" = 0 := List.count_eq_zero.mpr hstarttop
      have h2 : (externals.map Prod.fst).count "_start" = 0 := by
        rw [hkeys]
        exact List.count_eq_zero.mpr hstart_ext
      have hpos2 : (("_start" : String) = "_start") := rfl
      rw [h1, h2, if_neg hfile2, if_pos hpos2]
    · intro s2 hs2
      obtain ⟨hmem8, hname⟩ := List.mem_filter.mp hs2
      have hname2 : s2.name = "_start" := by
        have := hname
        simpa using this
      rw [hsyms8] at hmem8
      rcases List.mem_append.mp hmem8 with hmm | hmm
      · rcases List.mem_append.mp hmm with hmm2 | hmm2
        · -- file symbol
          have heq9 : s2 = (⟨filename, 0, 0, .File, .Compilation, false, .NoSection⟩ : ObjSymbol) :=
            List.mem_singleton.mp hmm2
          have hfn3 : filename = "_start" := by
            rw [heq9] at hname2
            exact hname2
          exact absurd hfn3 hfile2
        · -- updated pre-created symbols carry only declared names
          have h1 : s2.name ∈ mid2.map ObjSymbol.name := List.mem_map_of_mem _ hmm2
          rw [hmidnames, hname2] at h1
          exact absurd h1 hstarttop
      · rcases List.mem_append.mp hmm with hmm2 | hmm2
        · rcases List.mem_append.mp hmm2 with hmm3 | hmm3
          · -- global-loop _start symbol
            obtain ⟨g2, hg2mem, hg2props⟩ := forall2_mem_right hgrel2 s2 hmm3
            have hg2mem1 : g2 ∈ s1.scopes.get_global_functions := by
              rw [hgl, ← hglc]
              exact hg2mem
            have hg2fns : (g2.1, g2.2, true) ∈ s1.scopes.fns := mem_global_functions hg2mem1
            have hg2n : g2.1 = "_start" := by
              rw [← hg2props.1, hname2]
            rw [hg2n] at hg2fns
            obtain ⟨hgetfn2, _⟩ := hlookup "_start" hnfa g2.2 true hg2fns
            rw [hgetfn] at hgetfn2
            injection hgetfn2 with hl2
            have hipval := hg2props.2.2.2.2.2
            rw [← hl2] at hipval
            rw [hip] at hipval
            injection hipval with hipe
            exact ⟨hipe.symm, hg2props.2.2.2.1⟩
          · -- the explicitly synthesized _start symbol
            have heq9 : s2 = (⟨"_start", ipS, 0, .Text, .Dynamic, false, .Section⟩ : ObjSymbol) :=
              List.mem_singleton.mp hmm3
            rw [heq9]
            exact ⟨hipS2, rfl⟩
        · -- undefined external symbol
          obtain ⟨p, hp, hps⟩ := List.mem_map.mp hmm2
          have h1 : s2.name = p.1 := by
            rw [← hps]
            rfl
          have hpn : p.1 ∈ externals.map Prod.fst := List.mem_map.mpr ⟨p, hp, rfl⟩
          rw [hkeys] at hpn
          rw [h1] at hname2
          rw [hname2] at hpn
          exact absurd hpn hstart_ext


/-- Claim C5, counterexample: compiling the single declaration
Function f on a fresh compiler emits TWO symbols named f and TWO named
_start, refuting "exactly one function symbol per top-level declared
function name and exactly one entry-function symbol". -/
theorem C5_single_symbol_refuted :
    compile_to_object_file compiler0 progFnF "t.hf" = .ok (objFnF, c2FnF) ∧
    topFnNames progFnF = ["f"] ∧
    (objFnF.symbols.filter (fun s2 => s2.name == "f")).length = 2 ∧
    (objFnF.symbols.filter (fun s2 => s2.name == "_start")).length = 2 :=
  ⟨rfl, rfl, rfl, rfl⟩

/-- Claim C5, witness for the amended theorem: the concrete one-function
program instantiates it. -/
theorem C5_function_symbols_twice_witness :
    compile_to_object_file compiler0 progFnF "t.hf" = .ok (objFnF, c2FnF) ∧
    (∃ res, translate_ir_node compiler0 (fnAstOf progFnF "t.hf") = .ok (res, c2FnF) ∧
      (∀ n ∈ topFnNames progFnF,
        ∃ l ip, c2FnF.scopes.get_fn n = some l ∧ res.label_ip l = some ip ∧
          (objFnF.symbols.filter (fun s2 => s2.name == n)).length = 2 ∧
          ∀ s2 ∈ objFnF.symbols.filter (fun s2 => s2.name == n),
            s2.value = ip ∧ s2.sect = SymSection.Section) ∧
      (∃ l ip, c2FnF.scopes.get_fn "_start" = some l ∧ res.label_ip l = some ip ∧
        (objFnF.symbols.filter (fun s2 => s2.name == "_start")).length = 2 ∧
        ∀ s2 ∈ objFnF.symbols.filter (fun s2 => s2.name == "_start"),
          s2.value = ip ∧ s2.sect = SymSection.Section)) :=
  ⟨rfl, C5_function_symbols_twice compiler0 progFnF "t.hf" objFnF c2FnF rfl rfl rfl
    (by decide) (by decide) (by decide) (by decide) (by decide)⟩

end HFCodegen
